import Mathlib

/-!
# Impala semantic analysis: the unification engine of `InferSema`

A shallow embedding of the union-find based unifier of
`src/impala/sema/infersema.cpp` (`InferSema::find`, `InferSema::unify`,
`InferSema::unify_by_rank`, `InferSema::constrain`) together with the part of
the type representation it relies on.

Conventions of the embedding.

* Types are hash-consed by the type table, so two handles are equal exactly
  when the terms are structurally equal; an `Unknown` carries its identity.
  A `const Type*` is therefore a value of the inductive type `Ty`.
* `representatives_` maps every `Type` to exactly one `Representative`, whose
  `type` field is the key it was created for and is never written again.  A
  `Representative*` is therefore the record `Representative` holding that key,
  and the mutable fields `parent` and `rank` are the two maps of `State`.
  An entry that has not been created yet is represented by the contents it is
  created with (`parent = this`, `rank = 0`), see `InferSema.init`.
* The recursion of `find` and `unify` is bounded by an explicit fuel argument;
  `none` means that the bound was hit.
* `rank` is a C++ `int`; it is incremented at most once per merge and is
  modelled as an unbounded natural number.
-/

namespace Impala

/-- Modelled from the spec: the primitive kinds of section 3.1 (`type.h` and
`tokenlist.h` are not part of the sources). -/
inductive PrimKind
  | bool | i8 | i16 | i32 | i64 | isize | u8 | u16 | u32 | u64 | usize | f32 | f64
  deriving DecidableEq, Repr

/-- Modelled from the spec: the two pointer kinds of section 3.1. -/
inductive PtrKind
  | Owned | Borrowed
  deriving DecidableEq, Repr

/-- Modelled from the spec: the structural type terms of section 3.1 (the
class hierarchy of `type.h` is not part of the sources).  One constructor per
variant of the table, with the attributes listed there. -/
inductive Ty where
  | prim (kind : PrimKind)
  | ptr (kind : PtrKind) (pointee : Ty) (is_mut : Bool) (addr_space : Int)
  | ref (pointee : Ty) (is_mut : Bool) (addr_space : Int)
  | definite_array (elem : Ty) (dim : Nat)
  | indefinite_array (elem : Ty)
  | simd (elem : Ty) (lanes : Nat)
  | tuple (ops : List Ty)
  | fn (ops : List Ty)
  | struct_type (decl : Nat) (ops : List Ty)
  | lambda (body : Ty) (name : String)
  | var (depth : Int)
  | unknown (id : Nat)
  | noret
  | error

namespace Ty

mutual
/-- Equality of type terms is decidable: handle equality of interned types is
structural equality, with identity on `Unknown`s. -/
def decEq : (a b : Ty) → Decidable (a = b)
  | prim k, b => match b with
    | prim k2 => decidable_of_iff (k = k2) (by simp)
    | ptr .. | ref .. | definite_array .. | indefinite_array .. | simd .. | tuple .. | fn ..
    | struct_type .. | lambda .. | var .. | unknown .. | noret | error => isFalse (by simp)
  | ptr k p m a, b => match b with
    | ptr k2 p2 m2 a2 =>
      let _ : Decidable (p = p2) := decEq p p2
      decidable_of_iff (k = k2 ∧ p = p2 ∧ m = m2 ∧ a = a2) (by simp)
    | prim .. | ref .. | definite_array .. | indefinite_array .. | simd .. | tuple .. | fn ..
    | struct_type .. | lambda .. | var .. | unknown .. | noret | error => isFalse (by simp)
  | ref p m a, b => match b with
    | ref p2 m2 a2 =>
      let _ : Decidable (p = p2) := decEq p p2
      decidable_of_iff (p = p2 ∧ m = m2 ∧ a = a2) (by simp)
    | prim .. | ptr .. | definite_array .. | indefinite_array .. | simd .. | tuple .. | fn ..
    | struct_type .. | lambda .. | var .. | unknown .. | noret | error => isFalse (by simp)
  | definite_array e d, b => match b with
    | definite_array e2 d2 =>
      let _ : Decidable (e = e2) := decEq e e2
      decidable_of_iff (e = e2 ∧ d = d2) (by simp)
    | prim .. | ptr .. | ref .. | indefinite_array .. | simd .. | tuple .. | fn ..
    | struct_type .. | lambda .. | var .. | unknown .. | noret | error => isFalse (by simp)
  | indefinite_array e, b => match b with
    | indefinite_array e2 =>
      let _ : Decidable (e = e2) := decEq e e2
      decidable_of_iff (e = e2) (by simp)
    | prim .. | ptr .. | ref .. | definite_array .. | simd .. | tuple .. | fn ..
    | struct_type .. | lambda .. | var .. | unknown .. | noret | error => isFalse (by simp)
  | simd e l, b => match b with
    | simd e2 l2 =>
      let _ : Decidable (e = e2) := decEq e e2
      decidable_of_iff (e = e2 ∧ l = l2) (by simp)
    | prim .. | ptr .. | ref .. | definite_array .. | indefinite_array .. | tuple .. | fn ..
    | struct_type .. | lambda .. | var .. | unknown .. | noret | error => isFalse (by simp)
  | tuple o, b => match b with
    | tuple o2 =>
      let _ : Decidable (o = o2) := decEqList o o2
      decidable_of_iff (o = o2) (by simp)
    | prim .. | ptr .. | ref .. | definite_array .. | indefinite_array .. | simd .. | fn ..
    | struct_type .. | lambda .. | var .. | unknown .. | noret | error => isFalse (by simp)
  | fn o, b => match b with
    | fn o2 =>
      let _ : Decidable (o = o2) := decEqList o o2
      decidable_of_iff (o = o2) (by simp)
    | prim .. | ptr .. | ref .. | definite_array .. | indefinite_array .. | simd .. | tuple ..
    | struct_type .. | lambda .. | var .. | unknown .. | noret | error => isFalse (by simp)
  | struct_type d o, b => match b with
    | struct_type d2 o2 =>
      let _ : Decidable (o = o2) := decEqList o o2
      decidable_of_iff (d = d2 ∧ o = o2) (by simp)
    | prim .. | ptr .. | ref .. | definite_array .. | indefinite_array .. | simd .. | tuple ..
    | fn .. | lambda .. | var .. | unknown .. | noret | error => isFalse (by simp)
  | lambda bd n, b => match b with
    | lambda bd2 n2 =>
      let _ : Decidable (bd = bd2) := decEq bd bd2
      decidable_of_iff (bd = bd2 ∧ n = n2) (by simp)
    | prim .. | ptr .. | ref .. | definite_array .. | indefinite_array .. | simd .. | tuple ..
    | fn .. | struct_type .. | var .. | unknown .. | noret | error => isFalse (by simp)
  | var d, b => match b with
    | var d2 => decidable_of_iff (d = d2) (by simp)
    | prim .. | ptr .. | ref .. | definite_array .. | indefinite_array .. | simd .. | tuple ..
    | fn .. | struct_type .. | lambda .. | unknown .. | noret | error => isFalse (by simp)
  | unknown i, b => match b with
    | unknown j => decidable_of_iff (i = j) (by simp)
    | prim .. | ptr .. | ref .. | definite_array .. | indefinite_array .. | simd .. | tuple ..
    | fn .. | struct_type .. | lambda .. | var .. | noret | error => isFalse (by simp)
  | noret, b => match b with
    | noret => isTrue rfl
    | prim .. | ptr .. | ref .. | definite_array .. | indefinite_array .. | simd .. | tuple ..
    | fn .. | struct_type .. | lambda .. | var .. | unknown .. | error => isFalse (by simp)
  | error, b => match b with
    | error => isTrue rfl
    | prim .. | ptr .. | ref .. | definite_array .. | indefinite_array .. | simd .. | tuple ..
    | fn .. | struct_type .. | lambda .. | var .. | unknown .. | noret => isFalse (by simp)
/-- Equality of operand lists is decidable. -/
def decEqList : (as bs : List Ty) → Decidable (as = bs)
  | [], bs => match bs with
    | [] => isTrue rfl
    | _ :: _ => isFalse (by simp)
  | a :: as, bs => match bs with
    | [] => isFalse (by simp)
    | b :: bs =>
      let _ : Decidable (a = b) := decEq a b
      let _ : Decidable (as = bs) := decEqList as bs
      decidable_of_iff (a = b ∧ as = bs) (by simp)
end

instance : DecidableEq Ty := decEq

end Ty

namespace Ty

/-- Modelled from the spec: the operands of a type term (`Type::ops()` of the
missing `type.h`); the children listed for each variant in section 3.1. -/
def ops : Ty → List Ty
  | ptr _ p _ _ => [p]
  | ref p _ _ => [p]
  | definite_array e _ => [e]
  | indefinite_array e => [e]
  | simd e _ => [e]
  | tuple o => o
  | fn o => o
  | struct_type _ o => o
  | lambda b _ => [b]
  | _ => []

/-- The number of operands, `Type::num_ops()`. -/
def num_ops (t : Ty) : Nat := t.ops.length

/-- The operand at an index, `Type::op(i)`; only used below `num_ops`. -/
def op (t : Ty) (i : Nat) : Ty := t.ops.getD i error

/-- Modelled from the spec: the top-level tags (`Type::tag()` of the missing
`type.h`).  Borrowed and owned pointers are distinct classes in the sources
(`BorrowedPtrType`, `OwnedPtrType`) and carry distinct tags. -/
inductive Tag
  | prim (kind : PrimKind)
  | borrowed_ptr | owned_ptr | ref | definite_array | indefinite_array | simd
  | tuple | fn | struct_type | lambda | var | unknown | noret | error
  deriving DecidableEq, Repr

/-- The top-level tag of a type term. -/
def tag : Ty → Tag
  | prim k => Tag.prim k
  | ptr PtrKind.Borrowed _ _ _ => Tag.borrowed_ptr
  | ptr PtrKind.Owned _ _ _ => Tag.owned_ptr
  | ref _ _ _ => Tag.ref
  | definite_array _ _ => Tag.definite_array
  | indefinite_array _ => Tag.indefinite_array
  | simd _ _ => Tag.simd
  | tuple _ => Tag.tuple
  | fn _ => Tag.fn
  | struct_type _ _ => Tag.struct_type
  | lambda _ _ => Tag.lambda
  | var _ => Tag.var
  | unknown _ => Tag.unknown
  | noret => Tag.noret
  | error => Tag.error

mutual
/-- Modelled from the spec: a type is known iff it contains no `Unknown`
(section 3.1, `Type::is_known()` of the missing `type.h`). -/
def is_known : Ty → Bool
  | prim _ => true
  | ptr _ p _ _ => is_known p
  | ref p _ _ => is_known p
  | definite_array e _ => is_known e
  | indefinite_array e => is_known e
  | simd e _ => is_known e
  | tuple o => all_known o
  | fn o => all_known o
  | struct_type _ o => all_known o
  | lambda b _ => is_known b
  | var _ => true
  | unknown _ => false
  | noret => true
  | error => true
/-- All types of a list are known. -/
def all_known : List Ty → Bool
  | [] => true
  | t :: ts => is_known t && all_known ts
end

mutual
/-- A type contains no `Error`. -/
def error_free : Ty → Bool
  | prim _ => true
  | ptr _ p _ _ => error_free p
  | ref p _ _ => error_free p
  | definite_array e _ => error_free e
  | indefinite_array e => error_free e
  | simd e _ => error_free e
  | tuple o => all_error_free o
  | fn o => all_error_free o
  | struct_type _ o => all_error_free o
  | lambda b _ => error_free b
  | var _ => true
  | unknown _ => true
  | noret => true
  | error => false
/-- No type of a list contains `Error`. -/
def all_error_free : List Ty → Bool
  | [] => true
  | t :: ts => error_free t && all_error_free ts
end

/-- Modelled from the spec: `Type::rebuild(ops)` of the missing `type.h`,
"rebuild with the original tag" (section 4.3.1, step 8): the same variant with
the same attributes over the new operands.  It is only called with as many
operands as the term has. -/
def rebuild : Ty → List Ty → Ty
  | ptr k _ m a, [p] => ptr k p m a
  | ref _ m a, [p] => ref p m a
  | definite_array _ d, [e] => definite_array e d
  | indefinite_array _, [e] => indefinite_array e
  | simd _ l, [e] => simd e l
  | tuple _, o => tuple o
  | fn _, o => fn o
  | struct_type d _, o => struct_type d o
  | lambda _ n, [b] => lambda b n
  | t, _ => t

/-- Holds for a `TupleType`, `isa<TupleType>()`. -/
def isTuple : Ty → Bool
  | tuple _ => true
  | _ => false

/-- Holds for a `FnType`, `isa<FnType>()`. -/
def isFn : Ty → Bool
  | fn _ => true
  | _ => false

/-- Holds for an `UnknownType`, `isa<UnknownType>()`. -/
def isUnknown : Ty → Bool
  | unknown _ => true
  | _ => false

/-- Holds for a `TypeError`, `isa<TypeError>()`. -/
def isError : Ty → Bool
  | error => true
  | _ => false

/-- Holds for a `BorrowedPtrType`, `isa<BorrowedPtrType>()`. -/
def isBorrowedPtr : Ty → Bool
  | ptr PtrKind.Borrowed _ _ _ => true
  | _ => false

/-- Holds for an `OwnedPtrType`, `isa<OwnedPtrType>()`. -/
def isOwnedPtr : Ty → Bool
  | ptr PtrKind.Owned _ _ _ => true
  | _ => false

/-- Holds for an `IndefiniteArrayType`. -/
def isIndefiniteArray : Ty → Bool
  | indefinite_array _ => true
  | _ => false

/-- Holds for a `DefiniteArrayType`. -/
def isDefiniteArray : Ty → Bool
  | definite_array _ _ => true
  | _ => false

/-- The address space of a pointer type, `PtrType::addr_space()`. -/
def addr_space : Ty → Int
  | ptr _ _ _ a => a
  | ref _ _ a => a
  | _ => 0

/-- The mutability of a pointer type, `PtrType::is_mut()`. -/
def is_mut : Ty → Bool
  | ptr _ _ m _ => m
  | ref _ m _ => m
  | _ => false

end Ty

/-- Modelled from the spec: `ptr(Borrowed, pointee, mut, addr_space)` of section
4.1, `TypeTable::borrowed_ptr_type` of the missing `typetable.h`. -/
def borrowed_ptr_type (pointee : Ty) (is_mut : Bool) (addr_space : Int) : Ty :=
  Ty.ptr PtrKind.Borrowed pointee is_mut addr_space

/-- Modelled from the spec: `indef_array(elem)` of section 4.1,
`TypeTable::indefinite_array_type` of the missing `typetable.h`. -/
def indefinite_array_type (elem : Ty) : Ty := Ty.indefinite_array elem

/-- A `Representative*`: the entry of `representatives_` created for `type`.
The fields `parent` and `rank` live in `State`. -/
structure Representative where
  type : Ty
  deriving DecidableEq

/-- The mutable state of `InferSema`: the `parent` and `rank` fields of all
representatives and the `todo_` flag. -/
structure State where
  parent : Representative → Representative
  rank : Representative → Nat
  todo_ : Bool

namespace InferSema

/-- The state of a freshly constructed `InferSema`: no representative has been
merged (every entry is created with `parent = this` and `rank = 0`) and
`todo_ = true`. -/
def init : State :=
  { parent := fun r => r, rank := fun _ => 0, todo_ := true }

/-- `InferSema::representative(type)`: the entry of `representatives_` for
`type`, created with `parent = this`, `rank = 0` on first use. -/
def representative (type : Ty) : Representative := ⟨type⟩

/-- `InferSema::find(Representative*)`: follows the parent links to the root
and compresses the path, setting `todo_` whenever a non-root is visited. -/
def find_repr : Nat → State → Representative → Option (Representative × State)
  | 0, _, _ => none
  | fuel + 1, s, repr =>
    if s.parent repr ≠ repr then
      match find_repr fuel { s with todo_ := true } (s.parent repr) with
      | none => none
      | some (root, s1) => some (root, { s1 with parent := Function.update s1.parent repr root })
    else
      some (s.parent repr, s)

/-- `InferSema::find(const Type*)`: the type of the root of `type`. -/
def find (fuel : Nat) (s : State) (type : Ty) : Option (Ty × State) :=
  match find_repr fuel s (representative type) with
  | none => none
  | some (root, s1) => some (root.type, s1)

/-- `InferSema::unify(Representative*, Representative*)`: `x` becomes the
parent of `y`; returns `x`. -/
def unify_repr (s : State) (x y : Representative) : Representative × State :=
  if x = y then (x, s)
  else
    (x, { parent := Function.update s.parent y x
          rank := Function.update s.rank x (s.rank x + 1)
          todo_ := true })

/-- `InferSema::unify_by_rank`: the root of smaller rank is put below the
other one; on equal ranks `y` is put below `x` and the rank of `x` grows. -/
def unify_by_rank (s : State) (x y : Representative) : Representative × State :=
  if x = y then (x, s)
  else if s.rank x < s.rank y then
    (y, { s with parent := Function.update s.parent x y })
  else if s.rank x > s.rank y then
    (x, { s with parent := Function.update s.parent y x })
  else
    (x, { s with parent := Function.update s.parent y x
                 rank := Function.update s.rank x (s.rank x + 1) })

/-- The loop `for i: op[i] = unify(dst->op(i), src->op(i))` of
`InferSema::unify`, over operand lists of equal length, threading the state
from one call to the next. -/
def unify_ops (u : State → Ty → Ty → Option (Ty × State)) :
    State → List Ty → List Ty → Option (List Ty × State)
  | s, d :: ds, t :: ts =>
    match u s d t with
    | none => none
    | some (r, s1) =>
      match unify_ops u s1 ds ts with
      | none => none
      | some (rs, s2) => some (r :: rs, s2)
  | s, _, _ => some ([], s)

/-- Singleton tuples are normalized to their element (first step of the body
of `InferSema::unify`). -/
def normalize (t : Ty) : Ty :=
  if t.isTuple && t.num_ops == 1 then t.op 0 else t

/-- The condition of the `HACK` of `InferSema::unify`: `a` is a function type
of arity other than one and `b` is a function type over a single `Unknown`. -/
def fn_hack (a b : Ty) : Bool :=
  a.isFn && b.isFn && (a.num_ops != 1 && b.num_ops == 1 && (b.op 0).isUnknown)

/-- The end of `InferSema::unify(const Type*, const Type*)`, after the
operands have been unified into `op`: pointer coercion, array coercion,
rebuild on equal tags, and `dst` otherwise. -/
def unify_result (dst src : Ty) (op : List Ty) : Ty :=
  if dst.isBorrowedPtr && src.isOwnedPtr && src.addr_space == dst.addr_space then
    borrowed_ptr_type (op.getD 0 Ty.error) dst.is_mut dst.addr_space
  else if dst.isIndefiniteArray && src.isDefiniteArray then
    indefinite_array_type (op.getD 0 Ty.error)
  else if dst.tag = src.tag then dst.rebuild op
  else dst

/-- The body of `InferSema::unify(const Type*, const Type*)` once the roots
`dst_repr` and `src_repr` of the two arguments have been found; `u` is the
recursive call on the operands. -/
def unify_body (u : State → Ty → Ty → Option (Ty × State)) (s2 : State)
    (dst_repr src_repr : Representative) : Option (Ty × State) :=
  let src := normalize src_repr.type
  let dst := normalize dst_repr.type
  if fn_hack dst src && dst.is_known then
    some ((unify_repr s2 dst_repr src_repr).1.type, (unify_repr s2 dst_repr src_repr).2)
  else if fn_hack src dst && src.is_known then
    some ((unify_repr s2 src_repr dst_repr).1.type, (unify_repr s2 src_repr dst_repr).2)
  else if dst = src ∧ dst.is_known = true then some (dst, s2)
  else if dst.isError then some (src, s2)
  else if src.isError then some (dst, s2)
  else if dst.isUnknown && src.isUnknown then
    some ((unify_by_rank s2 dst_repr src_repr).1.type, (unify_by_rank s2 dst_repr src_repr).2)
  else if dst.isUnknown then
    some ((unify_repr s2 src_repr dst_repr).1.type, (unify_repr s2 src_repr dst_repr).2)
  else if src.isUnknown then
    some ((unify_repr s2 dst_repr src_repr).1.type, (unify_repr s2 dst_repr src_repr).2)
  else if dst.num_ops = src.num_ops then
    match unify_ops u s2 dst.ops src.ops with
    | none => none
    | some (op, s3) => some (unify_result dst src op, s3)
  else some (dst, s2)

/-- `InferSema::unify(const Type*, const Type*)`: the roots of both arguments
are found, then `unify_body` runs on them. -/
def unify : Nat → State → Ty → Ty → Option (Ty × State)
  | 0, _, _, _ => none
  | fuel + 1, s, dst, src =>
    match find_repr (fuel + 1) s (representative dst) with
    | none => none
    | some (dst_repr, s1) =>
      match find_repr (fuel + 1) s1 (representative src) with
      | none => none
      | some (src_repr, s2) => unify_body (unify fuel) s2 dst_repr src_repr

/-- `InferSema::constrain(const Type*& t, const Type* u)`: an empty slot is
set to `find(u)`, a filled one to `unify(t, u)`; the result is the new content
of the slot. -/
def constrain (fuel : Nat) (s : State) (t : Option Ty) (u : Ty) : Option (Ty × State) :=
  match t with
  | none => find fuel s u
  | some t => unify fuel s t u

/-- The states the inferencer can be in: the initial one and those obtained
from it by calls of `find` and `unify` that return, and by the reset of
`todo_` at the start of a pass of `type_inference`. -/
inductive Reachable : State → Prop
  | init : Reachable init
  | find {s : State} (fuel : Nat) (t r : Ty) (s1 : State) :
      Reachable s → find fuel s t = some (r, s1) → Reachable s1
  | unify {s : State} (fuel : Nat) (a b r : Ty) (s1 : State) :
      Reachable s → unify fuel s a b = some (r, s1) → Reachable s1
  | reset {s : State} : Reachable s → Reachable { s with todo_ := false }

/-- `RootOf p r root`: following the parent links `p` from `r` ends in the
self-parented representative `root`. -/
inductive RootOf (p : Representative → Representative) :
    Representative → Representative → Prop
  | root (r : Representative) : p r = r → RootOf p r r
  | step (r root : Representative) : p r ≠ r → RootOf p (p r) root → RootOf p r root

/-- The parent links form a forest: every representative has a root. -/
def Forest (s : State) : Prop := ∀ r, ∃ root, RootOf s.parent r root

/-- The types whose representative `unify` ever puts below another one: those
that normalize to an `Unknown` or to a function type over a single `Unknown`. -/
def mergeable (t : Ty) : Bool :=
  (normalize t).isUnknown ||
    ((normalize t).isFn && (normalize t).num_ops == 1 && ((normalize t).op 0).isUnknown)

/-- The invariant of the reachable states: the parent links form a forest and
only representatives of mergeable types have a parent other than themselves. -/
def Inv (s : State) : Prop :=
  Forest s ∧ ∀ r, s.parent r ≠ r → mergeable r.type = true

/-- `Compressed p q`: the parent links `q` arise from `p` by path compression:
a link is unchanged or points a non-root to its root. -/
def Compressed (p q : Representative → Representative) : Prop :=
  ∀ x, q x = p x ∨ (p x ≠ x ∧ RootOf p x (q x))

end InferSema

/-! ## Packing return types and the legacy type table (`src/impala/type.cpp`) -/

namespace InferSema

/-- Modelled from the spec: `tuple(ops)` of section 4.1, `TypeTable::tuple_type`
of the missing `typetable.h`. -/
def tuple_type (ops : List Ty) : Ty := Ty.tuple ops

/-- `InferSema::fn_type(const Type*)`: a tuple type is unpacked into the
operands of the function type, any other type becomes the single operand. -/
def fn_type (type : Ty) : Ty :=
  if type.isTuple then Ty.fn type.ops else Ty.fn [type]

/-- `InferSema::fn_type(ArrayRef<const Type*>)`: `fn_type(tuple_type(types))`. -/
def fn_type_of (types : List Ty) : Ty := fn_type (tuple_type types)

end InferSema

namespace Legacy

/-- `TypeTable::pack_return_type` of `type.cpp`: a tuple whose size is not one
is unpacked, any other type becomes the single element.  The legacy `FnType`
and `TupleType` are the `fn` and `tuple` terms of `Ty`. -/
def pack_return_type (type : Ty) : Ty :=
  if type.isTuple && type.num_ops != 1 then Ty.fn type.ops else Ty.fn [type]

/-- `FnType::unpack_return_type` of `type.cpp`:
`size() == 1 ? elem(0) : tupletype(elems())`. -/
def unpack_return_type (fn : Ty) : Ty :=
  if fn.num_ops = 1 then fn.op 0 else Ty.tuple fn.ops

/-- `FnType::return_type` of `type.cpp`: the unpacked return type of the last
element when that is a function type, `NoRet` otherwise. -/
def return_type (fn : Ty) : Ty :=
  if fn.ops ≠ [] then
    if (fn.ops.getLastD Ty.error).isFn then unpack_return_type (fn.ops.getLastD Ty.error)
    else Ty.noret
  else Ty.noret

/-- The kinds of the legacy type classes of `type.cpp`, with the attributes
that are not element types. -/
inductive Kind
  | prim (kind : PrimKind)
  | owned_ptr | borrowed_ptr
  | definite_array (dim : Nat)
  | indefinite_array
  | fn | tuple
  | type_app (symbol : String)
  | type_error | noret
  deriving DecidableEq, Repr

/-- A legacy `Type` object: its kind and the handles of its element types.
Modelled from the spec: the structural hash and equality of the missing
`type.h` compare exactly this content. -/
structure Node where
  kind : Kind
  elems : List Nat
  deriving DecidableEq, Repr

/-- The legacy `TypeTable`: the set `types_` of interned objects, each an
address (the handle) with its content. -/
structure TypeTable where
  types_ : List (Nat × Node)
  deriving DecidableEq

/-- `TypeTable::unify_base(type)`: `type` is a freshly allocated object at
address `addr` with content `node`.  When a structurally equal object is in
the table the new one is deleted and the old handle returned; otherwise the
new object is inserted and its handle returned. -/
def unify_base (tt : TypeTable) (addr : Nat) (node : Node) : Nat × TypeTable :=
  match tt.types_.find? (fun e => e.2 = node) with
  | some e => (e.1, tt)
  | none => (addr, { types_ := tt.types_ ++ [(addr, node)] })

/-- `TypeTable::owned_ptr`. -/
def owned_ptr (tt : TypeTable) (addr : Nat) (referenced_type : Nat) : Nat × TypeTable :=
  unify_base tt addr ⟨Kind.owned_ptr, [referenced_type]⟩

/-- `TypeTable::borrowed_ptr`. -/
def borrowed_ptr (tt : TypeTable) (addr : Nat) (referenced_type : Nat) : Nat × TypeTable :=
  unify_base tt addr ⟨Kind.borrowed_ptr, [referenced_type]⟩

/-- `TypeTable::definite_array`. -/
def definite_array (tt : TypeTable) (addr : Nat) (elem_type : Nat) (dim : Nat) :
    Nat × TypeTable :=
  unify_base tt addr ⟨Kind.definite_array dim, [elem_type]⟩

/-- `TypeTable::indefinite_array`. -/
def indefinite_array (tt : TypeTable) (addr : Nat) (elem_type : Nat) : Nat × TypeTable :=
  unify_base tt addr ⟨Kind.indefinite_array, [elem_type]⟩

/-- `TypeTable::fntype`. -/
def fntype (tt : TypeTable) (addr : Nat) (elems : List Nat) : Nat × TypeTable :=
  unify_base tt addr ⟨Kind.fn, elems⟩

/-- `TypeTable::tupletype`. -/
def tupletype (tt : TypeTable) (addr : Nat) (elems : List Nat) : Nat × TypeTable :=
  unify_base tt addr ⟨Kind.tuple, elems⟩

/-- `TypeTable::type_app`. -/
def type_app (tt : TypeTable) (addr : Nat) (symbol : String) (elems : List Nat) :
    Nat × TypeTable :=
  unify_base tt addr ⟨Kind.type_app symbol, elems⟩

/-- No two objects of the table are structurally equal. -/
def Interned (tt : TypeTable) : Prop := (tt.types_.map Prod.snd).Nodup

/-- The tables built from the empty one by `unify_base`. -/
inductive Built : TypeTable → Prop
  | empty : Built ⟨[]⟩
  | step {tt : TypeTable} (addr : Nat) (node : Node) :
      Built tt → Built (unify_base tt addr node).2

end Legacy

/-! ## Coercion and calls (`InferSema::coerce`, `InferSema::check_call`) -/

namespace InferSema

/-- Modelled from the spec: `ref(pointee, mut, addr_space)` of section 4.1,
`TypeTable::ref_type` of the missing `typetable.h`. -/
def ref_type (pointee : Ty) (is_mut : Bool) (addr_space : Int) : Ty :=
  Ty.ref pointee is_mut addr_space

/-- Modelled from the spec: strict subtyping of section 4.3.4, `s <: t` strictly
holds when `s ≠ t` and one of the subtyping rules applies (`is_strict_subtype`
is not part of the sources).  The rules themselves are the parameter
`is_subtype`, applied to the destination and the source type. -/
def is_strict_subtype (is_subtype : Ty → Ty → Bool) (dst src : Ty) : Bool :=
  decide (dst ≠ src) && is_subtype dst src

/-- An expression as `coerce` and `check_call` see it: its type slot `type_`
and, for an `ImplicitCastExpr`, the expression it wraps. -/
inductive Expr where
  | expr (type_ : Option Ty)
  | implicit_cast (src : Expr) (type_ : Option Ty)

/-- The type slot of an expression, `Typeable::type_`. -/
def Expr.type_ : Expr → Option Ty
  | Expr.expr t => t
  | Expr.implicit_cast _ t => t

/-- The expression with its type slot written. -/
def Expr.set_type : Expr → Ty → Expr
  | Expr.expr _, t => Expr.expr (some t)
  | Expr.implicit_cast src _, t => Expr.implicit_cast src (some t)

/-- The state of the inferencer with the supply of fresh `Unknown`s of
`TypeTable::unknown_type()`. -/
structure TypeState where
  uf : State
  next_unknown : Nat

/-- `InferSema::find_type(const Type*&)`: an empty slot is filled with a fresh
`Unknown`, a filled one with its representative; the result is the new
content of the slot. -/
def find_type (fuel : Nat) (σ : TypeState) (slot : Option Ty) : Option (Ty × TypeState) :=
  match slot with
  | none => some (Ty.unknown σ.next_unknown, { σ with next_unknown := σ.next_unknown + 1 })
  | some t =>
    match find fuel σ.uf t with
    | none => none
    | some (r, uf1) => some (r, { σ with uf := uf1 })

/-- `InferSema::coerce(const Type* dst, const Expr* src)`.  The inference of an
arbitrary expression, `rvalue(expr)`, is the parameter `rvalue`; it is only
used to re-infer the expression below a freshly inserted `ImplicitCastExpr`.
The result is the returned type, the new state and the expression that now
stands in the place of `src`. -/
def coerce (is_subtype : Ty → Ty → Bool)
    (rvalue : TypeState → Expr → Option (Ty × TypeState × Expr))
    (fuel : Nat) (σ : TypeState) (dst : Ty) (src : Expr) : Option (Ty × TypeState × Expr) :=
  let dst1 := match dst with
    | Ty.ref pointee _ _ => pointee
    | t => t
  match find_type fuel σ src.type_ with
  | none => none
  | some (t, σ1) =>
    let casted : Option (TypeState × Expr × Ty) :=
      if dst1.is_known && t.is_known && is_strict_subtype is_subtype dst1 t then
        match rvalue σ1 (src.set_type t) with
        | none => none
        | some (_, σ2, inner) =>
          match constrain fuel σ2.uf (some dst1) dst1 with
          | none => none
          | some (ct, uf3) =>
            some ({ σ2 with uf := uf3 }, Expr.implicit_cast inner (some ct), ct)
      else some (σ1, src.set_type t, t)
    match casted with
    | none => none
    | some (σ3, src2, st) =>
      match unify fuel σ3.uf dst1 st with
      | none => none
      | some (type, uf4) =>
        some (match dst with
              | Ty.ref _ is_mut addr_space => ref_type type is_mut addr_space
              | _ => type,
              { σ3 with uf := uf4 }, src2)

/-- The loop `for (arg : args) rvalue(arg)` of `check_call`. -/
def rvalue_args (rvalue : TypeState → Expr → Option (Ty × TypeState × Expr)) :
    TypeState → List Expr → Option (TypeState × List Expr)
  | σ, [] => some (σ, [])
  | σ, arg :: args =>
    match rvalue σ arg with
    | none => none
    | some (_, σ1, arg1) =>
      match rvalue_args rvalue σ1 args with
      | none => none
      | some (σ2, args1) => some (σ2, arg1 :: args1)

/-- The loop `types[i] = coerce(fn_type->op(i), args[i])` of `check_call`, over
all arguments. -/
def coerce_args (is_subtype : Ty → Ty → Bool)
    (rvalue : TypeState → Expr → Option (Ty × TypeState × Expr)) (fuel : Nat) :
    TypeState → List Ty → List Expr → Option (List Ty × TypeState × List Expr)
  | σ, op :: ops, arg :: args =>
    match coerce is_subtype rvalue fuel σ op arg with
    | none => none
    | some (t, σ1, arg1) =>
      match coerce_args is_subtype rvalue fuel σ1 ops args with
      | none => none
      | some (ts, σ2, args1) => some (t :: ts, σ2, arg1 :: args1)
  | σ, _, [] => some ([], σ, [])
  | _, [], _ :: _ => none

/-- `InferSema::check_call(lhs, args, call_type)`; `FnType::return_type` is the
one of `type.cpp`.  The result is the type of the call, the new state, the
callee with its slot constrained, and the arguments. -/
def check_call (is_subtype : Ty → Ty → Bool)
    (rvalue : TypeState → Expr → Option (Ty × TypeState × Expr)) (fuel : Nat)
    (σ : TypeState) (lhs : Expr) (args : List Expr) (call_type : Ty) :
    Option (Ty × TypeState × Expr × List Expr) :=
  match lhs.type_ with
  | some (Ty.fn ops) =>
    match rvalue_args rvalue σ args with
    | none => none
    | some (σ1, args1) =>
      if args1.length = ops.length then
        match coerce_args is_subtype rvalue fuel σ1 ops args1 with
        | none => none
        | some (types, σ2, args2) =>
          match constrain fuel σ2.uf lhs.type_ (fn_type_of types) with
          | none => none
          | some (r, uf3) => some (Ty.noret, { σ2 with uf := uf3 }, lhs.set_type r, args2)
      else if args1.length + 1 = ops.length then
        match coerce_args is_subtype rvalue fuel σ1 ops args1 with
        | none => none
        | some (types, σ2, args2) =>
          match constrain fuel σ2.uf lhs.type_
              (fn_type_of (types ++ [ops.getLastD Ty.error])) with
          | none => none
          | some (result, uf3) =>
            some (if result.isFn then Legacy.return_type result else call_type,
                  { σ2 with uf := uf3 }, lhs.set_type result, args2)
      else some (Ty.error, σ1, lhs, args1)
  | _ => none

end InferSema

/-! ## Name resolution (`src/impala/sema/namesema.cpp`)

A `const Decl*` is the record `Decl`: the identity of the node, its symbol and
whether it is a `ValueDecl`.  The fields `shadows_` and `depth_` that the
symbol table writes into a declaration are the maps `shadows_` and `depth_` of
the state.  An entry of `symbol2decl_` that is absent and one that holds a
null pointer are both `none`.  The assertions on empty symbols are debugging
aids and are not modelled. -/

/-- A symbol, `thorin::Symbol`. -/
abbrev Symbol := String

/-- A declaration node. -/
structure Decl where
  id : Nat
  symbol : Symbol
  is_value_decl : Bool
  deriving DecidableEq, Repr

/-- The diagnostics of the name resolver. -/
inductive NameError
  | not_found (symbol : Symbol)
  | already_defined (symbol : Symbol)
  | previous_location
  | not_a_value
  deriving DecidableEq, Repr

/-- The state of `NameSema`, with the fields the table writes into the
declarations and the errors emitted so far. -/
structure NameSema where
  symbol2decl_ : Symbol → Option Decl
  decl_stack_ : List Decl
  levels_ : List Nat
  shadows_ : Decl → Option Decl
  depth_ : Decl → Nat
  errors_ : List NameError

namespace NameSema

/-- A freshly constructed `NameSema`. -/
def init : NameSema :=
  { symbol2decl_ := fun _ => none, decl_stack_ := [], levels_ := [],
    shadows_ := fun _ => none, depth_ := fun _ => 0, errors_ := [] }

/-- `NameSema::depth()`. -/
def depth (s : NameSema) : Nat := s.levels_.length

/-- `NameSema::push_scope()`. -/
def push_scope (s : NameSema) : NameSema :=
  { s with levels_ := s.levels_ ++ [s.decl_stack_.length] }

/-- `NameSema::lookup(n, symbol)`: the current mapping of the symbol; an error
is emitted when there is none. -/
def lookup (s : NameSema) (symbol : Symbol) : Option Decl × NameSema :=
  match s.symbol2decl_ symbol with
  | none => (none, { s with errors_ := s.errors_ ++ [NameError.not_found symbol] })
  | some decl => (some decl, s)

/-- `NameSema::clash(symbol)`: the current mapping when it was declared at the
current depth. -/
def clash (s : NameSema) (symbol : Symbol) : Option Decl :=
  match s.symbol2decl_ symbol with
  | some decl => if s.depth_ decl = s.depth then some decl else none
  | none => none

/-- `NameSema::insert(decl)`. -/
def insert (s : NameSema) (decl : Decl) : NameSema :=
  match s.clash decl.symbol with
  | some _ =>
    { s with errors_ := s.errors_ ++
        [NameError.already_defined decl.symbol, NameError.previous_location] }
  | none =>
    { s with
      shadows_ := Function.update s.shadows_ decl (s.symbol2decl_ decl.symbol)
      depth_ := Function.update s.depth_ decl s.depth
      decl_stack_ := s.decl_stack_ ++ [decl]
      symbol2decl_ := Function.update s.symbol2decl_ decl.symbol (some decl) }

/-- The loop of `NameSema::pop_scope()`: every declaration of the scope, in
the order of the stack, resets its symbol to what it shadows. -/
def restore (shadows : Decl → Option Decl) :
    List Decl → (Symbol → Option Decl) → (Symbol → Option Decl)
  | [], m => m
  | decl :: rest, m => restore shadows rest (Function.update m decl.symbol (shadows decl))

/-- `NameSema::pop_scope()`; `levels_.back()` on an empty vector is undefined,
which is `none`. -/
def pop_scope (s : NameSema) : Option NameSema :=
  match s.levels_.getLast? with
  | none => none
  | some level =>
    some { s with
      symbol2decl_ := restore s.shadows_ (s.decl_stack_.drop level) s.symbol2decl_
      decl_stack_ := s.decl_stack_.take level
      levels_ := s.levels_.dropLast }

end NameSema

namespace NameSema

/-- What happens inside a scope: a declaration is inserted, or a nested scope
is opened, filled and closed again. -/
inductive ScopeOp where
  | insert (decl : Decl)
  | scope (body : List ScopeOp)

mutual
/-- Runs one operation of a scope; a nested scope is `push_scope`, its body,
`pop_scope`. -/
def run_op : ScopeOp → NameSema → Option NameSema
  | ScopeOp.insert decl, s => some (s.insert decl)
  | ScopeOp.scope body, s =>
    match run_ops body s.push_scope with
    | none => none
    | some s1 => s1.pop_scope
/-- Runs the operations of a scope in order. -/
def run_ops : List ScopeOp → NameSema → Option NameSema
  | [], s => some s
  | op :: ops, s =>
    match run_op op s with
    | none => none
    | some s1 => run_ops ops s1
end

mutual
/-- The declarations an operation inserts, nested scopes included. -/
def decls_of : ScopeOp → List Decl
  | ScopeOp.insert decl => [decl]
  | ScopeOp.scope body => decls_of_ops body
/-- The declarations a list of operations inserts. -/
def decls_of_ops : List ScopeOp → List Decl
  | [] => []
  | op :: ops => decls_of op ++ decls_of_ops ops
end

/-- The state inside a scope that was opened when the map was `m0` and the
stack `stk0`: the declarations `seg` of the scope are on top of the stack, each
mapped by its symbol, at the current depth and shadowing what `m0` held; every
other symbol is mapped as in `m0`. -/
structure ScopeInv (m0 : Symbol → Option Decl) (stk0 : List Decl) (lv : List Nat)
    (seg : List Decl) (s : NameSema) : Prop where
  stack : s.decl_stack_ = stk0 ++ seg
  levels : s.levels_ = lv
  decls : ∀ d ∈ seg, s.depth_ d = lv.length ∧ s.shadows_ d = m0 d.symbol ∧
    s.symbol2decl_ d.symbol = some d
  others : ∀ sym, (∀ d ∈ seg, d.symbol ≠ sym) → s.symbol2decl_ sym = m0 sym

end NameSema

namespace NameSema

/-- The operations of the symbol table. -/
inductive TableOp where
  | push_scope
  | insert (decl : Decl)
  | pop_scope

/-- One operation on the table. -/
def run_table_op : TableOp → NameSema → Option NameSema
  | TableOp.push_scope, s => some s.push_scope
  | TableOp.insert decl, s => some (s.insert decl)
  | TableOp.pop_scope, s => s.pop_scope

/-- A sequence of operations on the table, in order. -/
def run_table : List TableOp → NameSema → Option NameSema
  | [], s => some s
  | op :: ops, s =>
    match run_table_op op s with
    | none => none
    | some s1 => run_table ops s1

/-- The declarations a sequence of operations inserts. -/
def inserted : List TableOp → List Decl
  | [] => []
  | TableOp.insert decl :: ops => decl :: inserted ops
  | _ :: ops => inserted ops

/-- Lexical scoping, the reference the table is compared with: the open scopes,
innermost first, each with the declarations made in it, most recent first. An
insert is successful when the innermost scope does not declare the symbol yet;
`pop_scope` discards the innermost scope and needs a scope that was opened by
`push_scope`. -/
def lexical_step : TableOp → List (List Decl) → Option (List (List Decl))
  | TableOp.push_scope, scopes => some ([] :: scopes)
  | TableOp.insert decl, scope :: outer =>
    some ((if scope.any (fun x => decide (x.symbol = decl.symbol)) then scope
      else decl :: scope) :: outer)
  | TableOp.insert _, [] => none
  | TableOp.pop_scope, _ :: o :: outer => some (o :: outer)
  | TableOp.pop_scope, _ => none

/-- Lexical scoping for a sequence of operations. -/
def lexical_run : List TableOp → List (List Decl) → Option (List (List Decl))
  | [], scopes => some scopes
  | op :: ops, scopes =>
    match lexical_step op scopes with
    | none => none
    | some scopes1 => lexical_run ops scopes1

/-- The declarations whose scope has not been popped, most recent first. -/
def live : List (List Decl) → List Decl
  | [] => []
  | scope :: outer => scope ++ live outer

/-- The most recently inserted declaration of the symbol whose scope has not
been popped. -/
def lexical_lookup (scopes : List (List Decl)) (symbol : Symbol) : Option Decl :=
  (live scopes).find? (fun x => decide (x.symbol = symbol))

/-- The table implements the open scopes `scope :: outer`: the innermost scope
satisfies the scope invariant, and what it was opened on implements the outer
scopes. -/
def Sim : List Decl → List (List Decl) → NameSema → Prop
  | scope, [], s => ScopeInv (fun _ => none) [] [] scope.reverse s
  | scope, o :: outer, s => ∃ m0 stk0 lv0,
    ScopeInv m0 stk0 (lv0 ++ [stk0.length]) scope.reverse s ∧
    Sim o outer { s with symbol2decl_ := m0, decl_stack_ := stk0, levels_ := lv0 }

end NameSema

/-! ## The traversal of name resolution (`check(NameSema&)` of every AST node)

The class declarations of the AST (`ast.h` of this version) are not part of the
sources.  A node is modelled by the children that its `check` function in
`namesema.cpp` visits, under the names of the accessors used there.  The tables
`item_table_`, `field_table_` and `method_table_` that some nodes fill on the
way are not part of the symbol table and are left out. -/

namespace AST

mutual
/-- Modelled from the spec: the AST types, with the children that the `check`
functions of `namesema.cpp` visit. -/
inductive ASTType where
  | error_ast_type
  | prim_ast_type
  | ptr_ast_type (referenced_type : ASTType)
  | indefinite_array_ast_type (elem_type : ASTType)
  | definite_array_ast_type (elem_type : ASTType)
  | tuple_ast_type (elems : List ASTType)
  | ast_type_app (symbol : Symbol) (elems : List ASTType)
  | fn_ast_type (type_params : List TypeParam) (elems : List ASTType)
/-- Modelled from the spec: a type parameter, a declaration with a list of
bound AST types (section 3.2). -/
inductive TypeParam where
  | mk (decl : Decl) (bounds : List ASTType)
end

/-- The declaration of a type parameter. -/
def TypeParam.decl : TypeParam → Decl
  | TypeParam.mk decl _ => decl

/-- Modelled from the spec: a `ValueDecl` that `ValueDecl::check` visits (a
parameter, a local of a `let`, the `break` declaration of a `for`): the
declaration and its optional AST type. -/
structure ValueDecl where
  decl : Decl
  ast_type : Option ASTType

/-- Modelled from the spec: a field declaration of a struct, with its AST
type. -/
structure FieldDecl where
  decl : Decl
  ast_type : ASTType

mutual
/-- Modelled from the spec: a function (`Fn`): type parameters, parameters and
an optional body. -/
inductive Fn where
  | mk (type_params : List TypeParam) (params : List ValueDecl) (body : Option Expr)
/-- Modelled from the spec: the expressions, with the children that the `check`
functions of `namesema.cpp` visit.  A path is the list of the symbols of its
elements. -/
inductive Expr where
  | empty_expr
  | literal_expr
  | block_expr (stmts : List Stmt) (expr : Expr)
  | fn_expr (fn : Fn)
  | path_expr (path : List Symbol)
  | prefix_expr (rhs : Expr)
  | infix_expr (lhs rhs : Expr)
  | postfix_expr (lhs : Expr)
  | field_expr (lhs : Expr)
  | cast_expr (lhs : Expr) (ast_type : ASTType)
  | definite_array_expr (args : List Expr)
  | repeated_definite_array_expr (value count : Expr)
  | indefinite_array_expr (dim : Expr) (elem_type : ASTType)
  | tuple_expr (args : List Expr)
  | struct_expr (path : List Symbol) (elems : List Expr)
  | map_expr (lhs : Expr) (type_args : List ASTType) (args : List Expr)
  | if_expr (cond then_expr else_expr : Expr)
  | for_expr (expr : Expr) (break_decl : ValueDecl) (fn_expr : Fn)
/-- Modelled from the spec: the statements. -/
inductive Stmt where
  | expr_stmt (expr : Expr)
  | item_stmt (item : Item)
  | let_stmt (init : Option Expr) (local_decl : ValueDecl)
/-- Modelled from the spec: the items.  Every item but an extern block and an
impl is a declaration (`item->isa<Decl>()` in `check_head`); an impl has no
symbol that `insert` could take. -/
inductive Item where
  | mod_decl (decl : Decl) (mod_contents : Option ModContents)
  | typedef (decl : Decl)
  | enum_decl (decl : Decl)
  | static_item (decl : Decl)
  | struct_decl (decl : Decl) (type_params : List TypeParam) (field_decls : List FieldDecl)
  | fn_decl (fn_decl : FnDecl)
  | extern_block (fns : List FnDecl)
  | trait_decl (decl : Decl) (self_param : Decl) (type_params : List TypeParam)
      (super_traits : List ASTType) (methods : List FnDecl)
  | impl_item (type_params : List TypeParam) (trait : Option ASTType) (type : ASTType)
      (methods : List FnDecl)
/-- Modelled from the spec: a function declaration, a declaration that is a
function. -/
inductive FnDecl where
  | mk (decl : Decl) (fn : Fn)
/-- Modelled from the spec: the contents of a module, its items. -/
inductive ModContents where
  | mk (items : List Item)
end

/-- The declaration of a function declaration. -/
def FnDecl.decl : FnDecl → Decl
  | FnDecl.mk decl _ => decl

/-- The items of a module. -/
def ModContents.items : ModContents → List Item
  | ModContents.mk items => items

/-- The first loop of `TypeParamList::check_type_params`: every type parameter
is inserted. -/
def insert_type_params : List TypeParam → NameSema → NameSema
  | [], s => s
  | tp :: rest, s => insert_type_params rest (s.insert tp.decl)

mutual
/-- The `check(NameSema&)` functions of the AST types. -/
def ASTType.check : ASTType → NameSema → Option NameSema
  | ASTType.error_ast_type, s => some s
  | ASTType.prim_ast_type, s => some s
  | ASTType.ptr_ast_type referenced_type, s => ASTType.check referenced_type s
  | ASTType.indefinite_array_ast_type elem_type, s => ASTType.check elem_type s
  | ASTType.definite_array_ast_type elem_type, s => ASTType.check elem_type s
  | ASTType.tuple_ast_type elems, s => check_ast_types elems s
  | ASTType.ast_type_app symbol elems, s => check_ast_types elems (s.lookup symbol).2
  | ASTType.fn_ast_type type_params elems, s =>
    ((check_bounds type_params (insert_type_params type_params s.push_scope)).bind
      (check_ast_types elems)).bind NameSema.pop_scope
/-- A loop `for (auto elem : elems) sema.check(elem)` over AST types. -/
def check_ast_types : List ASTType → NameSema → Option NameSema
  | [], s => some s
  | t :: rest, s => (ASTType.check t s).bind (check_ast_types rest)
/-- The second loop of `TypeParamList::check_type_params`: `TypeParam::check`
of every type parameter, which checks its bounds. -/
def check_bounds : List TypeParam → NameSema → Option NameSema
  | [], s => some s
  | TypeParam.mk _ bounds :: rest, s => (check_ast_types bounds s).bind (check_bounds rest)
end

/-- `TypeParamList::check_type_params`: first the names, then the bounds. -/
def check_type_params (type_params : List TypeParam) (s : NameSema) : Option NameSema :=
  check_bounds type_params (insert_type_params type_params s)

/-- An optional AST type: `if (ast_type()) sema.check(ast_type())`. -/
def check_opt_ast_type : Option ASTType → NameSema → Option NameSema
  | none, s => some s
  | some t, s => ASTType.check t s

/-- `ValueDecl::check`. -/
def ValueDecl.check (d : ValueDecl) (s : NameSema) : Option NameSema :=
  (check_opt_ast_type d.ast_type s).bind (fun s1 => some (s1.insert d.decl))

/-- `FieldDecl::check`. -/
def FieldDecl.check (d : FieldDecl) (s : NameSema) : Option NameSema :=
  (ASTType.check d.ast_type s).bind (fun s1 => some (s1.insert d.decl))

/-- The loop over the fields in `StructDecl::check`. -/
def check_field_decls : List FieldDecl → NameSema → Option NameSema
  | [], s => some s
  | d :: rest, s => (d.check s).bind (check_field_decls rest)

/-- The loop over the parameters in `Fn::fn_check`: the parameter number `i`
without a symbol is named `<i>`, the parameter is inserted, then its AST type,
if any, is checked. -/
def check_params : List ValueDecl → Nat → NameSema → Option NameSema
  | [], _, s => some s
  | param :: rest, i, s =>
    (check_opt_ast_type param.ast_type
      (s.insert (if param.decl.symbol.isEmpty
        then { param.decl with symbol := "<" ++ toString i ++ ">" } else param.decl))).bind
      (check_params rest (i + 1))

/-- `Path::check`: every element is looked up; the declaration of the path is
the one of its last element. -/
def check_path : List Symbol → NameSema → Option Decl × NameSema
  | [], s => (none, s)
  | [symbol], s => s.lookup symbol
  | symbol :: rest, s => check_path rest (s.lookup symbol).2

/-- `PathExpr::check`: a path that resolves to a declaration that is not a
value is an error. -/
def check_path_expr (path : List Symbol) (s : NameSema) : NameSema :=
  match check_path path s with
  | (some decl, s1) =>
    if decl.is_value_decl then s1
    else { s1 with errors_ := s1.errors_ ++ [NameError.not_a_value] }
  | (none, s1) => s1

/-- The declarations `NameSema::check_head` inserts for an item. -/
def heads_of : Item → List Decl
  | Item.mod_decl decl _ => [decl]
  | Item.typedef decl => [decl]
  | Item.enum_decl decl => [decl]
  | Item.static_item decl => [decl]
  | Item.struct_decl decl _ _ => [decl]
  | Item.fn_decl fn_decl => [fn_decl.decl]
  | Item.extern_block fns => fns.map FnDecl.decl
  | Item.trait_decl decl _ _ _ _ => [decl]
  | Item.impl_item _ _ _ _ => []

/-- `NameSema::check_head(item)`. -/
def check_head (item : Item) (s : NameSema) : NameSema :=
  (heads_of item).foldl NameSema.insert s

/-- The first loop of `ModContents::check`. -/
def check_heads : List Item → NameSema → NameSema
  | [], s => s
  | item :: rest, s => check_heads rest (check_head item s)

/-- The first loop of `BlockExpr::check`: `check_head` for the items among the
statements. -/
def check_head_stmts : List Stmt → NameSema → NameSema
  | [], s => s
  | Stmt.item_stmt item :: rest, s => check_head_stmts rest (check_head item s)
  | _ :: rest, s => check_head_stmts rest s

mutual
/-- `Fn::fn_check`. -/
def Fn.fn_check : Fn → NameSema → Option NameSema
  | Fn.mk type_params params body, s =>
    (((check_type_params type_params s.push_scope).bind (check_params params 0)).bind
      (check_opt_expr body)).bind NameSema.pop_scope
/-- An optional expression: `if (body() != nullptr) body()->check(sema)`. -/
def check_opt_expr : Option Expr → NameSema → Option NameSema
  | none, s => some s
  | some e, s => Expr.check e s
/-- The `check(NameSema&)` functions of the expressions. -/
def Expr.check : Expr → NameSema → Option NameSema
  | Expr.empty_expr, s => some s
  | Expr.literal_expr, s => some s
  | Expr.block_expr stmts expr, s =>
    (((check_stmts stmts (check_head_stmts stmts s.push_scope)).bind (Expr.check expr))).bind
      NameSema.pop_scope
  | Expr.fn_expr fn, s => Fn.fn_check fn s
  | Expr.path_expr path, s => some (check_path_expr path s)
  | Expr.prefix_expr rhs, s => Expr.check rhs s
  | Expr.infix_expr lhs rhs, s => (Expr.check lhs s).bind (Expr.check rhs)
  | Expr.postfix_expr lhs, s => Expr.check lhs s
  | Expr.field_expr lhs, s => Expr.check lhs s
  | Expr.cast_expr lhs ast_type, s => (Expr.check lhs s).bind (ASTType.check ast_type)
  | Expr.definite_array_expr args, s => check_exprs args s
  | Expr.repeated_definite_array_expr value count, s =>
    (Expr.check value s).bind (Expr.check count)
  | Expr.indefinite_array_expr dim elem_type, s =>
    (Expr.check dim s).bind (ASTType.check elem_type)
  | Expr.tuple_expr args, s => check_exprs args s
  | Expr.struct_expr path elems, s => check_exprs elems (check_path path s).2
  | Expr.map_expr lhs type_args args, s =>
    ((Expr.check lhs s).bind (check_ast_types type_args)).bind (check_exprs args)
  | Expr.if_expr cond then_expr else_expr, s =>
    ((Expr.check cond s).bind (Expr.check then_expr)).bind (Expr.check else_expr)
  | Expr.for_expr expr break_decl fn_expr, s =>
    (Expr.check expr s).bind (fun s1 =>
      ((break_decl.check s1.push_scope).bind (Fn.fn_check fn_expr)).bind NameSema.pop_scope)
/-- A loop `for (auto arg : args) arg->check(sema)` over expressions. -/
def check_exprs : List Expr → NameSema → Option NameSema
  | [], s => some s
  | e :: rest, s => (Expr.check e s).bind (check_exprs rest)
/-- The `check(NameSema&)` functions of the statements. -/
def Stmt.check : Stmt → NameSema → Option NameSema
  | Stmt.expr_stmt expr, s => Expr.check expr s
  | Stmt.item_stmt item, s => Item.check_item item s
  | Stmt.let_stmt init local_decl, s => (check_opt_expr init s).bind local_decl.check
/-- The second loop of `BlockExpr::check`. -/
def check_stmts : List Stmt → NameSema → Option NameSema
  | [], s => some s
  | stmt :: rest, s => (Stmt.check stmt s).bind (check_stmts rest)
/-- The `check_item` functions of the items (for a declaration item, the
`check` function of the declaration). -/
def Item.check_item : Item → NameSema → Option NameSema
  | Item.mod_decl _ mod_contents, s =>
    (check_opt_mod_contents mod_contents s.push_scope).bind NameSema.pop_scope
  | Item.typedef _, s => some s
  | Item.enum_decl _, s => some s
  | Item.static_item _, s => some s
  | Item.struct_decl _ type_params field_decls, s =>
    (check_type_params type_params s).bind (fun s1 =>
      (check_field_decls field_decls s1.push_scope).bind NameSema.pop_scope)
  | Item.fn_decl fn_decl, s => FnDecl.check fn_decl s
  | Item.extern_block fns, s => check_fn_decls fns s
  | Item.trait_decl _ self_param type_params super_traits methods, s =>
    (((check_type_params type_params (s.push_scope.insert self_param)).bind
      (check_ast_types super_traits)).bind (check_fn_decls methods)).bind NameSema.pop_scope
  | Item.impl_item type_params trait type methods, s =>
    ((((check_type_params type_params s.push_scope).bind (check_opt_ast_type trait)).bind
      (ASTType.check type)).bind (check_fn_decls methods)).bind NameSema.pop_scope
/-- `FnDecl::check`. -/
def FnDecl.check : FnDecl → NameSema → Option NameSema
  | FnDecl.mk _ fn, s => Fn.fn_check fn s
/-- A loop that checks function declarations (the functions of an extern block,
the methods of a trait or an impl). -/
def check_fn_decls : List FnDecl → NameSema → Option NameSema
  | [], s => some s
  | fn_decl :: rest, s => (FnDecl.check fn_decl s).bind (check_fn_decls rest)
/-- The contents of a module, if any: `if (mod_contents()) mod_contents()->check(sema)`. -/
def check_opt_mod_contents : Option ModContents → NameSema → Option NameSema
  | none, s => some s
  | some mod_contents, s => ModContents.check mod_contents s
/-- `ModContents::check`: `check_head` of every item, then `check_item` of every
item. -/
def ModContents.check : ModContents → NameSema → Option NameSema
  | ModContents.mk items, s => check_items items (check_heads items s)
/-- The second loop of `ModContents::check`. -/
def check_items : List Item → NameSema → Option NameSema
  | [], s => some s
  | item :: rest, s => (Item.check_item item s).bind (check_items rest)
end

/-- `name_analysis(mod)`: a fresh `NameSema` checks the root module; the result
is whether no error was emitted.  The table as it is left behind is returned
with it. -/
def name_analysis (mod : ModContents) : Option (Bool × NameSema) :=
  (mod.check NameSema.init).map (fun s => (decide (s.errors_ = []), s))

/-- A run from `s` returned, with the scope levels of `s` and a declaration
stack that extends the one of `s`. -/
def Good (r : Option NameSema) (s : NameSema) : Prop :=
  ∃ s1 seg, r = some s1 ∧ s1.levels_ = s.levels_ ∧ s1.decl_stack_ = s.decl_stack_ ++ seg

end AST

/-! ## Type checking (`src/impala/sema/typesema.cpp`)

The class declarations of the AST (`ast.h` of this version) are not part of the
sources.  A node is modelled by what its `check(TypeSema&)` function reads: its
identity (the address, which is also its location), its type slot, and its
children under the names of the accessors.  The virtual functions of `Expr`
that are defined outside the sources (`is_lvalue`, `has_side_effect`,
`take_address`) are the parameter `ExprFns`.  `error` and `warning` append to a
list of diagnostics; the rendered text of a message is dropped, a message keeps
its kind, its location and the types and symbols it mentions. -/

namespace Ty

/-- Holds for a `PtrType` (borrowed or owned), `isa<PtrType>()`. -/
def isPtr : Ty → Bool
  | ptr _ _ _ _ => true
  | _ => false

/-- Holds for a `SimdType`, `isa<SimdType>()`. -/
def isSimd : Ty → Bool
  | simd _ _ => true
  | _ => false

/-- Holds for a `PrimType`, `isa<PrimType>()`. -/
def isPrim : Ty → Bool
  | prim _ => true
  | _ => false

/-- Holds for the `NoRetType`, `isa<NoRetType>()`. -/
def isNoRet : Ty → Bool
  | noret => true
  | _ => false

/-- Holds for an `ArrayType` (definite or indefinite), `isa<ArrayType>()`. -/
def isArray : Ty → Bool
  | definite_array _ _ => true
  | indefinite_array _ => true
  | _ => false

/-- Modelled from the spec: `is_bool(t)`, declared in the missing `type.h`; the
primitive type `bool`, as `Type::is_bool` of `type.cpp`. -/
def is_bool : Ty → Bool
  | prim PrimKind.bool => true
  | _ => false

/-- Modelled from the spec: `is_int(t)`, declared in the missing `type.h`; a
primitive type of an integer kind, as `Type::is_int` of `type.cpp` for the
integer kinds of its token list. -/
def is_int : Ty → Bool
  | prim PrimKind.i8 => true
  | prim PrimKind.i16 => true
  | prim PrimKind.i32 => true
  | prim PrimKind.i64 => true
  | prim PrimKind.isize => true
  | prim PrimKind.u8 => true
  | prim PrimKind.u16 => true
  | prim PrimKind.u32 => true
  | prim PrimKind.u64 => true
  | prim PrimKind.usize => true
  | _ => false

/-- Modelled from the spec: `is_float(t)`, declared in the missing `type.h`; a
primitive type of a floating point kind, as `Type::is_float` of `type.cpp`. -/
def is_float : Ty → Bool
  | prim PrimKind.f32 => true
  | prim PrimKind.f64 => true
  | _ => false

end Ty

/-- Whether a diagnostic was emitted by `error` or by `warning`. -/
inductive Severity
  | error | warning
  deriving DecidableEq, Repr

/-- The messages of `typesema.cpp`, one per format string. -/
inductive TypeMsg
  | expected (what : String) (type : Ty)
  | lvalue_required
  | cannot_infer_type (symbol : Symbol)
  | mismatched_types (expected found : Ty)
  | non_primitive_simd
  | does_not_name_a_type (symbol : Symbol)
  | parameter_never_written (symbol : Symbol)
  | unknown_extern_specification
  | expected_trait_instance
  | unknown_escape_sequence (c : Nat)
  | multi_character_constant
  | empty_character_constant
  | sides_must_agree
  | left_type_is (type : Ty)
  | right_type_is (type : Ty)
  | invalid_cast (src_type dst_type : Ty)
  | too_many_array_subscripts
  | require_literal_as_tuple_subscript
  | too_many_tuple_subscripts
  | too_many_simd_subscripts
  | incorrect_type_for_map
  | variable_never_written (symbol : Symbol)
  | does_not_return
  | statement_with_no_effect
  deriving DecidableEq

/-- A diagnostic: its severity, the node it is located at, its message. -/
structure Diag where
  severity : Severity
  loc : Nat
  msg : TypeMsg
  deriving DecidableEq

namespace TypeSema

/-- Modelled from the spec: the kinds of a `PrefixExpr` (the token list is not
part of the sources); the kinds that the `switch` statements of `typesema.cpp`
and `infersema.cpp` name. -/
inductive PrefixKind
  | AND | MUT | TILDE | MUL | INC | DEC | ADD | SUB | NOT | RUN | HLT | OR | OROR
  deriving DecidableEq, Repr

/-- Modelled from the spec: the kinds of an `InfixExpr` (the token list is not
part of the sources); the kinds that `InfixExpr::check` names. -/
inductive InfixKind
  | EQ | NE | LT | GT | LE | GE
  | ADD | SUB | MUL | DIV | REM
  | OROR | ANDAND
  | SHL | SHR
  | OR | AND | XOR
  | ASGN
  | ADD_ASGN | SUB_ASGN | MUL_ASGN | DIV_ASGN | REM_ASGN
  | AND_ASGN | OR_ASGN | XOR_ASGN
  | SHL_ASGN | SHR_ASGN
  deriving DecidableEq, Repr

/-- What `PathExpr::check` reads of the declaration `value_decl()`: for a
`LocalDecl` its identity, `is_mut()` and `fn()`. -/
inductive ValueDeclRef
  | local_decl (id : Nat) (is_mut : Bool) (fn : Option Nat)
  | other_decl (id : Nat)
  deriving DecidableEq, Repr

set_option maxHeartbeats 4000000 in
mutual
/-- Modelled from the spec: an AST type, with its type slot. -/
inductive ASTType where
  | mk (id : Nat) (type : Ty) (node : ASTTypeNode)
/-- Modelled from the spec: the variants of the AST types.  For an
`ASTTypeApp`, `names_type` is `decl() && decl()->isa<TypeDecl>()`. -/
inductive ASTTypeNode where
  | error_ast_type
  | prim_ast_type
  | ptr_ast_type (referenced_ast_type : ASTType)
  | indefinite_array_ast_type (elem_ast_type : ASTType)
  | definite_array_ast_type (elem_ast_type : ASTType)
  | simd_ast_type (elem_ast_type : ASTType)
  | tuple_ast_type (ast_type_args : List ASTType)
  | fn_ast_type (ast_type_params : List ASTTypeParam) (ast_type_args : List ASTType)
  | ast_type_app (symbol : Symbol) (names_type : Bool)
  | typeof (expr : Expr)
/-- Modelled from the spec: a type parameter with its bounds. -/
inductive ASTTypeParam where
  | mk (bounds : List ASTType)
/-- Modelled from the spec: a local declaration (a parameter, the local of a
`let`, the `break` or `continue` declaration of a loop). -/
inductive LocalDecl where
  | mk (id : Nat) (symbol : Symbol) (is_mut is_written : Bool) (ast_type : Option ASTType)
      (type : Ty)
/-- Modelled from the spec: an expression, with its type slot. -/
inductive Expr where
  | mk (id : Nat) (type : Ty) (node : ExprNode)
/-- Modelled from the spec: the variants of the expressions.  The symbols of a
character or string literal are the tokens as written, quotes included, as the
list of their `char`s.  A struct literal names the struct it builds. -/
inductive ExprNode where
  | empty_expr
  | literal_expr
  | char_expr (symbol : List Char)
  | str_expr (symbols : List (List Char))
  | fn_expr (params : List LocalDecl) (body : Expr)
  | path_expr (value_decl : Option ValueDeclRef)
  | prefix_expr (kind : PrefixKind) (rhs : Expr)
  | infix_expr (kind : InfixKind) (lhs rhs : Expr)
  | postfix_expr (lhs : Expr)
  | cast_expr (lhs : Expr) (ast_type : ASTType)
  | tuple_expr (args : List Expr)
  | repeated_definite_array_expr (value : Expr)
  | indefinite_array_expr (dim : Expr) (elem_ast_type : ASTType)
  | definite_array_expr (args : List Expr)
  | simd_expr (args : List Expr)
  | struct_expr (field_table : List Symbol) (elems : List Elem)
  | field_expr (lhs : Expr) (symbol : Symbol)
  | map_expr (lhs : Expr) (args : List Expr)
  | block_expr (stmts : List Stmt) (expr : Expr)
  | run_block_expr (stmts : List Stmt) (expr : Expr)
  | if_expr (cond then_expr else_expr : Expr)
  | while_expr (cond : Expr) (break_decl continue_decl : LocalDecl) (body : Expr)
  | for_expr (expr fn_expr : Expr)
/-- Modelled from the spec: an element `symbol: expr` of a struct literal. -/
inductive Elem where
  | mk (symbol : Symbol) (expr : Expr)
/-- Modelled from the spec: the statements. -/
inductive Stmt where
  | expr_stmt (expr : Expr)
  | item_stmt (item : Item)
  | let_stmt (local_decl : LocalDecl) (init : Option Expr)
/-- Modelled from the spec: the items.  The `trait` of an impl comes with
whether it is an `ASTTypeApp`. -/
inductive Item where
  | mod_decl (mod_contents : Option ModContents)
  | extern_block (id : Nat) (abi : String) (fns : List FnDecl)
  | typedef (ast_type_params : List ASTTypeParam) (ast_type : ASTType)
  | enum_decl
  | struct_decl (ast_type_params : List ASTTypeParam) (field_decls : List ASTType)
  | fn_decl (fn_decl : FnDecl)
  | static_item (id : Nat) (symbol : Symbol) (type : Ty) (init : Option Expr)
  | trait_decl (self_param : ASTTypeParam) (ast_type_params : List ASTTypeParam)
      (super_traits : List ASTType) (methods : List FnDecl)
  | impl_item (ast_type_params : List ASTTypeParam) (ast_type : ASTType)
      (trait : Option ASTType)
/-- Modelled from the spec: a function declaration. -/
inductive FnDecl where
  | mk (ast_type_params : List ASTTypeParam) (params : List LocalDecl) (body : Option Expr)
/-- Modelled from the spec: the contents of a module, its items. -/
inductive ModContents where
  | mk (items : List Item)
end

/-- The address of an expression. -/
def Expr.id : Expr → Nat
  | Expr.mk id _ _ => id

/-- `Expr::type()`. -/
def Expr.type : Expr → Ty
  | Expr.mk _ type _ => type

/-- The variant of an expression. -/
def Expr.node : Expr → ExprNode
  | Expr.mk _ _ node => node

/-- `isa<LiteralExpr>()`. -/
def Expr.isLiteral : Expr → Bool
  | Expr.mk _ _ ExprNode.literal_expr => true
  | _ => false

/-- The address of an AST type. -/
def ASTType.id : ASTType → Nat
  | ASTType.mk id _ _ => id

/-- `ASTType::type()`. -/
def ASTType.type : ASTType → Ty
  | ASTType.mk _ type _ => type

/-- `isa<ASTTypeApp>()`. -/
def ASTType.isTypeApp : ASTType → Bool
  | ASTType.mk _ _ (ASTTypeNode.ast_type_app _ _) => true
  | _ => false

/-- The address of a local declaration. -/
def LocalDecl.id : LocalDecl → Nat
  | LocalDecl.mk id _ _ _ _ _ => id

/-- `Decl::symbol()`. -/
def LocalDecl.symbol : LocalDecl → Symbol
  | LocalDecl.mk _ symbol _ _ _ _ => symbol

/-- `LocalDecl::is_mut()`. -/
def LocalDecl.is_mut : LocalDecl → Bool
  | LocalDecl.mk _ _ is_mut _ _ _ => is_mut

/-- `LocalDecl::is_written()`. -/
def LocalDecl.is_written : LocalDecl → Bool
  | LocalDecl.mk _ _ _ is_written _ _ => is_written

/-- `LocalDecl::ast_type()`. -/
def LocalDecl.ast_type : LocalDecl → Option ASTType
  | LocalDecl.mk _ _ _ _ ast_type _ => ast_type

/-- `LocalDecl::type()`. -/
def LocalDecl.type : LocalDecl → Ty
  | LocalDecl.mk _ _ _ _ _ type => type

/-- The virtual functions of `Expr` that `typesema.cpp` calls and that are
defined outside the sources.  `take_address` marks declarations as
address-taken. -/
structure ExprFns where
  is_lvalue : Expr → Bool
  has_side_effect : Expr → Bool
  take_address : Expr → (Nat → Bool) → (Nat → Bool)

end TypeSema

/-- The state of a `TypeSema` run: the members `nossa_`, `cur_block_` and
`cur_fn_` (nodes by their address), and what the run writes outside of the
class: the diagnostics emitted so far, the `is_address_taken_` flag of the
local declarations, the `locals_` of the blocks, and the `value_` and `values_`
of the character and string literals. -/
structure TypeSema where
  nossa_ : Bool
  cur_block_ : Option Nat
  cur_fn_ : Option Nat
  diags_ : List Diag
  address_taken_ : Nat → Bool
  locals_ : Nat → List TypeSema.LocalDecl
  value_ : Nat → Nat
  values_ : Nat → List Nat

namespace TypeSema

/-- A fresh `TypeSema(nossa)`; nothing was emitted or written yet. -/
def init (nossa : Bool) : TypeSema :=
  { nossa_ := nossa, cur_block_ := none, cur_fn_ := none, diags_ := [],
    address_taken_ := fun _ => false, locals_ := fun _ => [], value_ := fun _ => 0,
    values_ := fun _ => [] }

/-- `error(node, ...)`: an error-severity diagnostic at the node. -/
def error (loc : Nat) (msg : TypeMsg) (s : TypeSema) : TypeSema :=
  { s with diags_ := s.diags_ ++ [⟨Severity.error, loc, msg⟩] }

/-- `warning(node, ...)`: a warning-severity diagnostic at the node. -/
def warning (loc : Nat) (msg : TypeMsg) (s : TypeSema) : TypeSema :=
  { s with diags_ := s.diags_ ++ [⟨Severity.warning, loc, msg⟩] }

/-- Modelled from the spec: the success flag of a run (section 4.5), false if
any `error` was called. -/
def result (s : TypeSema) : Bool :=
  s.diags_.all (fun d => decide (d.severity ≠ Severity.error))

/-- `TypeSema::scalar_type(expr)`: the element type of a simd type, the type
itself otherwise. -/
def scalar_type (expr : Expr) : Ty :=
  match expr.type with
  | Ty.simd elem _ => elem
  | t => t

/-- The first argument of the macro `IMPALA_EXPECT(T, pred, what)`: one value
per function `expect_T` that the macro defines. -/
inductive OperandClass
  | bool | int | int_or_bool | num | num_or_bool | ptr
  deriving DecidableEq, Repr

/-- The argument `pred` of `IMPALA_EXPECT`. -/
def OperandClass.pred : OperandClass → Ty → Bool
  | OperandClass.bool, t => t.is_bool
  | OperandClass.int, t => t.is_int
  | OperandClass.int_or_bool, t => t.is_int || t.is_bool
  | OperandClass.num, t => t.is_int || t.is_float
  | OperandClass.num_or_bool, t => t.is_int || t.is_float || t.is_bool
  | OperandClass.ptr, t => t.isPtr

/-- The argument `what` of `IMPALA_EXPECT`. -/
def OperandClass.what : OperandClass → String
  | OperandClass.bool => "boolean type"
  | OperandClass.int => "integer type"
  | OperandClass.int_or_bool => "integer or boolean type"
  | OperandClass.num => "number type"
  | OperandClass.num_or_bool => "number or boolean type"
  | OperandClass.ptr => "pointer type"

/-- The function `expect_T` that `IMPALA_EXPECT(T, pred, what)` defines. -/
def expect (c : OperandClass) (expr : Expr) (s : TypeSema) : TypeSema :=
  if !(scalar_type expr).isError && !(c.pred (scalar_type expr)) then
    error expr.id (TypeMsg.expected c.what (scalar_type expr)) s
  else s

/-- `TypeSema::expect_lvalue(expr, ...)`. -/
def expect_lvalue (F : ExprFns) (expr : Expr) (s : TypeSema) : TypeSema :=
  if !F.is_lvalue expr then error expr.id TypeMsg.lvalue_required s else s

/-- `TypeSema::expect_known(value_decl)`. -/
def expect_known (id : Nat) (symbol : Symbol) (type : Ty) (s : TypeSema) : TypeSema :=
  if !type.is_known then error id (TypeMsg.cannot_infer_type symbol) s else s

/-- `TypeSema::expect_type(expr, found, context)`. -/
def expect_type (expr : Expr) (found : Ty) (s : TypeSema) : TypeSema :=
  if expr.type ≠ found then error expr.id (TypeMsg.mismatched_types expr.type found) s else s

/-- The template `symmetric(f, a, b)`. -/
def symmetric (f : Ty → Ty → Bool) (a b : Ty) : Bool := f a b || f b a

/-- The value `valid_cast` of `CastExpr::check`. -/
def valid_cast (src_type dst_type : Ty) : Bool :=
  (src_type.isPtr && dst_type.isPtr) ||
  (src_type.is_float && dst_type.is_float) ||
  (src_type.is_int && dst_type.is_int) ||
  symmetric (fun a b => a.is_int && b.isPtr) src_type dst_type ||
  symmetric (fun a b => a.is_int && b.is_float) src_type dst_type ||
  symmetric (fun a b => a.is_int && b.is_bool) src_type dst_type ||
  symmetric (fun a b => a.is_float && b.is_bool) src_type dst_type

/-- The end of `CastExpr::check`, after the operand and the AST type were
checked. -/
def cast_expr_check (id : Nat) (src_type dst_type : Ty) (s : TypeSema) : TypeSema :=
  if !valid_cast src_type dst_type then error id (TypeMsg.invalid_cast src_type dst_type) s
  else s

/-- The `switch` of `PrefixExpr::check`, after the operand was checked. -/
def prefix_expr_check (F : ExprFns) (kind : PrefixKind) (rhs : Expr) (s : TypeSema) :
    TypeSema :=
  match kind with
  | PrefixKind.AND =>
    let s1 := expect_lvalue F rhs s
    { s1 with address_taken_ := F.take_address rhs s1.address_taken_ }
  | PrefixKind.TILDE => s
  | PrefixKind.MUL => expect OperandClass.ptr rhs s
  | PrefixKind.INC => expect_lvalue F rhs (expect OperandClass.num rhs s)
  | PrefixKind.DEC => expect_lvalue F rhs (expect OperandClass.num rhs s)
  | PrefixKind.ADD => expect OperandClass.num rhs s
  | PrefixKind.SUB => expect OperandClass.num rhs s
  | PrefixKind.NOT => expect OperandClass.int_or_bool rhs s
  | _ => s

/-- The test of `InfixExpr::check` that both operands have the same type. -/
def agree_check (id : Nat) (lhs rhs : Expr) (s : TypeSema) : TypeSema :=
  if lhs.type ≠ rhs.type then
    error rhs.id (TypeMsg.right_type_is rhs.type)
      (error lhs.id (TypeMsg.left_type_is lhs.type) (error id TypeMsg.sides_must_agree s))
  else s

/-- Both operands are expected in the class. -/
def expect_both (c : OperandClass) (lhs rhs : Expr) (s : TypeSema) : TypeSema :=
  expect c rhs (expect c lhs s)

/-- The `switch` of `InfixExpr::check`. -/
def infix_switch (F : ExprFns) (kind : InfixKind) (lhs rhs : Expr) (s : TypeSema) :
    TypeSema :=
  match kind with
  | InfixKind.EQ => expect_both OperandClass.num_or_bool lhs rhs s
  | InfixKind.NE => expect_both OperandClass.num_or_bool lhs rhs s
  | InfixKind.LT => expect_both OperandClass.num_or_bool lhs rhs s
  | InfixKind.GT => expect_both OperandClass.num_or_bool lhs rhs s
  | InfixKind.LE => expect_both OperandClass.num_or_bool lhs rhs s
  | InfixKind.GE => expect_both OperandClass.num_or_bool lhs rhs s
  | InfixKind.ADD => expect_both OperandClass.num lhs rhs s
  | InfixKind.SUB => expect_both OperandClass.num lhs rhs s
  | InfixKind.MUL => expect_both OperandClass.num lhs rhs s
  | InfixKind.DIV => expect_both OperandClass.num lhs rhs s
  | InfixKind.REM => expect_both OperandClass.num lhs rhs s
  | InfixKind.OROR => expect_both OperandClass.bool lhs rhs s
  | InfixKind.ANDAND => expect_both OperandClass.bool lhs rhs s
  | InfixKind.SHL => expect_both OperandClass.int lhs rhs s
  | InfixKind.SHR => expect_both OperandClass.int lhs rhs s
  | InfixKind.OR => expect_both OperandClass.int_or_bool lhs rhs s
  | InfixKind.AND => expect_both OperandClass.int_or_bool lhs rhs s
  | InfixKind.XOR => expect_both OperandClass.int_or_bool lhs rhs s
  | InfixKind.ASGN => expect_lvalue F lhs s
  | InfixKind.ADD_ASGN => expect_lvalue F lhs (expect_both OperandClass.num lhs rhs s)
  | InfixKind.SUB_ASGN => expect_lvalue F lhs (expect_both OperandClass.num lhs rhs s)
  | InfixKind.MUL_ASGN => expect_lvalue F lhs (expect_both OperandClass.num lhs rhs s)
  | InfixKind.DIV_ASGN => expect_lvalue F lhs (expect_both OperandClass.num lhs rhs s)
  | InfixKind.REM_ASGN => expect_lvalue F lhs (expect_both OperandClass.num lhs rhs s)
  | InfixKind.AND_ASGN => expect_lvalue F lhs (expect_both OperandClass.int_or_bool lhs rhs s)
  | InfixKind.OR_ASGN => expect_lvalue F lhs (expect_both OperandClass.int_or_bool lhs rhs s)
  | InfixKind.XOR_ASGN => expect_lvalue F lhs (expect_both OperandClass.int_or_bool lhs rhs s)
  | InfixKind.SHL_ASGN => expect_lvalue F lhs (expect_both OperandClass.int lhs rhs s)
  | InfixKind.SHR_ASGN => expect_lvalue F lhs (expect_both OperandClass.int lhs rhs s)

/-- `InfixExpr::check`, after both operands were checked. -/
def infix_expr_check (F : ExprFns) (id : Nat) (kind : InfixKind) (lhs rhs : Expr)
    (s : TypeSema) : TypeSema :=
  infix_switch F kind lhs rhs (agree_check id lhs rhs s)

/-- `LocalDecl::take_address()`. -/
def take_address (id : Nat) (s : TypeSema) : TypeSema :=
  { s with address_taken_ := Function.update s.address_taken_ id true }

/-- `PathExpr::check`. -/
def path_expr_check (value_decl : Option ValueDeclRef) (s : TypeSema) : TypeSema :=
  match value_decl with
  | some (ValueDeclRef.local_decl id is_mut fn) =>
    if is_mut && (s.nossa_ || decide (fn ≠ s.cur_fn_)) then take_address id s else s
  | _ => s

/-- The test of the ABI string in `ExternBlock::check`.  The string is the
token as written, with its quotes. -/
def abi_check (id : Nat) (abi : String) (s : TypeSema) : TypeSema :=
  if abi ≠ "" then
    if abi ≠ "\"C\"" ∧ abi ≠ "\"device\"" ∧ abi ≠ "\"thorin\"" then
      error id TypeMsg.unknown_extern_specification s
    else s
  else s

/-- The dispatch of `MapExpr::check` on the type of the callee, after the
callee and the arguments were checked.  `check_call` returns at once. -/
def map_expr_check (id : Nat) (ltype : Ty) (args : List Expr) (s : TypeSema) : TypeSema :=
  if ltype.isFn then s
  else if ltype.isArray then
    match args with
    | [arg] => expect OperandClass.int arg s
    | _ => error id TypeMsg.too_many_array_subscripts s
  else if ltype.isTuple then
    match args with
    | [arg] =>
      if !arg.isLiteral then
        error id TypeMsg.require_literal_as_tuple_subscript (expect OperandClass.int arg s)
      else expect OperandClass.int arg s
    | _ => error id TypeMsg.too_many_tuple_subscripts s
  else if ltype.isSimd then
    match args with
    | [arg] => expect OperandClass.int arg s
    | _ => error id TypeMsg.too_many_simd_subscripts s
  else error id TypeMsg.incorrect_type_for_map s

/-- The loop over the parameters in `Fn::check_body`. -/
def param_warnings : List LocalDecl → TypeSema → TypeSema
  | [], s => s
  | param :: rest, s =>
    param_warnings rest
      (if param.is_mut && !param.is_written then
        warning param.id (TypeMsg.parameter_never_written param.symbol) s
      else s)

/-- The loop over `locals_` in `BlockExprBase::check`. -/
def local_warnings : List LocalDecl → TypeSema → TypeSema
  | [], s => s
  | l :: rest, s =>
    local_warnings rest
      (if l.is_mut && !l.is_written then
        warning l.id (TypeMsg.variable_never_written l.symbol) s
      else s)

/-- `sema.cur_block_->add_local(local)`.  A `let` is a statement of a block, so
`cur_block_` is set when it is checked; nothing is added otherwise. -/
def add_local (l : LocalDecl) (s : TypeSema) : TypeSema :=
  match s.cur_block_ with
  | some b => { s with locals_ := Function.update s.locals_ b (s.locals_ b ++ [l]) }
  | none => s

/-- The `char` the pointer is at; past the last `char` of the token it is at
the terminating NUL. -/
def deref (p : List Char) : Char := p.headD (Char.ofNat 0)

/-- The `switch` of `TypeSema::char_value` over the character after a
backslash; `none` is the `default` branch. -/
def escape_value (c : Char) : Option Nat :=
  if c = '0' then some 0
  else if c = 'n' then some 10
  else if c = 't' then some 9
  else if c = Char.ofNat 39 then some 39
  else if c = Char.ofNat 34 then some 34
  else if c = Char.ofNat 92 then some 92
  else none

/-- `TypeSema::char_value(loc, p)`: the value, the advanced pointer and the
state. -/
def char_value (loc : Nat) (p : List Char) (s : TypeSema) : Nat × List Char × TypeSema :=
  if deref p = Char.ofNat 92 then
    match escape_value (deref p.tail) with
    | some v => (v, p.tail.tail, s)
    | none =>
      (0, p.tail.tail, error loc (TypeMsg.unknown_escape_sequence (deref p.tail).toNat) s)
  else ((deref p).toNat % 256, p.tail, s)

/-- `CharExpr::check`. -/
def char_expr_check (id : Nat) (symbol : List Char) (s : TypeSema) : TypeSema :=
  if deref symbol.tail ≠ Char.ofNat 39 then
    if deref (char_value id symbol.tail s).2.1 ≠ Char.ofNat 39 then
      error id TypeMsg.multi_character_constant
        { (char_value id symbol.tail s).2.2 with
          value_ := Function.update s.value_ id (char_value id symbol.tail s).1 }
    else
      { (char_value id symbol.tail s).2.2 with
        value_ := Function.update s.value_ id (char_value id symbol.tail s).1 }
  else error id TypeMsg.empty_character_constant s

/-- `values_.push_back(v)` of the string literal at `id`. -/
def push_value (id : Nat) (v : Nat) (s : TypeSema) : TypeSema :=
  { s with values_ := Function.update s.values_ id (s.values_ id ++ [v]) }

/-- The loop `while (*p != '"') values_.push_back(sema.char_value(loc(), p))` of
`StrExpr::check`.  Every round advances the pointer, so as many rounds as the
token has `char`s are enough; a token without closing quote is excluded by the
lexer. -/
def str_loop (id : Nat) : Nat → List Char → TypeSema → TypeSema
  | 0, _, s => s
  | fuel + 1, p, s =>
    if deref p ≠ Char.ofNat 34 then
      str_loop id fuel (char_value id p s).2.1
        (push_value id (char_value id p s).1 (char_value id p s).2.2)
    else s

/-- The loop over the symbols in `StrExpr::check`. -/
def str_symbols (id : Nat) : List (List Char) → TypeSema → TypeSema
  | [], s => s
  | symbol :: rest, s => str_symbols id rest (str_loop id symbol.length symbol.tail s)

/-- `StrExpr::check`. -/
def str_expr_check (id : Nat) (symbols : List (List Char)) (s : TypeSema) : TypeSema :=
  push_value id 0 (str_symbols id symbols s)

/-- The element type that `DefiniteArrayExpr::check` expects. -/
def definite_elem_type : Ty → Option Ty
  | Ty.definite_array elem _ => some elem
  | _ => none

/-- The element type that `SimdExpr::check` expects. -/
def simd_elem_type : Ty → Option Ty
  | Ty.simd elem _ => some elem
  | _ => none

/-- The test `if (elem_type) sema.expect_type(arg, elem_type, ...)`. -/
def expect_elem_type (elem_type : Option Ty) (arg : Expr) (s : TypeSema) : TypeSema :=
  match elem_type with
  | some t => expect_type arg t s
  | none => s

/-- The two diagnostics of `ExprStmt::check`, after the expression was
checked. -/
def expr_stmt_check (F : ExprFns) (expr : Expr) (s : TypeSema) : TypeSema :=
  let s1 := if expr.type.isNoRet then error expr.id TypeMsg.does_not_return s else s
  if !F.has_side_effect expr then warning expr.id TypeMsg.statement_with_no_effect s1 else s1

mutual
/-- The `check(TypeSema&)` functions of the AST types. -/
def ASTType.check (F : ExprFns) : ASTType → TypeSema → TypeSema
  | ASTType.mk _ _ ASTTypeNode.error_ast_type, s => s
  | ASTType.mk _ _ ASTTypeNode.prim_ast_type, s => s
  | ASTType.mk _ _ (ASTTypeNode.ptr_ast_type t), s => ASTType.check F t s
  | ASTType.mk _ _ (ASTTypeNode.indefinite_array_ast_type t), s => ASTType.check F t s
  | ASTType.mk _ _ (ASTTypeNode.definite_array_ast_type t), s => ASTType.check F t s
  | ASTType.mk id _ (ASTTypeNode.simd_ast_type t), s =>
    if !t.type.isPrim then error id TypeMsg.non_primitive_simd (ASTType.check F t s)
    else ASTType.check F t s
  | ASTType.mk _ _ (ASTTypeNode.tuple_ast_type args), s => check_ast_types F args s
  | ASTType.mk _ _ (ASTTypeNode.fn_ast_type tps args), s =>
    check_ast_types F args (check_ast_type_params F tps s)
  | ASTType.mk id _ (ASTTypeNode.ast_type_app symbol names_type), s =>
    if !names_type then error id (TypeMsg.does_not_name_a_type symbol) s else s
  | ASTType.mk _ _ (ASTTypeNode.typeof expr), s => Expr.check F expr s
/-- A loop `for (auto t : ...) sema.check(t)` over AST types. -/
def check_ast_types (F : ExprFns) : List ASTType → TypeSema → TypeSema
  | [], s => s
  | t :: rest, s => check_ast_types F rest (ASTType.check F t s)
/-- `ASTTypeParam::check`. -/
def ASTTypeParam.check (F : ExprFns) : ASTTypeParam → TypeSema → TypeSema
  | ASTTypeParam.mk bounds, s => check_ast_types F bounds s
/-- `ASTTypeParamList::check_ast_type_params`. -/
def check_ast_type_params (F : ExprFns) : List ASTTypeParam → TypeSema → TypeSema
  | [], s => s
  | tp :: rest, s => check_ast_type_params F rest (ASTTypeParam.check F tp s)
/-- An optional AST type: `if (ast_type()) sema.check(ast_type())`. -/
def check_opt_ast_type (F : ExprFns) : Option ASTType → TypeSema → TypeSema
  | none, s => s
  | some t, s => ASTType.check F t s
/-- `LocalDecl::check`. -/
def LocalDecl.check (F : ExprFns) : LocalDecl → TypeSema → TypeSema
  | LocalDecl.mk id symbol _ _ ast_type type, s =>
    expect_known id symbol type (check_opt_ast_type F ast_type s)
/-- A loop `for (auto param : params()) sema.check(param)`. -/
def check_local_decls (F : ExprFns) : List LocalDecl → TypeSema → TypeSema
  | [], s => s
  | l :: rest, s => check_local_decls F rest (LocalDecl.check F l s)
/-- The `check(TypeSema&)` functions of the expressions.  `THORIN_PUSH(x, v)`
sets `x` to `v` and puts the old value back at the end of the function;
`Fn::check_body` checks the body and then warns about the parameters;
`RunBlockExpr::check` is `BlockExprBase::check` with `cur_fn_` pushed. -/
def Expr.check (F : ExprFns) : Expr → TypeSema → TypeSema
  | Expr.mk _ _ ExprNode.empty_expr, s => s
  | Expr.mk _ _ ExprNode.literal_expr, s => s
  | Expr.mk id _ (ExprNode.char_expr symbol), s => char_expr_check id symbol s
  | Expr.mk id _ (ExprNode.str_expr symbols), s => str_expr_check id symbols s
  | Expr.mk _ _ (ExprNode.fn_expr params body), s =>
    { param_warnings params
        (Expr.check F body (check_local_decls F params { s with cur_fn_ := some body.id }))
      with cur_fn_ := s.cur_fn_ }
  | Expr.mk _ _ (ExprNode.path_expr value_decl), s => path_expr_check value_decl s
  | Expr.mk _ _ (ExprNode.prefix_expr kind rhs), s =>
    prefix_expr_check F kind rhs (Expr.check F rhs s)
  | Expr.mk id _ (ExprNode.infix_expr kind lhs rhs), s =>
    infix_expr_check F id kind lhs rhs (Expr.check F rhs (Expr.check F lhs s))
  | Expr.mk _ _ (ExprNode.postfix_expr lhs), s =>
    expect_lvalue F lhs (expect OperandClass.num lhs (Expr.check F lhs s))
  | Expr.mk id _ (ExprNode.cast_expr lhs ast_type), s =>
    cast_expr_check id lhs.type ast_type.type (ASTType.check F ast_type (Expr.check F lhs s))
  | Expr.mk _ _ (ExprNode.tuple_expr args), s => check_exprs F args s
  | Expr.mk _ _ (ExprNode.repeated_definite_array_expr value), s => Expr.check F value s
  | Expr.mk _ _ (ExprNode.indefinite_array_expr dim elem_ast_type), s =>
    ASTType.check F elem_ast_type (expect OperandClass.int dim (Expr.check F dim s))
  | Expr.mk _ type (ExprNode.definite_array_expr args), s =>
    check_elems F (definite_elem_type type) args s
  | Expr.mk _ type (ExprNode.simd_expr args), s =>
    check_elems F (simd_elem_type type) args s
  | Expr.mk _ _ (ExprNode.struct_expr _ _), s => s
  | Expr.mk _ _ (ExprNode.field_expr _ _), s => s
  | Expr.mk id _ (ExprNode.map_expr lhs args), s =>
    map_expr_check id lhs.type args (check_exprs F args (Expr.check F lhs s))
  | Expr.mk id _ (ExprNode.block_expr stmts expr), s =>
    { local_warnings
        ((Expr.check F expr (check_stmts F stmts { s with cur_block_ := some id })).locals_ id)
        (Expr.check F expr (check_stmts F stmts { s with cur_block_ := some id }))
      with cur_block_ := s.cur_block_ }
  | Expr.mk id _ (ExprNode.run_block_expr stmts expr), s =>
    { local_warnings
        ((Expr.check F expr (check_stmts F stmts
          { s with cur_fn_ := some id, cur_block_ := some id })).locals_ id)
        (Expr.check F expr (check_stmts F stmts
          { s with cur_fn_ := some id, cur_block_ := some id }))
      with cur_block_ := s.cur_block_, cur_fn_ := s.cur_fn_ }
  | Expr.mk _ _ (ExprNode.if_expr cond then_expr else_expr), s =>
    Expr.check F else_expr (Expr.check F then_expr (Expr.check F cond s))
  | Expr.mk _ _ (ExprNode.while_expr cond break_decl continue_decl body), s =>
    Expr.check F body (LocalDecl.check F continue_decl
      (LocalDecl.check F break_decl (Expr.check F cond s)))
  | Expr.mk _ _ (ExprNode.for_expr _ _), s => s
/-- A loop `for (auto arg : args()) sema.check(arg)`. -/
def check_exprs (F : ExprFns) : List Expr → TypeSema → TypeSema
  | [], s => s
  | e :: rest, s => check_exprs F rest (Expr.check F e s)
/-- The loop of `DefiniteArrayExpr::check` and `SimdExpr::check`. -/
def check_elems (F : ExprFns) (elem_type : Option Ty) : List Expr → TypeSema → TypeSema
  | [], s => s
  | arg :: rest, s =>
    check_elems F elem_type rest (expect_elem_type elem_type arg (Expr.check F arg s))
/-- An optional expression: `if (init()) sema.check(init())`. -/
def check_opt_expr (F : ExprFns) : Option Expr → TypeSema → TypeSema
  | none, s => s
  | some e, s => Expr.check F e s
/-- The `check(TypeSema&)` functions of the statements. -/
def Stmt.check (F : ExprFns) : Stmt → TypeSema → TypeSema
  | Stmt.expr_stmt expr, s => expr_stmt_check F expr (Expr.check F expr s)
  | Stmt.item_stmt item, s => Item.check F item s
  | Stmt.let_stmt local_decl init, s =>
    check_opt_expr F init (LocalDecl.check F local_decl (add_local local_decl s))
/-- The loop over the statements of a block. -/
def check_stmts (F : ExprFns) : List Stmt → TypeSema → TypeSema
  | [], s => s
  | stmt :: rest, s => check_stmts F rest (Stmt.check F stmt s)
/-- The `check(TypeSema&)` functions of the items. -/
def Item.check (F : ExprFns) : Item → TypeSema → TypeSema
  | Item.mod_decl mod_contents, s => check_opt_mod_contents F mod_contents s
  | Item.extern_block id abi fns, s => check_fn_decls F fns (abi_check id abi s)
  | Item.typedef tps ast_type, s => ASTType.check F ast_type (check_ast_type_params F tps s)
  | Item.enum_decl, s => s
  | Item.struct_decl tps field_decls, s =>
    check_ast_types F field_decls (check_ast_type_params F tps s)
  | Item.fn_decl fn_decl, s => FnDecl.check F fn_decl s
  | Item.static_item id symbol type init, s =>
    expect_known id symbol type (check_opt_expr F init s)
  | Item.trait_decl self_param tps super_traits methods, s =>
    check_fn_decls F methods (check_ast_types F super_traits
      (check_ast_type_params F tps (ASTTypeParam.check F self_param s)))
  | Item.impl_item tps ast_type none, s =>
    ASTType.check F ast_type (check_ast_type_params F tps s)
  | Item.impl_item tps ast_type (some trait), s =>
    if trait.isTypeApp then
      check_ast_type_params F tps (ASTType.check F ast_type (check_ast_type_params F tps s))
    else
      error trait.id TypeMsg.expected_trait_instance
        (ASTType.check F ast_type (check_ast_type_params F tps s))
/-- `FnDecl::check`. -/
def FnDecl.check (F : ExprFns) : FnDecl → TypeSema → TypeSema
  | FnDecl.mk tps params none, s =>
    { check_local_decls F params (check_ast_type_params F tps { s with cur_fn_ := none })
      with cur_fn_ := s.cur_fn_ }
  | FnDecl.mk tps params (some body), s =>
    { param_warnings params (Expr.check F body
        (check_local_decls F params
          (check_ast_type_params F tps { s with cur_fn_ := some body.id })))
      with cur_fn_ := s.cur_fn_ }
/-- A loop that checks function declarations. -/
def check_fn_decls (F : ExprFns) : List FnDecl → TypeSema → TypeSema
  | [], s => s
  | fn_decl :: rest, s => check_fn_decls F rest (FnDecl.check F fn_decl s)
/-- The contents of a module, if any. -/
def check_opt_mod_contents (F : ExprFns) : Option ModContents → TypeSema → TypeSema
  | none, s => s
  | some mod_contents, s => ModContents.check F mod_contents s
/-- `ModContents::check`. -/
def ModContents.check (F : ExprFns) : ModContents → TypeSema → TypeSema
  | ModContents.mk items, s => check_items F items s
/-- The loop over the items of a module. -/
def check_items (F : ExprFns) : List Item → TypeSema → TypeSema
  | [], s => s
  | item :: rest, s => check_items F rest (Item.check F item s)
end

/-- `type_analysis(mod, nossa)`; the state the run leaves behind. -/
def type_analysis (F : ExprFns) (mod : ModContents) (nossa : Bool) : TypeSema :=
  mod.check F (init nossa)

end TypeSema

namespace TypeSema

/-- The diagnostics emitted between two states of a run. -/
def emitted (before after : TypeSema) : List Diag :=
  after.diags_.drop before.diags_.length

/-- The cast legality of the specification, in its words: `Ptr/Ptr`, `int/int`,
`float/float`, and in either direction `int/Ptr`, `int/float`, `int/bool`,
`float/bool`. -/
def cast_permitted (a b : Ty) : Bool :=
  (a.isPtr && b.isPtr) || (a.is_int && b.is_int) || (a.is_float && b.is_float) ||
  (a.is_int && b.isPtr) || (a.isPtr && b.is_int) ||
  (a.is_int && b.is_float) || (a.is_float && b.is_int) ||
  (a.is_int && b.is_bool) || (a.is_bool && b.is_int) ||
  (a.is_float && b.is_bool) || (a.is_bool && b.is_float)

/-- The operand class of the specification for a prefix operator, in its
words: int or float for unary `+ -` and `++ --`, int or bool for `!`, `Ptr` for
unary `*`; no class for the other operators. -/
def claimed_prefix_operand : PrefixKind → Option (Ty → Bool)
  | PrefixKind.ADD => some (fun t => t.is_int || t.is_float)
  | PrefixKind.SUB => some (fun t => t.is_int || t.is_float)
  | PrefixKind.INC => some (fun t => t.is_int || t.is_float)
  | PrefixKind.DEC => some (fun t => t.is_int || t.is_float)
  | PrefixKind.NOT => some (fun t => t.is_int || t.is_bool)
  | PrefixKind.MUL => some (fun t => t.isPtr)
  | _ => none

/-- The operand class of the specification for an infix operator, in its
words: int or float for `+ - * / %` and their compound assignments, int for
`<< >>` and theirs, bool for `&& ||`, int or bool for `& | ^` and theirs, int,
float or bool for the comparisons; no class for `=`. -/
def claimed_infix_operand : InfixKind → Option (Ty → Bool)
  | InfixKind.ADD => some (fun t => t.is_int || t.is_float)
  | InfixKind.SUB => some (fun t => t.is_int || t.is_float)
  | InfixKind.MUL => some (fun t => t.is_int || t.is_float)
  | InfixKind.DIV => some (fun t => t.is_int || t.is_float)
  | InfixKind.REM => some (fun t => t.is_int || t.is_float)
  | InfixKind.ADD_ASGN => some (fun t => t.is_int || t.is_float)
  | InfixKind.SUB_ASGN => some (fun t => t.is_int || t.is_float)
  | InfixKind.MUL_ASGN => some (fun t => t.is_int || t.is_float)
  | InfixKind.DIV_ASGN => some (fun t => t.is_int || t.is_float)
  | InfixKind.REM_ASGN => some (fun t => t.is_int || t.is_float)
  | InfixKind.SHL => some (fun t => t.is_int)
  | InfixKind.SHR => some (fun t => t.is_int)
  | InfixKind.SHL_ASGN => some (fun t => t.is_int)
  | InfixKind.SHR_ASGN => some (fun t => t.is_int)
  | InfixKind.ANDAND => some (fun t => t.is_bool)
  | InfixKind.OROR => some (fun t => t.is_bool)
  | InfixKind.AND => some (fun t => t.is_int || t.is_bool)
  | InfixKind.OR => some (fun t => t.is_int || t.is_bool)
  | InfixKind.XOR => some (fun t => t.is_int || t.is_bool)
  | InfixKind.AND_ASGN => some (fun t => t.is_int || t.is_bool)
  | InfixKind.OR_ASGN => some (fun t => t.is_int || t.is_bool)
  | InfixKind.XOR_ASGN => some (fun t => t.is_int || t.is_bool)
  | InfixKind.EQ => some (fun t => t.is_int || t.is_float || t.is_bool)
  | InfixKind.NE => some (fun t => t.is_int || t.is_float || t.is_bool)
  | InfixKind.LT => some (fun t => t.is_int || t.is_float || t.is_bool)
  | InfixKind.LE => some (fun t => t.is_int || t.is_float || t.is_bool)
  | InfixKind.GT => some (fun t => t.is_int || t.is_float || t.is_bool)
  | InfixKind.GE => some (fun t => t.is_int || t.is_float || t.is_bool)
  | InfixKind.ASGN => none

/-- The operand-kind error of the specification for an operand: one error at
the operand, with its scalar type, when that type is not `Error` and is
outside the required class. -/
def claimed_operand_error (required : Option (Ty → Bool)) (e : Expr) : List (Nat × Ty) :=
  match required with
  | some p =>
    if !(scalar_type e).isError && !(p (scalar_type e)) then [(e.id, scalar_type e)] else []
  | none => []

/-- The operand-kind errors among diagnostics: the location and the type of
each error "expected ... (have ...)". -/
def operand_kind_errors (ds : List Diag) : List (Nat × Ty) :=
  ds.filterMap (fun d =>
    match d.severity, d.msg with
    | Severity.error, TypeMsg.expected _ t => some (d.loc, t)
    | _, _ => none)

/-- The locations of the errors "lvalue required" among diagnostics. -/
def lvalue_errors (ds : List Diag) : List Nat :=
  ds.filterMap (fun d =>
    match d.severity, d.msg with
    | Severity.error, TypeMsg.lvalue_required => some d.loc
    | _, _ => none)

/-- The infix kinds that assign: `=` and the compound assignments. -/
def InfixKind.is_assignment : InfixKind → Bool
  | InfixKind.ASGN => true
  | InfixKind.ADD_ASGN => true
  | InfixKind.SUB_ASGN => true
  | InfixKind.MUL_ASGN => true
  | InfixKind.DIV_ASGN => true
  | InfixKind.REM_ASGN => true
  | InfixKind.AND_ASGN => true
  | InfixKind.OR_ASGN => true
  | InfixKind.XOR_ASGN => true
  | InfixKind.SHL_ASGN => true
  | InfixKind.SHR_ASGN => true
  | _ => false

end TypeSema

namespace InferSema

/-- Modelled from the spec: `def_array(elem, dim)` of section 4.1,
`TypeTable::definite_array_type` of the missing `typetable.h`. -/
def definite_array_type (elem : Ty) (dim : Nat) : Ty := Ty.definite_array elem dim

/-- Modelled from the spec: `TypeTable::type_u8()` of the missing
`typetable.h`, the primitive type `u8`. -/
def type_u8 : Ty := Ty.prim PrimKind.u8

/-- `StrExpr::check(InferSema&)`, for the `values_` of the literal at the time
of the call. -/
def str_expr_check (values_ : List Nat) : Ty :=
  definite_array_type type_u8 values_.length

end InferSema

namespace Legacy

/-- Modelled from the spec: `Token::is_assign` of the missing `token.h`: the
kinds that `Token::init` registers with `IMPALA_INFIX_ASGN`, which are `=` and
the compound assignments that `Token::separate_assign` lists. -/
def is_assign (kind : TypeSema.InfixKind) : Bool := kind.is_assignment

/-- The expressions of the legacy `ast.h`, one constructor per class that
defines `is_lvalue`.  `Id::is_lvalue` is defined outside the sources; its
value (by the specification: whether the path names a mutable declaration) is
the field `is_mut_decl`.  The statements of a block are disabled in this
version and left out. -/
inductive Expr where
  | block (expr : Expr)
  | empty_expr
  | literal
  | array_expr (ops : List Expr)
  | tuple (ops : List Expr)
  | id (symbol : String) (is_mut_decl : Bool)
  | prefix_expr (kind : TypeSema.PrefixKind) (rhs : Expr)
  | infix_expr (kind : TypeSema.InfixKind) (lhs rhs : Expr)
  | postfix_expr (lhs : Expr)
  | conditional_expr (cond t_expr f_expr : Expr)
  | index_expr (lhs index : Expr)
  | call (ops : List Expr)

/-- The virtual function `is_lvalue()` of the legacy `ast.h`. -/
def Expr.is_lvalue : Expr → Bool
  | Expr.block _ => false
  | Expr.empty_expr => false
  | Expr.literal => false
  | Expr.array_expr _ => false
  | Expr.tuple _ => false
  | Expr.id _ is_mut_decl => is_mut_decl
  | Expr.prefix_expr _ _ => false
  | Expr.infix_expr kind _ _ => is_assign kind
  | Expr.postfix_expr _ => false
  | Expr.conditional_expr _ _ _ => false
  | Expr.index_expr _ _ => true
  | Expr.call _ => false

/-- The lvalue rule of the specification, in its words: a path to a mutable
declaration, a dereference, an index of an lvalue, or an assignment (the
legacy AST has no field expression). -/
def claimed_lvalue : Expr → Bool
  | Expr.id _ is_mut_decl => is_mut_decl
  | Expr.prefix_expr TypeSema.PrefixKind.MUL _ => true
  | Expr.index_expr lhs _ => claimed_lvalue lhs
  | Expr.infix_expr kind _ _ => kind.is_assignment
  | _ => false

end Legacy

namespace TypeSema

/-- What `expect_T(expr, ...)` emits. -/
def expect_own (c : OperandClass) (e : Expr) : List Diag :=
  if !(scalar_type e).isError && !(c.pred (scalar_type e)) then
    [⟨Severity.error, e.id, TypeMsg.expected c.what (scalar_type e)⟩] else []

/-- What `expect_lvalue(expr, ...)` emits. -/
def lvalue_own (F : ExprFns) (e : Expr) : List Diag :=
  if F.is_lvalue e then [] else [⟨Severity.error, e.id, TypeMsg.lvalue_required⟩]

/-- What the test of `InfixExpr::check` for equal operand types emits. -/
def agree_own (id : Nat) (lhs rhs : Expr) : List Diag :=
  if lhs.type ≠ rhs.type then
    [⟨Severity.error, id, TypeMsg.sides_must_agree⟩,
     ⟨Severity.error, lhs.id, TypeMsg.left_type_is lhs.type⟩,
     ⟨Severity.error, rhs.id, TypeMsg.right_type_is rhs.type⟩] else []

end TypeSema

namespace InferSema

/-- The loop of `type_inference`: `for (; sema->todo_; ++i)` resets `todo_` and
visits the module with `sema->check(module)`, here the parameter `check`,
which is `none` when the visit does not return.  The first argument bounds the
number of iterations; the result is the counter `i` and the final state. -/
def type_inference (check : TypeState → Option TypeState) :
    Nat → Nat → TypeState → Option (Nat × TypeState)
  | 0, _, _ => none
  | n + 1, i, σ =>
    if σ.uf.todo_ then
      match check { σ with uf := { σ.uf with todo_ := false } } with
      | none => none
      | some σ1 => type_inference check n (i + 1) σ1
    else some (i, σ)

/-- The type `fn(?0, ?1)` that the first visit of `|g| g` leaves in the slot
of the function: `?0` is the type of the parameter `g`, `?1` the one of the
return continuation. -/
def self_fn : Ty := Ty.fn [Ty.unknown 0, Ty.unknown 1]

/-- `rvalue(expr)` for an expression whose slot is already filled with a root:
the type is the content of the slot and nothing changes. -/
def rvalue_slot (σ : TypeState) (e : Expr) : Option (Ty × TypeState × Expr) :=
  some (e.type_.getD Ty.error, σ, e)

/-- The visit of the call `f(f)` in `MapExpr::check`, where the slot of the
callee and of the argument both hold the type `fn(?0, ?1)` of `f`: the call of
`check_call` with the type `?3` of the call. -/
def visit_self_application (is_subtype : Ty → Ty → Bool) (fuel : Nat) (σ : TypeState) :
    Option TypeState :=
  match check_call is_subtype rvalue_slot fuel σ (Expr.expr (some self_fn))
      [Expr.expr (some self_fn)] (Ty.unknown 3) with
  | none => none
  | some (_, σ1, _, _) => some σ1

/-- The parent links after `coerce(?0, f)`: `?0` is below `fn(?0, ?1)`, which
is a root. -/
def SelfLoop (s : State) : Prop :=
  s.parent ⟨Ty.unknown 0⟩ = ⟨self_fn⟩ ∧ s.parent ⟨self_fn⟩ = ⟨self_fn⟩

end InferSema
namespace InferSema

/-- An element `symbol: expr` of a struct literal, `StructExpr::Elem`. -/
structure StructElem where
  symbol : Symbol
  expr : Expr

/-- The loop of `StructExpr::check(InferSema&)` from index `i` on:
`rvalue(elem(i)->expr())`, and below `struct_type->num_ops()` also
`coerce(struct_type->op(i), elem(i)->expr())`; `struct_type` is `none` when the
checked type is no `StructType`. -/
def struct_expr_elems (is_subtype : Ty → Ty → Bool)
    (rvalue : TypeState → Expr → Option (Ty × TypeState × Expr)) (fuel : Nat)
    (struct_type : Option Ty) : Nat → TypeState → List StructElem →
    Option (TypeState × List StructElem)
  | _, σ, [] => some (σ, [])
  | i, σ, elem :: elems =>
    match rvalue σ elem.expr with
    | none => none
    | some (_, σ1, e1) =>
      let coerced : Option (TypeState × Expr) :=
        match struct_type with
        | some st =>
          if i < st.num_ops then
            match coerce is_subtype rvalue fuel σ1 (st.op i) e1 with
            | none => none
            | some (_, σ2, e2) => some (σ2, e2)
          else some (σ1, e1)
        | none => some (σ1, e1)
      match coerced with
      | none => none
      | some (σ2, e2) =>
        match struct_expr_elems is_subtype rvalue fuel struct_type (i + 1) σ2 elems with
        | none => none
        | some (σ3, elems1) => some (σ3, { elem with expr := e2 } :: elems1)

/-- `StructExpr::check(InferSema&)`; `type` is the value of
`sema.check(ast_type_app())`.  The result is the returned type, the new state
and the elements. -/
def struct_expr_check (is_subtype : Ty → Ty → Bool)
    (rvalue : TypeState → Expr → Option (Ty × TypeState × Expr)) (fuel : Nat)
    (σ : TypeState) (type : Ty) (elems : List StructElem) :
    Option (Ty × TypeState × List StructElem) :=
  let struct_type : Option Ty :=
    match type with
    | Ty.struct_type _ _ => some type
    | _ => none
  match struct_expr_elems is_subtype rvalue fuel struct_type 0 σ elems with
  | none => none
  | some (σ1, elems1) => some (type, σ1, elems1)

/-- The index of the field a symbol names, `field_decl(symbol)->index()`, for
the fields of the struct declaration in declaration order. -/
def field_index (fields : List Symbol) (symbol : Symbol) : Option Nat :=
  match fields.indexOf symbol with
  | i => if i < fields.length then some i else none

end InferSema
namespace InferSema

/-- The union-by-rank invariant: every representative that is not its own
parent has a parent of strictly greater rank. -/
def RankInv (s : State) : Prop :=
  ∀ r, s.parent r ≠ r → s.rank r < s.rank (s.parent r)

/-- The states reachable by calls of `unify` that return. -/
inductive UnifyReachable : State → Prop
  | init : UnifyReachable init
  | unify {s : State} (fuel : Nat) (a b r : Ty) (s1 : State) :
      UnifyReachable s → unify fuel s a b = some (r, s1) → UnifyReachable s1

/-- The states reachable by calls of `unify` on two `Unknown`s that return. -/
inductive UnknownReachable : State → Prop
  | init : UnknownReachable init
  | unify {s : State} (fuel : Nat) (i j : Nat) (r : Ty) (s1 : State) :
      UnknownReachable s → unify fuel s (Ty.unknown i) (Ty.unknown j) = some (r, s1) →
      UnknownReachable s1

/-- Every parent link leads to the representative of an `Unknown`. -/
def UnknownLinks (s : State) : Prop :=
  ∀ r, s.parent r ≠ r → (s.parent r).type.isUnknown = true

end InferSema
namespace Legacy

/-- A `Sema::Slot` of `sema.cpp`: a declaration with the depth of the scope it
was inserted in. -/
structure Slot where
  decl : Decl
  depth : Nat
  deriving DecidableEq

/-- The state of the legacy `Sema` of `sema.cpp`: the entries of the map
`scope_`, each a symbol with its slot stack, top first, and the counter
`depth_`.  The assertions of `insert` and `popScope` are modelled: a run in
which one of them fails has no result. -/
structure Sema where
  scope_ : List (Symbol × List Slot)
  depth_ : Nat
  deriving DecidableEq

namespace Sema

/-- The constructor `Sema::Sema()`: `depth_(0)` followed by `pushScope()`. -/
def init : Sema := { scope_ := [], depth_ := 1 }

/-- The call `scope_.find(sym)`: the stack stored for the symbol, when the map
has an entry for it. -/
def find : List (Symbol × List Slot) → Symbol → Option (List Slot)
  | [], _ => none
  | (key, stack) :: rest, sym => if key = sym then some stack else find rest sym

/-- `Sema::lookup(sym)`: the declaration on top of the stack of the symbol;
`top()` needs a stack that is not empty. -/
def lookup (s : Sema) (sym : Symbol) : Option Decl :=
  match find s.scope_ sym with
  | some (slot :: _) => some slot.decl
  | _ => none

/-- `Sema::clash(sym)`: the declaration on top of the stack when it was
inserted at the current depth. -/
def clash (s : Sema) (sym : Symbol) : Option Decl :=
  match find s.scope_ sym with
  | some (slot :: _) => if slot.depth = s.depth_ then some slot.decl else none
  | _ => none

/-- `Sema::insert(sym, decl)`: asserts that the symbol does not clash, creates
the stack of the symbol when the map has none, and pushes a slot with the
current depth. -/
def insert (s : Sema) (sym : Symbol) (decl : Decl) : Option Sema :=
  match s.clash sym with
  | some _ => none
  | none =>
    some { s with
      scope_ :=
        match find s.scope_ sym with
        | none => (sym, [⟨decl, s.depth_⟩]) :: s.scope_
        | some _ =>
          s.scope_.map (fun e => (e.1, if e.1 = sym then ⟨decl, s.depth_⟩ :: e.2 else e.2)) }

/-- The body of the loop of `popScope` on one stack, as long as the stack is
not emptied: the top slot is popped when it was inserted at the current
depth. -/
def pop_top (depth : Nat) : List Slot → List Slot
  | slot :: rest => if depth = slot.depth then rest else slot :: rest
  | [] => []

/-- `Sema::popScope()`: asserts `depth_ > 0`; for every entry of `scope_` it
asserts that the stack is not empty and pops the top slot when that was
inserted at the current depth; then it decrements `depth_`.  When a stack is
emptied, the entry is erased from `scope_` inside the loop that iterates over
`scope_`, which invalidates the iterator of the loop: the behaviour is
undefined and the run has no result. -/
def popScope (s : Sema) : Option Sema :=
  if 0 < s.depth_ then
    if s.scope_.any (fun e =>
        match e.2 with
        | [] => true
        | [slot] => decide (s.depth_ = slot.depth)
        | _ => false) then none
    else
      some { scope_ := s.scope_.map (fun e => (e.1, pop_top s.depth_ e.2))
             depth_ := s.depth_ - 1 }
  else none

/-- `Sema::pushScope()`. -/
def pushScope (s : Sema) : Sema := { s with depth_ := s.depth_ + 1 }

/-- The slot stack of a symbol; empty when the map has no entry. -/
def stack_of (s : Sema) (sym : Symbol) : List Slot := (find s.scope_ sym).getD []

end Sema

/-- One operation on the legacy table; a declaration is inserted under its own
symbol. -/
def run_sema_op : NameSema.TableOp → Sema → Option Sema
  | NameSema.TableOp.push_scope, s => some s.pushScope
  | NameSema.TableOp.insert decl, s => s.insert decl.symbol decl
  | NameSema.TableOp.pop_scope, s => s.popScope

/-- A sequence of operations on the legacy table, in order. -/
def run_sema : List NameSema.TableOp → Sema → Option Sema
  | [], s => some s
  | op :: ops, s =>
    match run_sema_op op s with
    | none => none
    | some s1 => run_sema ops s1

/-- No insert of the sequence clashes: when a declaration is inserted, the
innermost open scope does not declare its symbol yet. -/
def clash_free : List NameSema.TableOp → List (List Decl) → Bool
  | [], _ => true
  | op :: ops, scopes =>
    (match op, scopes with
      | NameSema.TableOp.insert decl, scope :: _ =>
        !scope.any (fun x => decide (x.symbol = decl.symbol))
      | _, _ => true) &&
    (match NameSema.lexical_step op scopes with
      | none => true
      | some scopes1 => clash_free ops scopes1)

/-- No close of a scope empties a slot stack: every declaration of a scope that
is closed shadows a declaration of an enclosing scope. -/
def shadowing_closes : List NameSema.TableOp → List (List Decl) → Bool
  | [], _ => true
  | op :: ops, scopes =>
    (match op, scopes with
      | NameSema.TableOp.pop_scope, scope :: outer =>
        scope.all (fun d => (NameSema.live outer).any (fun x => decide (x.symbol = d.symbol)))
      | _, _ => true) &&
    (match NameSema.lexical_step op scopes with
      | none => true
      | some scopes1 => shadowing_closes ops scopes1)

/-- The scopes of the sequence are balanced: no scope is closed that was not
opened before, and at the end only the root scope is open. -/
def balanced (ops : List NameSema.TableOp) : Bool :=
  match NameSema.lexical_run ops [[]] with
  | some [_] => true
  | _ => false

/-- The slot stack of a symbol in the table that holds the open scopes
`scopes`, innermost first: one slot per declaration of the symbol, tagged with
the depth of its scope. -/
def slots_of : List (List Decl) → Symbol → List Slot
  | [], _ => []
  | scope :: outer, sym =>
    (scope.filter (fun x => decide (x.symbol = sym))).map (fun d => ⟨d, outer.length + 1⟩) ++
      slots_of outer sym

/-- The legacy table holds the open scopes `scopes`: the stacks are those of
the scopes, no stored stack is empty and no symbol has two entries. -/
def LSim (scopes : List (List Decl)) (l : Sema) : Prop :=
  l.depth_ = scopes.length ∧ (∀ sym, l.stack_of sym = slots_of scopes sym) ∧
    (∀ e ∈ l.scope_, e.2 ≠ []) ∧ (l.scope_.map Prod.fst).Nodup

/-- No scope declares a symbol twice. -/
def UniqueSymbols (scopes : List (List Decl)) : Prop :=
  ∀ scope ∈ scopes, ∀ sym, (scope.filter (fun x => decide (x.symbol = sym))).length ≤ 1

end Legacy
namespace Legacy

/-- `Token::is_rel` of `token.cpp`, which `sema.cpp` calls as `Token::isRel`. -/
def is_rel : TypeSema.InfixKind → Bool
  | TypeSema.InfixKind.EQ => true
  | TypeSema.InfixKind.LT => true
  | TypeSema.InfixKind.LE => true
  | TypeSema.InfixKind.NE => true
  | TypeSema.InfixKind.GT => true
  | TypeSema.InfixKind.GE => true
  | _ => false

/-- What `InfixExpr::check(Sema&)` leaves behind: the diagnostics written to
`loc.error()`, whether `assert(false)` ended the run, and the slot `type_`. -/
structure InfixResult where
  errors : List String
  aborted : Bool
  type_ : Option Ty
  deriving DecidableEq

/-- `InfixExpr::check(Sema&)` of `sema.cpp`, after both operands were checked,
on the types of the operands.  `Type::equal` is declared outside the sources
and is the parameter `equal`; `ndebug` tells whether assertions are compiled
out, otherwise `assert(false)` ends the run before `type_` is written.
`clone(loc)` copies the type. -/
def infix_expr_check (equal : Ty → Ty → Bool) (ndebug : Bool) (kind : TypeSema.InfixKind)
    (ltype rtype : Ty) : InfixResult :=
  let errors := if equal ltype rtype then ["type error"] else []
  if equal ltype rtype && !ndebug then { errors := errors, aborted := true, type_ := none }
  else if is_rel kind then
    { errors := errors, aborted := false, type_ := some (Ty.prim PrimKind.bool) }
  else { errors := errors, aborted := false, type_ := some ltype }

end Legacy
namespace InferSema

/-- A run of `reduce` that has no result: an access `type_args[index]` in a
vector of `size` elements with `size ≤ index`, or a `constrain` that does not
return. -/
inductive Fault
  | out_of_bounds (index size : Nat)
  | no_return
  deriving DecidableEq, Repr

/-- `InferSema::num_lambdas(lambda)`: the number of nested `Lambda`s, counting
`lambda` itself; zero for the null pointer, here any other type. -/
def num_lambdas : Ty → Nat
  | Ty.lambda body _ => num_lambdas body + 1
  | _ => 0

/-- The first loop of `reduce`, from index `i` on:
`constrain(type_args[i], check(ast_type_args[i]))`.  The values
`check(ast_type_args[i])` are the list `checked`; an entry of `type_args` is
`none` when it is the null pointer. -/
def constrain_type_args (fuel : Nat) :
    Nat → State → List Ty → List (Option Ty) → Except Fault (State × List (Option Ty))
  | _, s, [], type_args => Except.ok (s, type_args)
  | i, s, t :: checked, type_args =>
    match type_args.get? i with
    | none => Except.error (Fault.out_of_bounds i type_args.length)
    | some slot =>
      match constrain fuel s slot t with
      | none => Except.error Fault.no_return
      | some (r, s1) => constrain_type_args fuel (i + 1) s1 checked (type_args.set i (some r))

/-- The second loop of `reduce`: `type_args.push_back(unknown_type())`, `k`
times; `next` is the supply of fresh `Unknown`s. -/
def push_unknowns : Nat → Nat → List (Option Ty) → Nat × List (Option Ty)
  | 0, next, type_args => (next, type_args)
  | k + 1, next, type_args => push_unknowns k (next + 1) (type_args ++ [some (Ty.unknown next)])

/-- The third loop of `reduce`: `while (type->isa<Lambda>()) type = app(lambda,
type_args[--i])`.  `TypeTable::app` is declared outside the sources and is the
parameter `app`.  At `i = 0` the decrement of the `size_t` wraps around. -/
def apply_type_args (app : Ty → Option Ty → Ty) (type_args : List (Option Ty)) :
    Nat → Ty → Except Fault Ty
  | 0, Ty.lambda _ _ => Except.error (Fault.out_of_bounds (2 ^ 64 - 1) type_args.length)
  | i + 1, Ty.lambda body name =>
    match type_args.get? i with
    | none => Except.error (Fault.out_of_bounds i type_args.length)
    | some arg => apply_type_args app type_args i (app (Ty.lambda body name) arg)
  | _, type => Except.ok type

/-- `InferSema::reduce(lambda, ast_type_args, type_args)`.  The result is the
returned type, the new state and the vector `type_args`. -/
def reduce (app : Ty → Option Ty → Ty) (fuel : Nat) (σ : TypeState) (lambda : Ty)
    (checked : List Ty) (type_args : List (Option Ty)) :
    Except Fault (Ty × TypeState × List (Option Ty)) :=
  if checked.length ≤ num_lambdas lambda then
    match constrain_type_args fuel 0 σ.uf checked type_args with
    | Except.error f => Except.error f
    | Except.ok (uf1, type_args1) =>
      match push_unknowns (num_lambdas lambda - type_args1.length) σ.next_unknown type_args1 with
      | (next, type_args2) =>
        match apply_type_args app type_args2 type_args2.length lambda with
        | Except.error f => Except.error f
        | Except.ok type => Except.ok (type, { uf := uf1, next_unknown := next }, type_args2)
  else Except.ok (Ty.error, σ, type_args)

end InferSema

namespace InferSema

/-! ### Roots and path compression -/

theorem rootOf_is_root {p : Representative → Representative} {r root : Representative}
    (h : RootOf p r root) : p root = root := by
  induction h with
  | root r hr => exact hr
  | step r root _ _ ih => exact ih

theorem rootOf_of_root {p : Representative → Representative} {r root : Representative}
    (hr : p r = r) (h : RootOf p r root) : root = r := by
  cases h with
  | root _ _ => rfl
  | step _ _ hne _ => exact absurd hr hne

theorem rootOf_unique {p : Representative → Representative} {r a b : Representative}
    (ha : RootOf p r a) (hb : RootOf p r b) : a = b := by
  induction ha with
  | root r hr => exact (rootOf_of_root hr hb).symm
  | step r root hne _ ih =>
    cases hb with
    | root _ hr => exact absurd hr hne
    | step _ _ _ hb2 => exact ih hb2

theorem compressed_refl (p : Representative → Representative) : Compressed p p :=
  fun _ => Or.inl rfl

theorem compressed_root {p q : Representative → Representative} (h : Compressed p q)
    {x : Representative} (hx : p x = x) : q x = x := by
  rcases h x with h1 | ⟨h1, _⟩
  · rw [h1, hx]
  · exact absurd hx h1

theorem compressed_rootOf {p q : Representative → Representative} (h : Compressed p q)
    {x root : Representative} (hx : RootOf p x root) : RootOf q x root := by
  induction hx with
  | root r hr => exact RootOf.root r (compressed_root h hr)
  | step r root hne hrest ih =>
    have hroot : p root = root := rootOf_is_root hrest
    rcases h r with h1 | ⟨_, h2⟩
    · refine RootOf.step r root (by rw [h1]; exact hne) ?_
      rw [h1]; exact ih
    · have hq : q r = root := rootOf_unique h2 (RootOf.step r root hne hrest)
      have hne2 : root ≠ r := fun e => hne (e ▸ hroot)
      refine RootOf.step r root (by rw [hq]; exact hne2) ?_
      rw [hq]
      exact RootOf.root root (compressed_root h hroot)

theorem compressed_rootOf_rev {p q : Representative → Representative} (h : Compressed p q)
    {x root : Representative} (hx : RootOf q x root) : RootOf p x root := by
  induction hx with
  | root r hr =>
    rcases h r with h1 | ⟨_, h2⟩
    · exact RootOf.root r (by rw [← h1]; exact hr)
    · rw [hr] at h2; exact h2
  | step r root hne _ ih =>
    rcases h r with h1 | ⟨h1, h2⟩
    · refine RootOf.step r root (by rw [← h1]; exact hne) ?_
      rw [← h1]; exact ih
    · have e : root = q r := rootOf_of_root (rootOf_is_root h2) ih
      rw [e]; exact h2

theorem compressed_trans {p q t : Representative → Representative}
    (h1 : Compressed p q) (h2 : Compressed q t) : Compressed p t := by
  intro x
  rcases h2 x with e | ⟨hne, hr⟩
  · rw [e]; exact h1 x
  · right
    refine ⟨fun hx => hne (compressed_root h1 hx), compressed_rootOf_rev h1 hr⟩

/-- What a returning `find` computes: the root, by path compression only. -/
theorem find_repr_sound : ∀ (n : Nat) (s : State) (r root : Representative) (s1 : State),
    find_repr n s r = some (root, s1) →
      RootOf s.parent r root ∧ Compressed s.parent s1.parent ∧ s1.rank = s.rank ∧
        s1.parent r = root ∧ (s.todo_ = true → s1.todo_ = true)
  | 0, _, _, _, _, h => by simp [find_repr] at h
  | n + 1, s, r, root, s1, h => by
    unfold find_repr at h
    by_cases hr : s.parent r = r
    · simp [hr] at h
      obtain ⟨h1, h2⟩ := h
      subst h1; subst h2
      exact ⟨RootOf.root _ hr, compressed_refl _, rfl, hr, id⟩
    · simp only [ne_eq, hr, not_false_eq_true, if_true] at h
      cases hf : find_repr n { s with todo_ := true } (s.parent r) with
      | none => simp [hf] at h
      | some res =>
        obtain ⟨root2, s2⟩ := res
        simp [hf] at h
        obtain ⟨h1, h2⟩ := h
        subst h1
        obtain ⟨ih1, ih2, ih3, _, _⟩ := find_repr_sound n _ _ _ _ hf
        have hroot : RootOf s.parent r root2 := RootOf.step r root2 hr ih1
        subst h2
        refine ⟨hroot, ?_, ih3, by simp, ?_⟩
        · intro x
          by_cases hx : x = r
          · subst hx
            right
            simpa using ⟨hr, hroot⟩
          · simp only [Function.update_noteq hx]
            exact ih2 x
        · intro _
          have := (find_repr_sound n _ _ _ _ hf).2.2.2.2
          simpa using this

theorem find_repr_mono : ∀ (n : Nat) (s : State) (r : Representative)
    (res : Representative × State),
    find_repr n s r = some res → find_repr (n + 1) s r = some res
  | 0, _, _, _, h => by simp [find_repr] at h
  | n + 1, s, r, res, h => by
    unfold find_repr at h
    unfold find_repr
    by_cases hr : s.parent r = r
    · simpa [hr] using h
    · simp only [ne_eq, hr, not_false_eq_true, if_true] at h ⊢
      cases hf : find_repr n { s with todo_ := true } (s.parent r) with
      | none => simp [hf] at h
      | some res2 =>
        rw [find_repr_mono n _ _ _ hf]
        simpa [hf] using h

theorem find_repr_mono_le {n m : Nat} (hnm : n ≤ m) {s : State} {r : Representative}
    {res : Representative × State} (h : find_repr n s r = some res) :
    find_repr m s r = some res := by
  induction hnm with
  | refl => exact h
  | step _ ih => exact find_repr_mono _ _ _ _ ih

/-- Where a root exists, `find` returns it once the fuel covers the path. -/
theorem find_repr_complete {p : Representative → Representative} {r root : Representative}
    (h : RootOf p r root) :
    ∀ s : State, s.parent = p → ∃ n s1, find_repr n s r = some (root, s1) := by
  induction h with
  | root r hr =>
    intro s hs
    refine ⟨1, s, ?_⟩
    subst hs
    simp [find_repr, hr]
  | step r root hne _ ih =>
    intro s hs
    subst hs
    obtain ⟨n, s1, h1⟩ := ih { s with todo_ := true } rfl
    refine ⟨n + 1, { s1 with parent := Function.update s1.parent r root }, ?_⟩
    simp [find_repr, hne, h1]

theorem find_repr_root {s : State} {r : Representative} (hr : s.parent r = r) (n : Nat) :
    find_repr (n + 1) s r = some (r, s) := by
  simp [find_repr, hr]

/-! ### Merging two roots -/

theorem rootOf_merge {p : Representative → Representative} {x y : Representative}
    (hx : p x = x) (hy : p y = y) (hxy : x ≠ y) {z root : Representative}
    (h : RootOf p z root) :
    RootOf (Function.update p y x) z (if root = y then x else root) := by
  have hx2 : Function.update p y x x = x := by
    rw [Function.update_noteq hxy]; exact hx
  induction h with
  | root r hr =>
    by_cases e : r = y
    · subst e
      simp only [if_true]
      refine RootOf.step r x (by simp; exact hxy) ?_
      simp only [Function.update_same]
      exact RootOf.root x hx2
    · simp only [e, if_false]
      exact RootOf.root r (by rw [Function.update_noteq e]; exact hr)
  | step r root hne _ ih =>
    have e : r ≠ y := fun e => hne (e ▸ hy)
    refine RootOf.step r _ (by rw [Function.update_noteq e]; exact hne) ?_
    rw [Function.update_noteq e]
    exact ih

theorem forest_merge {s : State} {x y : Representative} (hf : Forest s)
    (hx : s.parent x = x) (hy : s.parent y = y) (hxy : x ≠ y) (rk : Representative → Nat)
    (td : Bool) :
    Forest { parent := Function.update s.parent y x, rank := rk, todo_ := td } := by
  intro r
  obtain ⟨root, h⟩ := hf r
  exact ⟨_, rootOf_merge hx hy hxy h⟩

theorem inv_merge {s : State} {x y : Representative} (hi : Inv s)
    (hx : s.parent x = x) (hy : s.parent y = y) (hxy : x ≠ y)
    (hm : mergeable y.type = true) (rk : Representative → Nat) (td : Bool) :
    Inv { parent := Function.update s.parent y x, rank := rk, todo_ := td } := by
  refine ⟨forest_merge hi.1 hx hy hxy rk td, ?_⟩
  intro r hr
  by_cases e : r = y
  · subst e; exact hm
  · simp only [Function.update_noteq e] at hr
    exact hi.2 r hr

theorem inv_unify_repr {s : State} {x y : Representative} (hi : Inv s)
    (hx : s.parent x = x) (hy : s.parent y = y) (hm : mergeable y.type = true) :
    Inv (unify_repr s x y).2 := by
  unfold unify_repr
  by_cases hxy : x = y
  · simpa [hxy] using hi
  · simp only [hxy, if_false]
    exact inv_merge hi hx hy hxy hm _ _

theorem inv_unify_by_rank {s : State} {x y : Representative} (hi : Inv s)
    (hx : s.parent x = x) (hy : s.parent y = y)
    (hmx : mergeable x.type = true) (hmy : mergeable y.type = true) :
    Inv (unify_by_rank s x y).2 := by
  unfold unify_by_rank
  by_cases hxy : x = y
  · simpa [hxy] using hi
  · simp only [hxy, if_false]
    split_ifs
    · exact inv_merge hi hy hx (Ne.symm hxy) hmx _ _
    · exact inv_merge hi hx hy hxy hmy _ _
    · exact inv_merge hi hx hy hxy hmy _ _

theorem inv_find_repr {n : Nat} {s s1 : State} {r root : Representative} (hi : Inv s)
    (h : find_repr n s r = some (root, s1)) : Inv s1 := by
  obtain ⟨_, hc, _, _, _⟩ := find_repr_sound n s r root s1 h
  refine ⟨?_, ?_⟩
  · intro z
    obtain ⟨rz, hz⟩ := hi.1 z
    exact ⟨rz, compressed_rootOf hc hz⟩
  · intro z hz
    apply hi.2 z
    intro e
    exact hz (compressed_root hc e)

theorem inv_init : Inv init :=
  ⟨fun r => ⟨r, RootOf.root r rfl⟩, fun _ hr => absurd rfl hr⟩

/-! ### The invariant is kept by `unify` -/

theorem mergeable_of_unknown {t : Ty} (h : (normalize t).isUnknown = true) :
    mergeable t = true := by
  simp [mergeable, h]

theorem mergeable_of_hack {a t : Ty} (h : fn_hack a (normalize t) = true) :
    mergeable t = true := by
  simp only [fn_hack, Bool.and_eq_true] at h
  simp [mergeable, h.1.2, h.2.1.2, h.2.2]

theorem unify_ops_preserves {P : State → Prop} {u : State → Ty → Ty → Option (Ty × State)}
    (hu : ∀ s a b r s1, P s → u s a b = some (r, s1) → P s1) :
    ∀ (ds ts : List Ty) (s : State) (rs : List Ty) (s1 : State),
      P s → unify_ops u s ds ts = some (rs, s1) → P s1
  | [], _, s, rs, s1, hp, h => by
    simp [unify_ops] at h
    rw [← h.2]; exact hp
  | _ :: _, [], s, rs, s1, hp, h => by
    simp [unify_ops] at h
    rw [← h.2]; exact hp
  | d :: ds, t :: ts, s, rs, s1, hp, h => by
    unfold unify_ops at h
    cases h1 : u s d t with
    | none => simp [h1] at h
    | some res =>
      obtain ⟨r, s2⟩ := res
      simp only [h1] at h
      cases h2 : unify_ops u s2 ds ts with
      | none => simp [h2] at h
      | some res2 =>
        obtain ⟨rs2, s3⟩ := res2
        simp only [h2, Option.some.injEq, Prod.mk.injEq] at h
        rw [← h.2]
        exact unify_ops_preserves hu ds ts s2 rs2 s3 (hu s d t r s2 hp h1) h2

/-- The roots found at the start of `unify` are roots of the state in which
the merge takes place. -/
theorem roots_after_finds {n m : Nat} {s s1 s2 : State} {a b dr sr : Representative}
    (h1 : find_repr n s a = some (dr, s1)) (h2 : find_repr m s1 b = some (sr, s2)) :
    s2.parent dr = dr ∧ s2.parent sr = sr := by
  obtain ⟨r1, c1, _, _, _⟩ := find_repr_sound n s a dr s1 h1
  obtain ⟨r2, c2, _, _, _⟩ := find_repr_sound m s1 b sr s2 h2
  exact ⟨compressed_root c2 (compressed_root c1 (rootOf_is_root r1)),
    compressed_root c2 (rootOf_is_root r2)⟩

theorem inv_unify_body {u : State → Ty → Ty → Option (Ty × State)}
    (hu : ∀ s a b r s1, Inv s → u s a b = some (r, s1) → Inv s1)
    {s2 s3 : State} {dr sr : Representative} {r : Ty} (hi2 : Inv s2)
    (hdr : s2.parent dr = dr) (hsr : s2.parent sr = sr)
    (h : unify_body u s2 dr sr = some (r, s3)) : Inv s3 := by
  unfold unify_body at h
  simp only at h
  split_ifs at h with c1 c2 c3 c4 c5 c6 c7 c8 c9
  · simp only [Option.some.injEq, Prod.mk.injEq] at h
    rw [← h.2]
    simp only [Bool.and_eq_true] at c1
    exact inv_unify_repr hi2 hdr hsr (mergeable_of_hack c1.1)
  · simp only [Option.some.injEq, Prod.mk.injEq] at h
    rw [← h.2]
    simp only [Bool.and_eq_true] at c2
    exact inv_unify_repr hi2 hsr hdr (mergeable_of_hack c2.1)
  · simp only [Option.some.injEq, Prod.mk.injEq] at h
    rw [← h.2]; exact hi2
  · simp only [Option.some.injEq, Prod.mk.injEq] at h
    rw [← h.2]; exact hi2
  · simp only [Option.some.injEq, Prod.mk.injEq] at h
    rw [← h.2]; exact hi2
  · simp only [Option.some.injEq, Prod.mk.injEq] at h
    rw [← h.2]
    simp only [Bool.and_eq_true] at c6
    exact inv_unify_by_rank hi2 hdr hsr (mergeable_of_unknown c6.1)
      (mergeable_of_unknown c6.2)
  · simp only [Option.some.injEq, Prod.mk.injEq] at h
    rw [← h.2]
    exact inv_unify_repr hi2 hsr hdr (mergeable_of_unknown c7)
  · simp only [Option.some.injEq, Prod.mk.injEq] at h
    rw [← h.2]
    exact inv_unify_repr hi2 hdr hsr (mergeable_of_unknown c8)
  · cases hops : unify_ops u s2 (normalize dr.type).ops (normalize sr.type).ops with
    | none => simp [hops] at h
    | some res =>
      obtain ⟨op, s4⟩ := res
      simp only [hops, Option.some.injEq, Prod.mk.injEq] at h
      rw [← h.2]
      exact unify_ops_preserves hu _ _ s2 op s4 hi2 hops
  · simp only [Option.some.injEq, Prod.mk.injEq] at h
    rw [← h.2]; exact hi2

theorem unify_succ (n : Nat) (s : State) (a b : Ty) :
    unify (n + 1) s a b =
      match find_repr (n + 1) s (representative a) with
      | none => none
      | some (dst_repr, s1) =>
        match find_repr (n + 1) s1 (representative b) with
        | none => none
        | some (src_repr, s2) => unify_body (unify n) s2 dst_repr src_repr := rfl

/-- A returning `unify` consists of two returning `find`s and the body. -/
theorem unify_eq_some {n : Nat} {s : State} {a b : Ty} {res : Ty × State}
    (h : unify n s a b = some res) :
    ∃ k dr s1 sr s2, n = k + 1 ∧ find_repr (k + 1) s (representative a) = some (dr, s1) ∧
      find_repr (k + 1) s1 (representative b) = some (sr, s2) ∧
      unify_body (unify k) s2 dr sr = some res := by
  cases n with
  | zero => simp [unify] at h
  | succ k =>
    rw [unify_succ] at h
    cases hf1 : find_repr (k + 1) s (representative a) with
    | none => simp [hf1] at h
    | some p1 =>
      obtain ⟨dr, s1⟩ := p1
      cases hf2 : find_repr (k + 1) s1 (representative b) with
      | none => simp [hf1, hf2] at h
      | some p2 =>
        obtain ⟨sr, s2⟩ := p2
        simp only [hf1, hf2] at h
        exact ⟨k, dr, s1, sr, s2, rfl, hf1, hf2, h⟩

theorem unify_of_finds {k : Nat} {s s1 s2 : State} {a b : Ty} {dr sr : Representative}
    (hf1 : find_repr (k + 1) s (representative a) = some (dr, s1))
    (hf2 : find_repr (k + 1) s1 (representative b) = some (sr, s2)) :
    unify (k + 1) s a b = unify_body (unify k) s2 dr sr := by
  rw [unify_succ]
  simp only [hf1, hf2]

theorem inv_unify : ∀ (n : Nat) (s : State) (a b r : Ty) (s3 : State),
    Inv s → unify n s a b = some (r, s3) → Inv s3
  | 0, _, _, _, _, _, _, h => by simp [unify] at h
  | n + 1, s, a, b, r, s3, hi, h => by
    obtain ⟨k, dr, s1, sr, s2, hk, hf1, hf2, hb⟩ := unify_eq_some h
    have hk2 : k = n := by omega
    subst hk2
    have hi2 : Inv s2 := inv_find_repr (inv_find_repr hi hf1) hf2
    obtain ⟨hdr, hsr⟩ := roots_after_finds hf1 hf2
    exact inv_unify_body (fun s a b r s1 hp hq => inv_unify k s a b r s1 hp hq)
      hi2 hdr hsr hb

theorem inv_find {n : Nat} {s s1 : State} {t r : Ty} (hi : Inv s)
    (h : find n s t = some (r, s1)) : Inv s1 := by
  unfold find at h
  cases hf : find_repr n s (representative t) with
  | none => simp [hf] at h
  | some res =>
    obtain ⟨root, s2⟩ := res
    simp only [hf, Option.some.injEq, Prod.mk.injEq] at h
    rw [← h.2]
    exact inv_find_repr hi hf

theorem inv_reset {s : State} (hi : Inv s) : Inv { s with todo_ := false } := hi

/-- Every reachable state satisfies the invariant. -/
theorem reachable_inv {s : State} (h : Reachable s) : Inv s := by
  induction h with
  | init => exact inv_init
  | find fuel t r s1 _ hf ih => exact inv_find ih hf
  | unify fuel a b r s1 _ hu ih => exact inv_unify fuel _ a b r s1 ih hu
  | reset _ ih => exact inv_reset ih

/-! ### Claims about `find` and `unify` -/

theorem find_eq_some {n : Nat} {s s1 : State} {t r : Ty} (h : find n s t = some (r, s1)) :
    ∃ root, find_repr n s (representative t) = some (root, s1) ∧ root.type = r := by
  unfold find at h
  cases hf : find_repr n s (representative t) with
  | none => simp [hf] at h
  | some res =>
    obtain ⟨root, s2⟩ := res
    simp only [hf, Option.some.injEq, Prod.mk.injEq] at h
    exact ⟨root, by rw [h.2], h.1⟩

theorem find_of_rootOf {s : State} {t : Ty} {root : Representative}
    (h : RootOf s.parent (representative t) root) :
    ∃ n s1, find n s t = some (root.type, s1) := by
  obtain ⟨n, s1, hf⟩ := find_repr_complete h s rfl
  exact ⟨n, s1, by simp [find, hf]⟩

theorem unify_repr_rootOf {s : State} {x y a : Representative}
    (hx : s.parent x = x) (hy : s.parent y = y)
    (ha : RootOf s.parent a x ∨ RootOf s.parent a y) :
    RootOf (unify_repr s x y).2.parent a (unify_repr s x y).1 := by
  unfold unify_repr
  by_cases hxy : x = y
  · subst hxy
    simpa using ha
  · simp only [hxy, if_false]
    rcases ha with ha | ha
    · have := rootOf_merge hx hy hxy ha
      simpa [hxy] using this
    · have := rootOf_merge hx hy hxy ha
      simpa using this

theorem unify_by_rank_rootOf {s : State} {x y a : Representative}
    (hx : s.parent x = x) (hy : s.parent y = y)
    (ha : RootOf s.parent a x ∨ RootOf s.parent a y) :
    RootOf (unify_by_rank s x y).2.parent a (unify_by_rank s x y).1 := by
  unfold unify_by_rank
  by_cases hxy : x = y
  · subst hxy
    simpa using ha
  · have hyx : y ≠ x := Ne.symm hxy
    simp only [hxy, if_false]
    split_ifs
    · rcases ha with ha | ha
      · simpa using rootOf_merge hy hx hyx ha
      · simpa [hyx] using rootOf_merge hy hx hyx ha
    · rcases ha with ha | ha
      · simpa [hxy] using rootOf_merge hx hy hxy ha
      · simpa using rootOf_merge hx hy hxy ha
    · rcases ha with ha | ha
      · simpa [hxy] using rootOf_merge hx hy hxy ha
      · simpa using rootOf_merge hx hy hxy ha

theorem isFn_of_isUnknown {t : Ty} (h : t.isUnknown = true) : t.isFn = false := by
  cases t <;> simp [Ty.isUnknown, Ty.isFn] at h ⊢

theorem not_known_of_isUnknown {t : Ty} (h : t.isUnknown = true) : t.is_known = false := by
  cases t <;> simp [Ty.isUnknown, Ty.is_known] at h ⊢

/-- The roots of the two arguments after the two `find`s of `unify`. -/
theorem rootOf_after_finds {n m : Nat} {s s1 s2 : State} {a b dr sr : Representative}
    (h1 : find_repr n s a = some (dr, s1)) (h2 : find_repr m s1 b = some (sr, s2)) :
    RootOf s2.parent a dr ∧ RootOf s2.parent b sr := by
  obtain ⟨r1, c1, _, _, _⟩ := find_repr_sound n s a dr s1 h1
  obtain ⟨r2, c2, _, _, _⟩ := find_repr_sound m s1 b sr s2 h2
  exact ⟨compressed_rootOf c2 (compressed_rootOf c1 r1), compressed_rootOf c2 r2⟩

/-- C1 (counterexample): `unify(a, b)` does not always leave `find(a) == find(b)`:
in the initial state `unify(i32, bool)` returns, and afterwards no fuel makes
`find(i32)` and `find(bool)` return the same type. -/
theorem unify_find_eq_counterexample :
    ¬ (∀ (s : State) (n : Nat) (a b r : Ty) (s1 : State), Reachable s →
        unify n s a b = some (r, s1) →
        ∃ m t sa sb, find m s1 a = some (t, sa) ∧ find m s1 b = some (t, sb)) := by
  intro h
  obtain ⟨m, t, sa, sb, ha, hb⟩ :=
    h init 1 (Ty.prim PrimKind.i32) (Ty.prim PrimKind.bool) _ _ Reachable.init rfl
  cases m with
  | zero => simp [find, find_repr] at ha
  | succ m =>
    simp [find, find_repr, representative, init] at ha hb
    have := ha.1.trans hb.1.symm
    simp at this

/-- C1 (amended): if, after singleton-tuple normalization, the representative
type of `a` or of `b` is an `Unknown` and neither is `Error`, then `unify(a, b)`
returns and afterwards `find(a) == find(b)`. -/
theorem unify_unknown_find_eq (s : State) (n : Nat) (a b ta tb : Ty) (s1 s2 : State)
    (ha : find n s a = some (ta, s1)) (hb : find n s1 b = some (tb, s2))
    (hu : (normalize ta).isUnknown = true ∨ (normalize tb).isUnknown = true)
    (hea : (normalize ta).isError = false) (heb : (normalize tb).isError = false) :
    ∃ r s3, unify n s a b = some (r, s3) ∧
      ∃ t, (∃ m sa, find m s3 a = some (t, sa)) ∧ (∃ m sb, find m s3 b = some (t, sb)) := by
  obtain ⟨dr, hf1, hdr⟩ := find_eq_some ha
  obtain ⟨sr, hf2, hsr⟩ := find_eq_some hb
  subst hdr; subst hsr
  cases n with
  | zero => simp [find_repr] at hf1
  | succ n =>
    obtain ⟨hpd, hps⟩ := roots_after_finds hf1 hf2
    obtain ⟨hra, hrb⟩ := rootOf_after_finds hf1 hf2
    have hh1 : fn_hack (normalize dr.type) (normalize sr.type) = false := by
      rcases hu with hu | hu <;> simp [fn_hack, isFn_of_isUnknown hu]
    have hh2 : fn_hack (normalize sr.type) (normalize dr.type) = false := by
      rcases hu with hu | hu <;> simp [fn_hack, isFn_of_isUnknown hu]
    have hk : ¬ (normalize dr.type = normalize sr.type ∧ (normalize dr.type).is_known = true) := by
      rintro ⟨e, k⟩
      rcases hu with hu | hu
      · rw [not_known_of_isUnknown hu] at k; cases k
      · rw [e, not_known_of_isUnknown hu] at k; cases k
    rw [unify_of_finds hf1 hf2]
    unfold unify_body
    simp only [hh1, hh2, hk, hea, heb, Bool.false_and, if_false, Bool.false_eq_true]
    split_ifs with c1 c2 c3
    · exact ⟨_, _, rfl, _, find_of_rootOf (unify_by_rank_rootOf hpd hps (Or.inl hra)),
        find_of_rootOf (unify_by_rank_rootOf hpd hps (Or.inr hrb))⟩
    · exact ⟨_, _, rfl, _, find_of_rootOf (unify_repr_rootOf hps hpd (Or.inr hra)),
        find_of_rootOf (unify_repr_rootOf hps hpd (Or.inl hrb))⟩
    · exact ⟨_, _, rfl, _, find_of_rootOf (unify_repr_rootOf hpd hps (Or.inl hra)),
        find_of_rootOf (unify_repr_rootOf hpd hps (Or.inr hrb))⟩
    all_goals
      rcases hu with hu | hu
      · exact absurd hu c2
      · exact absurd hu c3

/-- C1 (witness): in the initial state `unify(?0, i32)` merges the two classes. -/
theorem unify_unknown_find_eq_witness :
    ∃ r s3, unify 1 init (Ty.unknown 0) (Ty.prim PrimKind.i32) = some (r, s3) ∧
      ∃ t, (∃ m sa, find m s3 (Ty.unknown 0) = some (t, sa)) ∧
        (∃ m sb, find m s3 (Ty.prim PrimKind.i32) = some (t, sb)) :=
  unify_unknown_find_eq init 1 (Ty.unknown 0) (Ty.prim PrimKind.i32) (Ty.unknown 0)
    (Ty.prim PrimKind.i32) init init rfl rfl (Or.inl rfl) rfl rfl

/-- C2: `find` is idempotent in every reachable state: `find(t)` returns a type
`r`, and in the state it leaves both `find(r)` and `find(t)` return `r`. -/
theorem find_idempotent (s : State) (hs : Reachable s) (t : Ty) :
    ∃ n r s1, find n s t = some (r, s1) ∧ find n s1 r = some (r, s1) ∧
      ∃ s2, find n s1 t = some (r, s2) := by
  obtain ⟨root, hroot⟩ := (reachable_inv hs).1 (representative t)
  obtain ⟨n, s1, hf⟩ := find_repr_complete hroot s rfl
  have hf2 := find_repr_mono n s _ _ hf
  obtain ⟨_, hc, _, hp, _⟩ := find_repr_sound n s _ root s1 hf
  have hr1 : s1.parent root = root := compressed_root hc (rootOf_is_root hroot)
  refine ⟨n + 1, root.type, s1, by simp [find, hf2], ?_, ?_⟩
  · simp [find, representative, find_repr_root hr1]
  · cases n with
    | zero => simp [find_repr] at hf
    | succ n =>
      by_cases e : representative t = root
      · refine ⟨s1, ?_⟩
        simp [find, e, find_repr_root hr1]
      · have hne : s1.parent (representative t) ≠ representative t := by
          rw [hp]; exact fun h => e h.symm
        refine ⟨{ parent := Function.update s1.parent (representative t) root
                  rank := s1.rank, todo_ := true }, ?_⟩
        have hr2 : ({ s1 with todo_ := true } : State).parent root = root := hr1
        simp only [find]
        rw [find_repr, if_pos hne, hp, find_repr_root hr2]

/-- C2 (witness): the initial state, with `t = ?0`. -/
theorem find_idempotent_witness :
    ∃ n r s1, find n init (Ty.unknown 0) = some (r, s1) ∧ find n s1 r = some (r, s1) ∧
      ∃ s2, find n s1 (Ty.unknown 0) = some (r, s2) :=
  find_idempotent init Reachable.init (Ty.unknown 0)

/-! ### More fuel does not change a result -/

theorem unify_ops_mono {u v : State → Ty → Ty → Option (Ty × State)}
    (huv : ∀ s a b res, u s a b = some res → v s a b = some res) :
    ∀ (ds ts : List Ty) (s : State) (res : List Ty × State),
      unify_ops u s ds ts = some res → unify_ops v s ds ts = some res
  | [], _, s, res, h => by
    simpa [unify_ops] using h
  | _ :: _, [], s, res, h => by
    simpa [unify_ops] using h
  | d :: ds, t :: ts, s, res, h => by
    unfold unify_ops at h ⊢
    cases h1 : u s d t with
    | none => simp [h1] at h
    | some r1 =>
      obtain ⟨r, s2⟩ := r1
      simp only [h1] at h
      rw [huv s d t _ h1]
      cases h2 : unify_ops u s2 ds ts with
      | none => simp [h2] at h
      | some r2 =>
        simp only [h2] at h
        simp only [unify_ops_mono huv ds ts s2 _ h2]
        exact h

theorem ite_some_else {α : Type} {c : Prop} [Decidable c] {a b b2 : Option α} {res : α}
    (hb : b = some res → b2 = some res) (h : (if c then a else b) = some res) :
    (if c then a else b2) = some res := by
  by_cases hc : c
  · rw [if_pos hc] at h ⊢; exact h
  · rw [if_neg hc] at h ⊢; exact hb h

theorem ite_some_then {α : Type} {c : Prop} [Decidable c] {a a2 b : Option α} {res : α}
    (ha : a = some res → a2 = some res) (h : (if c then a else b) = some res) :
    (if c then a2 else b) = some res := by
  by_cases hc : c
  · rw [if_pos hc] at h ⊢; exact ha h
  · rw [if_neg hc] at h ⊢; exact h

theorem unify_body_mono {u v : State → Ty → Ty → Option (Ty × State)}
    (huv : ∀ s a b res, u s a b = some res → v s a b = some res)
    {s2 : State} {dr sr : Representative} {res : Ty × State}
    (h : unify_body u s2 dr sr = some res) : unify_body v s2 dr sr = some res := by
  unfold unify_body at h ⊢
  refine ite_some_else (ite_some_else (ite_some_else (ite_some_else (ite_some_else
    (ite_some_else (ite_some_else (ite_some_else (ite_some_then ?_)))))))) h
  intro hx
  cases hops : unify_ops u s2 (normalize dr.type).ops (normalize sr.type).ops with
  | none => simp [hops] at hx
  | some r3 =>
    simp only [hops] at hx
    simp only [unify_ops_mono huv _ _ _ _ hops]
    exact hx

theorem unify_mono : ∀ (n : Nat) (s : State) (a b : Ty) (res : Ty × State),
    unify n s a b = some res → unify (n + 1) s a b = some res
  | 0, _, _, _, _, h => by simp [unify] at h
  | n + 1, s, a, b, res, h => by
    obtain ⟨k, dr, s1, sr, s2, hk, hf1, hf2, hb⟩ := unify_eq_some h
    have hk2 : k = n := by omega
    subst hk2
    rw [unify_of_finds (find_repr_mono _ _ _ _ hf1) (find_repr_mono _ _ _ _ hf2)]
    exact unify_body_mono (fun s a b res hh => unify_mono k s a b res hh) hb

theorem unify_mono_le {n m : Nat} (hnm : n ≤ m) {s : State} {a b : Ty} {res : Ty × State}
    (h : unify n s a b = some res) : unify m s a b = some res := by
  induction hnm with
  | refl => exact h
  | step _ ih => exact unify_mono _ _ _ _ _ ih

theorem unify_ops_mono_le {n m : Nat} (hnm : n ≤ m) {s : State} {ds ts : List Ty}
    {res : List Ty × State} (h : unify_ops (unify n) s ds ts = some res) :
    unify_ops (unify m) s ds ts = some res :=
  unify_ops_mono (fun _ _ _ _ hh => unify_mono_le hnm hh) ds ts s res h

/-! ### Known types stay known -/

theorem all_known_iff : ∀ (l : List Ty), Ty.all_known l = true ↔ ∀ x ∈ l, x.is_known = true
  | [] => by simp [Ty.all_known]
  | t :: ts => by simp [Ty.all_known, all_known_iff ts]

theorem all_error_free_iff :
    ∀ (l : List Ty), Ty.all_error_free l = true ↔ ∀ x ∈ l, x.error_free = true
  | [] => by simp [Ty.all_error_free]
  | t :: ts => by simp [Ty.all_error_free, all_error_free_iff ts]

theorem known_ops {t x : Ty} (hk : t.is_known = true) (hx : x ∈ t.ops) :
    x.is_known = true := by
  cases t <;> simp [Ty.ops, Ty.is_known, all_known_iff] at hk hx <;>
    first | (subst hx; exact hk) | exact hk x hx

theorem error_free_ops {t x : Ty} (hk : t.error_free = true) (hx : x ∈ t.ops) :
    x.error_free = true := by
  cases t <;> simp [Ty.ops, Ty.error_free, all_error_free_iff] at hk hx <;>
    first | (subst hx; exact hk) | exact hk x hx

theorem sizeOf_ops_lt {t x : Ty} (hx : x ∈ t.ops) : sizeOf x < sizeOf t := by
  cases t with
  | ptr k p m a => simp [Ty.ops] at hx; subst hx; simp; omega
  | ref p m a => simp [Ty.ops] at hx; subst hx; simp; omega
  | definite_array e d => simp [Ty.ops] at hx; subst hx; simp; omega
  | indefinite_array e => simp [Ty.ops] at hx; subst hx; simp
  | simd e l => simp [Ty.ops] at hx; subst hx; simp; omega
  | lambda bd n => simp [Ty.ops] at hx; subst hx; simp; omega
  | tuple o =>
    have h2 : sizeOf x < sizeOf o := List.sizeOf_lt_of_mem hx
    simp; omega
  | fn o =>
    have h2 : sizeOf x < sizeOf o := List.sizeOf_lt_of_mem hx
    simp; omega
  | struct_type d o =>
    have h2 : sizeOf x < sizeOf o := List.sizeOf_lt_of_mem hx
    simp; omega
  | prim _ => simp [Ty.ops] at hx
  | var _ => simp [Ty.ops] at hx
  | unknown _ => simp [Ty.ops] at hx
  | noret => simp [Ty.ops] at hx
  | error => simp [Ty.ops] at hx

theorem normalize_cases (t : Ty) : normalize t = t ∨ t = Ty.tuple [normalize t] := by
  unfold normalize
  cases t with
  | tuple o =>
    cases o with
    | nil => simp [Ty.isTuple, Ty.num_ops, Ty.ops]
    | cons x xs =>
      cases xs with
      | nil => simp [Ty.isTuple, Ty.num_ops, Ty.ops, Ty.op]
      | cons y ys => simp [Ty.isTuple, Ty.num_ops, Ty.ops]
  | _ => simp [Ty.isTuple]

theorem normalize_known {t : Ty} (hk : t.is_known = true) : (normalize t).is_known = true := by
  rcases normalize_cases t with e | e
  · rw [e]; exact hk
  · rw [e] at hk
    simpa [Ty.is_known, Ty.all_known] using hk

theorem normalize_error_free {t : Ty} (hk : t.error_free = true) :
    (normalize t).error_free = true := by
  rcases normalize_cases t with e | e
  · rw [e]; exact hk
  · rw [e] at hk
    simpa [Ty.error_free, Ty.all_error_free] using hk

theorem normalize_sizeOf_le (t : Ty) : sizeOf (normalize t) ≤ sizeOf t := by
  rcases normalize_cases t with e | e
  · rw [e]
  · have : sizeOf t = sizeOf (Ty.tuple [normalize t]) := by rw [← e]
    rw [this]; simp; omega

theorem known_not_fn_unknown {d : Ty} (hk : d.is_known = true) :
    (d.isFn && d.num_ops == 1 && (d.op 0).isUnknown) = false := by
  cases d with
  | fn o =>
    cases o with
    | nil => simp [Ty.num_ops, Ty.ops]
    | cons x xs =>
      cases xs with
      | nil =>
        cases x <;> simp [Ty.num_ops, Ty.ops, Ty.op, Ty.isUnknown, Ty.is_known,
          Ty.all_known] at hk ⊢
      | cons y ys => simp [Ty.num_ops, Ty.ops]
  | _ => simp [Ty.isFn]

theorem known_not_hack {a d : Ty} (hk : d.is_known = true) : fn_hack a d = false := by
  have h := known_not_fn_unknown hk
  unfold fn_hack
  cases h1 : d.isFn <;> cases h2 : (d.num_ops == 1) <;> cases h3 : (d.op 0).isUnknown <;>
    simp [h1, h2, h3] at h ⊢

theorem known_not_unknown {t : Ty} (hk : t.is_known = true) : t.isUnknown = false := by
  cases t <;> simp [Ty.isUnknown, Ty.is_known] at hk ⊢

theorem known_not_mergeable {t : Ty} (hk : t.is_known = true) : mergeable t = false := by
  have h1 := normalize_known hk
  simp only [mergeable, known_not_unknown h1, Bool.false_or]
  exact known_not_fn_unknown h1

/-- In a state satisfying the invariant every known type is its own
representative. -/
theorem known_is_root {s : State} (hi : Inv s) {t : Ty} (hk : t.is_known = true) :
    s.parent (representative t) = representative t := by
  by_contra h
  have := hi.2 _ h
  simp [representative, known_not_mergeable hk] at this

theorem unify_repr_fst (s : State) (x y : Representative) : (unify_repr s x y).1 = x := by
  unfold unify_repr
  split_ifs <;> rfl

theorem known_rebuild {d : Ty} {op : List Ty} (hd : d.is_known = true)
    (hop : Ty.all_known op = true) : (d.rebuild op).is_known = true := by
  cases d <;> rcases op with _ | ⟨x, _ | ⟨y, ys⟩⟩ <;>
    simp_all [Ty.rebuild, Ty.is_known, Ty.all_known]

theorem known_getD {op : List Ty} (hop : Ty.all_known op = true) (i : Nat) :
    (op.getD i Ty.error).is_known = true := by
  rw [all_known_iff] at hop
  rw [List.getD_eq_getElem?_getD]
  cases h : op[i]? with
  | none => simp [Ty.is_known]
  | some x => simpa using hop x (List.getElem?_mem h)

theorem known_unify_result {d t : Ty} {op : List Ty} (hd : d.is_known = true)
    (hop : Ty.all_known op = true) : (unify_result d t op).is_known = true := by
  unfold unify_result
  split_ifs
  · simpa [borrowed_ptr_type, Ty.is_known] using known_getD hop 0
  · simpa [indefinite_array_type, Ty.is_known] using known_getD hop 0
  · exact known_rebuild hd hop
  · exact hd

theorem error_free_not_error {t : Ty} (he : t.error_free = true) : t.isError = false := by
  cases t <;> simp [Ty.isError, Ty.error_free] at he ⊢

theorem unify_body_known {u : State → Ty → Ty → Option (Ty × State)} {s2 : State} {t : Ty}
    (sr : Representative) (hk : t.is_known = true) (he : t.error_free = true)
    (hops : ∃ op s3, unify_ops u s2 (normalize t).ops (normalize sr.type).ops = some (op, s3)
      ∧ Ty.all_known op = true) :
    ∃ r s1, unify_body u s2 (representative t) sr = some (r, s1) ∧ r.is_known = true := by
  have hn := normalize_known hk
  have hh2 : fn_hack (normalize sr.type) (normalize t) = false := known_not_hack hn
  have hne : (normalize t).isError = false := error_free_not_error (normalize_error_free he)
  have hnu : (normalize t).isUnknown = false := known_not_unknown hn
  obtain ⟨op, s3, ho, hko⟩ := hops
  unfold unify_body
  simp only [representative, hh2, hne, hnu, ho, Bool.false_and, if_false, Bool.false_eq_true]
  split_ifs
  · exact ⟨_, _, rfl, by rw [unify_repr_fst]; exact hk⟩
  · exact ⟨_, _, rfl, hn⟩
  · exact ⟨_, _, rfl, hn⟩
  · exact ⟨_, _, rfl, by rw [unify_repr_fst]; exact hk⟩
  · exact ⟨_, _, rfl, known_unify_result hn hko⟩
  · exact ⟨_, _, rfl, hn⟩

theorem unify_ops_known {k : Nat}
    (ih : ∀ t : Ty, sizeOf t < k → t.is_known = true → t.error_free = true →
      ∀ s : State, Inv s → ∀ u : Ty, ∃ n r s1, unify n s t u = some (r, s1) ∧ r.is_known = true) :
    ∀ ds : List Ty, (∀ x ∈ ds, sizeOf x < k ∧ x.is_known = true ∧ x.error_free = true) →
      ∀ (ts : List Ty) (s : State), Inv s →
        ∃ n rs s1, unify_ops (unify n) s ds ts = some (rs, s1) ∧ Ty.all_known rs = true
  | [], _, ts, s, _ => ⟨0, [], s, by simp [unify_ops], rfl⟩
  | d :: ds, _, [], s, _ => ⟨0, [], s, by simp [unify_ops], rfl⟩
  | d :: ds, hds, t :: ts, s, hi => by
    obtain ⟨h1, h2, h3⟩ := hds d (List.mem_cons_self _ _)
    obtain ⟨n1, r, s1, hu, hr⟩ := ih d h1 h2 h3 s hi t
    have hi1 : Inv s1 := inv_unify n1 s d t r s1 hi hu
    obtain ⟨n2, rs, s2, hus, hrs⟩ :=
      unify_ops_known ih ds (fun x hx => hds x (List.mem_cons_of_mem _ hx)) ts s1 hi1
    refine ⟨max n1 n2, r :: rs, s2, ?_, by simp [Ty.all_known, hr, hrs]⟩
    unfold unify_ops
    rw [unify_mono_le (le_max_left n1 n2) hu]
    simp only [unify_ops_mono_le (le_max_right n1 n2) hus]

theorem unify_known_aux : ∀ (k : Nat) (t : Ty), sizeOf t < k → t.is_known = true →
    t.error_free = true → ∀ s : State, Inv s → ∀ u : Ty,
      ∃ n r s1, unify n s t u = some (r, s1) ∧ r.is_known = true
  | 0, _, h, _, _, _, _, _ => by omega
  | k + 1, t, hsz, hk, he, s, hi, u => by
    have hroot := known_is_root hi hk
    obtain ⟨sr, hsr⟩ := hi.1 (representative u)
    obtain ⟨n0, s2, hf2⟩ := find_repr_complete hsr s rfl
    have hi2 : Inv s2 := inv_find_repr hi hf2
    have hel : ∀ x ∈ (normalize t).ops,
        sizeOf x < k ∧ x.is_known = true ∧ x.error_free = true := by
      intro x hx
      have h1 := sizeOf_ops_lt hx
      have h2 := normalize_sizeOf_le t
      exact ⟨by omega, known_ops (normalize_known hk) hx,
        error_free_ops (normalize_error_free he) hx⟩
    obtain ⟨n1, op, s3, hops, hko⟩ :=
      unify_ops_known (unify_known_aux k) (normalize t).ops hel (normalize sr.type).ops s2 hi2
    have hops2 := unify_ops_mono_le (le_max_right n0 n1) hops
    obtain ⟨r, s4, hb, hr⟩ := unify_body_known sr hk he ⟨op, s3, hops2, hko⟩
    refine ⟨max n0 n1 + 1, r, s4, ?_, hr⟩
    rw [unify_of_finds (find_repr_root hroot _)
      (find_repr_mono_le (Nat.le_succ_of_le (le_max_left n0 n1)) hf2)]
    exact hb

/-- `find` on a representative whose parent is a root. -/
theorem find_child {s : State} {t : Ty} {root : Representative}
    (hp : s.parent (representative t) = root) (hne : root ≠ representative t)
    (hr : s.parent root = root) (n : Nat) :
    find (n + 2) s t = some (root.type,
      { parent := Function.update s.parent (representative t) root
        rank := s.rank, todo_ := true }) := by
  have hr2 : ({ s with todo_ := true } : State).parent root = root := hr
  simp only [find]
  rw [find_repr, if_pos (by rw [hp]; exact hne), hp, find_repr_root hr2]

theorem find_repr_root_type {s : State} {t : Ty}
    (hr : s.parent (representative t) = representative t) (n : Nat) :
    find (n + 1) s t = some (t, s) := by
  simp only [find, find_repr_root hr]
  rfl

/-- C3 (counterexample): a slot holding the known type `Error` is replaced by
an `Unknown`: `constrain(Error, ?0)` returns `?0`. -/
theorem constrain_known_counterexample :
    ¬ (∀ (s : State) (n : Nat) (t u r : Ty) (s1 : State), Reachable s →
        t.is_known = true → constrain n s (some t) u = some (r, s1) → r.is_known = true) := by
  intro h
  have := h init 1 Ty.error (Ty.unknown 0) (Ty.unknown 0) init Reachable.init rfl rfl
  simp [Ty.is_known] at this

/-- C3 (amended): in every reachable state, for every known type `t` that
contains no `Error` and every type `u`, `constrain(slot, u)` on a slot holding
`t` returns and leaves the slot holding a known type. -/
theorem constrain_known (s : State) (hs : Reachable s) (t u : Ty)
    (hk : t.is_known = true) (he : t.error_free = true) :
    ∃ n r s1, (∀ m, n ≤ m → constrain m s (some t) u = some (r, s1)) ∧ r.is_known = true := by
  obtain ⟨n, r, s1, hu, hr⟩ :=
    unify_known_aux (sizeOf t + 1) t (Nat.lt_succ_self _) hk he s (reachable_inv hs) u
  exact ⟨n, r, s1, fun m hm => unify_mono_le hm hu, hr⟩

/-- C3 (witness): a slot holding `(i32, bool)` constrained with `(?0, ?1)` in the
initial state. -/
theorem constrain_known_witness :
    ∃ n r s1, (∀ m, n ≤ m → constrain m init
        (some (Ty.tuple [Ty.prim PrimKind.i32, Ty.prim PrimKind.bool]))
        (Ty.tuple [Ty.unknown 0, Ty.unknown 1]) = some (r, s1)) ∧ r.is_known = true :=
  constrain_known init Reachable.init (Ty.tuple [Ty.prim PrimKind.i32, Ty.prim PrimKind.bool])
    (Ty.tuple [Ty.unknown 0, Ty.unknown 1]) (by decide) (by decide)

theorem root_of_not_mergeable {s : State} (hi : Inv s) {t : Ty} (h : mergeable t = false) :
    s.parent (representative t) = representative t := by
  by_contra hne
  have := hi.2 _ hne
  simp [representative, h] at this

theorem normalize_unknown (i : Nat) : normalize (Ty.unknown i) = Ty.unknown i := by
  simp [normalize, Ty.isTuple]

theorem normalize_error : normalize Ty.error = Ty.error := by
  simp [normalize, Ty.isTuple]

/-- C4 (counterexample): for the known, non-`Error` type `Tuple([Error])`,
`unify(?0, Tuple([Error]))` returns `?0` and not the tuple. -/
theorem unify_unknown_known_counterexample :
    ¬ (∀ (s : State) (n i : Nat) (t r : Ty) (s1 : State), Reachable s →
        s.parent (representative (Ty.unknown i)) = representative (Ty.unknown i) →
        t.is_known = true → t ≠ Ty.error →
        unify n s (Ty.unknown i) t = some (r, s1) → r = t) := by
  intro h
  have := h init 1 0 (Ty.tuple [Ty.error]) (Ty.unknown 0) init Reachable.init rfl rfl
    (by simp) rfl
  simp at this

/-- C4 (amended): in every reachable state, for every `Unknown` `U` that is its
own representative and every known type `t` that is neither `Error` nor the
singleton tuple of `Error`, `unify(U, t)` and `unify(t, U)` both return `t` and
put the representative of `U` below that of `t`, which stays a root;
afterwards `find(U) == t`. -/
theorem unify_unknown_known (s : State) (hs : Reachable s) (i : Nat) (t : Ty)
    (hU : s.parent (representative (Ty.unknown i)) = representative (Ty.unknown i))
    (hk : t.is_known = true) (hne : (normalize t).isError = false) (n : Nat) :
    ∃ s1, unify (n + 1) s (Ty.unknown i) t = some (t, s1) ∧
      unify (n + 1) s t (Ty.unknown i) = some (t, s1) ∧
      s1.parent (representative (Ty.unknown i)) = representative t ∧
      s1.parent (representative t) = representative t ∧
      ∃ s2, find (n + 2) s1 (Ty.unknown i) = some (t, s2) := by
  have hi := reachable_inv hs
  have ht := known_is_root hi hk
  have hn := normalize_known hk
  have hnu := known_not_unknown hn
  have hxy : representative t ≠ representative (Ty.unknown i) := by
    intro e
    have e2 : t = Ty.unknown i := congrArg Representative.type e
    rw [e2] at hk
    simp [Ty.is_known] at hk
  have hneq : ¬ (normalize t = Ty.unknown i ∧ (normalize t).is_known = true) := by
    rintro ⟨e, _⟩
    rw [e] at hnu
    simp [Ty.isUnknown] at hnu
  have hUu : (Ty.unknown i).isUnknown = true := rfl
  have hUe : (Ty.unknown i).isError = false := rfl
  have hUf : (Ty.unknown i).isFn = false := rfl
  have hUk : (Ty.unknown i).is_known = false := rfl
  refine ⟨(unify_repr s (representative t) (representative (Ty.unknown i))).2, ?_, ?_, ?_, ?_, ?_⟩
  · rw [unify_of_finds (find_repr_root hU n) (find_repr_root ht n)]
    unfold unify_body
    simp [representative, normalize_unknown, fn_hack, hUu, hUe, hUf, hUk, hne, hnu,
      unify_repr_fst]
  · rw [unify_of_finds (find_repr_root ht n) (find_repr_root hU n)]
    unfold unify_body
    simp [representative, normalize_unknown, fn_hack, hUu, hUe, hUf, hUk, hne, hnu, hneq,
      unify_repr_fst]
  · simp [unify_repr, hxy]
  · simp [unify_repr, hxy, Function.update_noteq hxy, ht]
  · have h1 : (unify_repr s (representative t) (representative (Ty.unknown i))).2.parent
        (representative (Ty.unknown i)) = representative t := by simp [unify_repr, hxy]
    have h2 : (unify_repr s (representative t) (representative (Ty.unknown i))).2.parent
        (representative t) = representative t := by
      simp [unify_repr, hxy, Function.update_noteq hxy, ht]
    exact ⟨_, find_child h1 hxy h2 n⟩

/-- C4 (witness): `?0` and `i32` in the initial state. -/
theorem unify_unknown_known_witness :
    ∃ s1, unify (0 + 1) init (Ty.unknown 0) (Ty.prim PrimKind.i32)
        = some (Ty.prim PrimKind.i32, s1) ∧
      unify (0 + 1) init (Ty.prim PrimKind.i32) (Ty.unknown 0)
        = some (Ty.prim PrimKind.i32, s1) ∧
      s1.parent (representative (Ty.unknown 0)) = representative (Ty.prim PrimKind.i32) ∧
      s1.parent (representative (Ty.prim PrimKind.i32)) = representative (Ty.prim PrimKind.i32) ∧
      ∃ s2, find (0 + 2) s1 (Ty.unknown 0) = some (Ty.prim PrimKind.i32, s2) :=
  unify_unknown_known init Reachable.init 0 (Ty.prim PrimKind.i32) rfl rfl rfl 0

/-- C5 (counterexample): `unify(Error, Tuple([i32]))` returns `i32`, which is
not the representative type `Tuple([i32])` of the second argument. -/
theorem unify_error_counterexample :
    ¬ (∀ (s : State) (n : Nat) (u tu r : Ty) (s1 s2 : State), Reachable s →
        find n s u = some (tu, s1) → unify n s Ty.error u = some (r, s2) → r = tu) := by
  intro h
  have := h init 1 (Ty.tuple [Ty.prim PrimKind.i32]) (Ty.tuple [Ty.prim PrimKind.i32])
    (Ty.prim PrimKind.i32) init init Reachable.init rfl rfl
  simp at this

/-- C5 (amended): in every reachable state, if `find(u)` returns the
representative type `tu` and leaves the state `s1`, then `unify(Error, u)` and
`unify(u, Error)` both return `tu` with a singleton tuple normalized to its
element, and leave the same state `s1`: no representatives are merged. -/
theorem unify_error (s : State) (hs : Reachable s) (n : Nat) (u tu : Ty) (s1 : State)
    (hf : find n s u = some (tu, s1)) :
    unify n s Ty.error u = some (normalize tu, s1) ∧
      unify n s u Ty.error = some (normalize tu, s1) := by
  obtain ⟨sr, hfr, hsr⟩ := find_eq_some hf
  subst hsr
  cases n with
  | zero => simp [find_repr] at hfr
  | succ n =>
    have hi := reachable_inv hs
    have he : s.parent (representative Ty.error) = representative Ty.error :=
      known_is_root hi rfl
    have he1 : s1.parent (representative Ty.error) = representative Ty.error :=
      known_is_root (inv_find_repr hi hfr) rfl
    have hEu : Ty.error.isUnknown = false := rfl
    have hEe : Ty.error.isError = true := rfl
    have hEf : Ty.error.isFn = false := rfl
    constructor
    · rw [unify_of_finds (find_repr_root he n) hfr]
      unfold unify_body
      simp only [representative, normalize_error, fn_hack, hEf, hEe, Bool.false_and,
        Bool.and_false, if_true, if_false, Bool.false_eq_true]
      split_ifs with c
      · rw [c.1]
      · rfl
    · rw [unify_of_finds hfr (find_repr_root he1 n)]
      unfold unify_body
      simp only [representative, normalize_error, fn_hack, hEf, hEe, Bool.false_and,
        Bool.and_false, if_true, if_false, Bool.false_eq_true]
      split_ifs with c1 c2
      · rfl
      · have e : normalize sr.type = Ty.error := by
          cases hn : normalize sr.type <;> simp [hn, Ty.isError] at c2 ⊢
        rw [e]
      · rfl

/-- C5 (witness): `Error` against `Tuple([?0])` in the initial state. -/
theorem unify_error_witness :
    unify 1 init Ty.error (Ty.tuple [Ty.unknown 0]) = some (normalize (Ty.tuple [Ty.unknown 0]), init) ∧
      unify 1 init (Ty.tuple [Ty.unknown 0]) Ty.error
        = some (normalize (Ty.tuple [Ty.unknown 0]), init) :=
  unify_error init Reachable.init 1 (Ty.tuple [Ty.unknown 0]) (Ty.tuple [Ty.unknown 0]) init rfl

theorem representative_type (t : Ty) : (representative t).type = t := rfl

theorem unify_by_rank_lt {s : State} {x y : Representative} (hxy : x ≠ y)
    (h : s.rank x < s.rank y) :
    unify_by_rank s x y = (y, { s with parent := Function.update s.parent x y }) := by
  simp [unify_by_rank, hxy, h]

theorem unify_by_rank_gt {s : State} {x y : Representative} (hxy : x ≠ y)
    (h : s.rank y < s.rank x) :
    unify_by_rank s x y = (x, { s with parent := Function.update s.parent y x }) := by
  have h2 : ¬ s.rank x < s.rank y := by omega
  simp [unify_by_rank, hxy, h, h2]

theorem unify_by_rank_eq {s : State} {x y : Representative} (hxy : x ≠ y)
    (h : s.rank x = s.rank y) :
    unify_by_rank s x y = (x, { s with parent := Function.update s.parent y x
                                       rank := Function.update s.rank x (s.rank x + 1) }) := by
  simp [unify_by_rank, hxy, h]

/-- C6: for two distinct `Unknown`s that are their own representatives,
`unify` returns and merges the two classes by rank: the root of higher rank
survives, on equal ranks the first argument survives and its rank grows by
one; the survivor's type is returned, no other parent link changes, and
afterwards `find` returns the survivor for both. -/
theorem unify_unknowns_by_rank (s : State) (i j : Nat) (hij : i ≠ j)
    (hi : s.parent (representative (Ty.unknown i)) = representative (Ty.unknown i))
    (hj : s.parent (representative (Ty.unknown j)) = representative (Ty.unknown j))
    (n : Nat) :
    ∃ r s1, unify (n + 1) s (Ty.unknown i) (Ty.unknown j) = some (r, s1) ∧
      (s.rank (representative (Ty.unknown i)) < s.rank (representative (Ty.unknown j)) →
        r = Ty.unknown j ∧
        s1.parent (representative (Ty.unknown i)) = representative (Ty.unknown j) ∧
        s1.parent (representative (Ty.unknown j)) = representative (Ty.unknown j) ∧
        s1.rank = s.rank) ∧
      (s.rank (representative (Ty.unknown j)) < s.rank (representative (Ty.unknown i)) →
        r = Ty.unknown i ∧
        s1.parent (representative (Ty.unknown j)) = representative (Ty.unknown i) ∧
        s1.parent (representative (Ty.unknown i)) = representative (Ty.unknown i) ∧
        s1.rank = s.rank) ∧
      (s.rank (representative (Ty.unknown i)) = s.rank (representative (Ty.unknown j)) →
        r = Ty.unknown i ∧
        s1.parent (representative (Ty.unknown j)) = representative (Ty.unknown i) ∧
        s1.parent (representative (Ty.unknown i)) = representative (Ty.unknown i) ∧
        s1.rank (representative (Ty.unknown i)) = s.rank (representative (Ty.unknown i)) + 1 ∧
        ∀ x, x ≠ representative (Ty.unknown i) → s1.rank x = s.rank x) ∧
      (∀ x, x ≠ representative (Ty.unknown i) → x ≠ representative (Ty.unknown j) →
        s1.parent x = s.parent x) ∧
      ∃ s2 s3, find (n + 2) s1 (Ty.unknown i) = some (r, s2) ∧
        find (n + 2) s1 (Ty.unknown j) = some (r, s3) := by
  have hxy : representative (Ty.unknown i) ≠ representative (Ty.unknown j) := by
    simp [representative, hij]
  have hyx : representative (Ty.unknown j) ≠ representative (Ty.unknown i) := Ne.symm hxy
  have hne : ¬ (Ty.unknown i = Ty.unknown j ∧ (Ty.unknown i).is_known = true) := by
    simp [hij]
  have hb : unify (n + 1) s (Ty.unknown i) (Ty.unknown j)
      = some ((unify_by_rank s (representative (Ty.unknown i))
                (representative (Ty.unknown j))).1.type,
              (unify_by_rank s (representative (Ty.unknown i))
                (representative (Ty.unknown j))).2) := by
    rw [unify_of_finds (find_repr_root hi n) (find_repr_root hj n)]
    unfold unify_body
    simp [representative, normalize_unknown, fn_hack, Ty.isFn, Ty.isError, Ty.isUnknown, hij,
      Ty.is_known]
  refine ⟨_, _, hb, ?_, ?_, ?_, ?_, ?_⟩
  · intro hlt
    rw [unify_by_rank_lt hxy hlt]
    simp [representative_type, Function.update_noteq hyx, hj]
  · intro hlt
    rw [unify_by_rank_gt hxy hlt]
    simp [representative_type, Function.update_noteq hxy, hi]
  · intro heq
    rw [unify_by_rank_eq hxy heq]
    simp only [representative_type, Function.update_same, Function.update_noteq hxy, hi,
      true_and]
    intro x hx
    rw [Function.update_noteq hx]
  · intro x hx1 hx2
    rcases Nat.lt_trichotomy (s.rank (representative (Ty.unknown i)))
      (s.rank (representative (Ty.unknown j))) with h | h | h
    · rw [unify_by_rank_lt hxy h]; simp [Function.update_noteq hx1]
    · rw [unify_by_rank_eq hxy h]; simp [Function.update_noteq hx2]
    · rw [unify_by_rank_gt hxy h]; simp [Function.update_noteq hx2]
  · rcases Nat.lt_trichotomy (s.rank (representative (Ty.unknown i)))
      (s.rank (representative (Ty.unknown j))) with h | h | h
    · rw [unify_by_rank_lt hxy h]
      exact ⟨_, _, find_child (Function.update_same _ _ _) hyx
          (by simp only [Function.update_noteq hyx]; exact hj) n,
        find_repr_root_type (by simp only [Function.update_noteq hyx]; exact hj) (n + 1)⟩
    · rw [unify_by_rank_eq hxy h]
      exact ⟨_, _,
        find_repr_root_type (by simp only [Function.update_noteq hxy]; exact hi) (n + 1),
        find_child (Function.update_same _ _ _) hxy
          (by simp only [Function.update_noteq hxy]; exact hi) n⟩
    · rw [unify_by_rank_gt hxy h]
      exact ⟨_, _,
        find_repr_root_type (by simp only [Function.update_noteq hxy]; exact hi) (n + 1),
        find_child (Function.update_same _ _ _) hxy
          (by simp only [Function.update_noteq hxy]; exact hi) n⟩

/-- C6 (witness): `?0` and `?1` in the initial state have equal rank, so `?0`
survives with rank one. -/
theorem unify_unknowns_by_rank_witness :
    ∃ r s1, unify 1 init (Ty.unknown 0) (Ty.unknown 1) = some (r, s1) ∧ r = Ty.unknown 0 ∧
      s1.parent (representative (Ty.unknown 1)) = representative (Ty.unknown 0) ∧
      s1.rank (representative (Ty.unknown 0)) = 1 ∧
      ∃ s2 s3, find 2 s1 (Ty.unknown 0) = some (r, s2) ∧
        find 2 s1 (Ty.unknown 1) = some (r, s3) := by
  obtain ⟨r, s1, h, _, _, heq, _, hf⟩ :=
    unify_unknowns_by_rank init 0 1 (by decide) rfl rfl 0
  obtain ⟨h1, h2, _, h4, _⟩ := heq rfl
  exact ⟨r, s1, h, h1, h2, h4, hf⟩

/-- C7 (counterexample): in the initial state `unify(Tuple([?0]), ?1)` returns
`Tuple([?0])` while `unify(?0, ?1)` returns `?0`. -/
theorem unify_singleton_tuple_counterexample :
    ¬ (∀ (s : State) (n : Nat) (t u : Ty), Reachable s →
        (unify n s (Ty.tuple [t]) u).map Prod.fst = (unify n s t u).map Prod.fst) := by
  intro h
  have := h init 1 (Ty.unknown 0) (Ty.unknown 1) Reachable.init
  revert this
  decide

theorem normalize_singleton (t : Ty) : normalize (Ty.tuple [t]) = t := by
  simp [normalize, Ty.isTuple, Ty.num_ops, Ty.ops, Ty.op]

/-- C7 (amended): let `t` not be a singleton tuple itself, let `t` and
`Tuple([t])` be their own representatives, and let `find(u)` return a type that
does not normalize to an `Unknown` and that does not trigger the `Fn` hack in
favour of `t`.  Then `unify(Tuple([t]), u)` returns the same type as
`unify(t, u)`, and `unify(u, Tuple([t]))` the same type as `unify(u, t)`. -/
theorem unify_singleton_tuple (s : State) (n : Nat) (t u tu : Ty) (s1 : State)
    (ht : s.parent (representative t) = representative t)
    (htt : s.parent (representative (Ty.tuple [t])) = representative (Ty.tuple [t]))
    (hnt : normalize t = t)
    (hf : find (n + 1) s u = some (tu, s1))
    (hsrc : (normalize tu).isUnknown = false)
    (hhack : (fn_hack t (normalize tu) && t.is_known) = false) :
    (unify (n + 1) s (Ty.tuple [t]) u).map Prod.fst = (unify (n + 1) s t u).map Prod.fst ∧
      (unify (n + 1) s u (Ty.tuple [t])).map Prod.fst
        = (unify (n + 1) s u t).map Prod.fst := by
  obtain ⟨sr, hfr, hsr⟩ := find_eq_some hf
  subst hsr
  obtain ⟨_, hc, _, _, _⟩ := find_repr_sound _ _ _ _ _ hfr
  have ht1 := compressed_root hc ht
  have htt1 := compressed_root hc htt
  have hb : (fn_hack t (normalize sr.type) && t.is_known) = true ↔ False := by
    rw [hhack]; simp
  constructor
  · rw [unify_of_finds (find_repr_root htt n) hfr, unify_of_finds (find_repr_root ht n) hfr]
    unfold unify_body
    simp only [representative_type, normalize_singleton, hnt, hsrc, hb, Bool.and_false,
      if_false, Bool.false_eq_true, unify_repr_fst]
    split_ifs <;> rfl
  · rw [unify_of_finds hfr (find_repr_root htt1 n), unify_of_finds hfr (find_repr_root ht1 n)]
    unfold unify_body
    simp only [representative_type, normalize_singleton, hnt, hsrc, hb, Bool.false_and,
      if_false, Bool.false_eq_true, unify_repr_fst]
    split_ifs <;> rfl

/-- C7 (witness): `t = i32` against `Tuple([bool])` in the initial state. -/
theorem unify_singleton_tuple_witness :
    (unify (0 + 1) init (Ty.tuple [Ty.prim PrimKind.i32])
        (Ty.tuple [Ty.prim PrimKind.bool])).map Prod.fst
      = (unify (0 + 1) init (Ty.prim PrimKind.i32) (Ty.tuple [Ty.prim PrimKind.bool])).map Prod.fst
    ∧ (unify (0 + 1) init (Ty.tuple [Ty.prim PrimKind.bool])
        (Ty.tuple [Ty.prim PrimKind.i32])).map Prod.fst
      = (unify (0 + 1) init (Ty.tuple [Ty.prim PrimKind.bool]) (Ty.prim PrimKind.i32)).map Prod.fst :=
  unify_singleton_tuple init 0 (Ty.prim PrimKind.i32) (Ty.tuple [Ty.prim PrimKind.bool])
    (Ty.tuple [Ty.prim PrimKind.bool]) init rfl rfl rfl rfl rfl rfl

theorem normalize_fn (ops : List Ty) : normalize (Ty.fn ops) = Ty.fn ops := by
  simp [normalize, Ty.isTuple]

/-- C8: in every reachable state, for every known `Fn` type `F` of arity other
than one and every `G = Fn([?i])` that is its own representative,
`unify(F, G)` and `unify(G, F)` both return `F` and put the representative of
`G` below that of `F`; afterwards `find(G) == F`. -/
theorem unify_fn_hack (s : State) (hs : Reachable s) (ops : List Ty) (i : Nat)
    (hk : (Ty.fn ops).is_known = true) (har : ops.length ≠ 1)
    (hG : s.parent (representative (Ty.fn [Ty.unknown i]))
      = representative (Ty.fn [Ty.unknown i])) (n : Nat) :
    ∃ s1, unify (n + 1) s (Ty.fn ops) (Ty.fn [Ty.unknown i]) = some (Ty.fn ops, s1) ∧
      unify (n + 1) s (Ty.fn [Ty.unknown i]) (Ty.fn ops) = some (Ty.fn ops, s1) ∧
      s1.parent (representative (Ty.fn [Ty.unknown i])) = representative (Ty.fn ops) ∧
      s1.parent (representative (Ty.fn ops)) = representative (Ty.fn ops) ∧
      ∃ s2, find (n + 2) s1 (Ty.fn [Ty.unknown i]) = some (Ty.fn ops, s2) := by
  have hF := known_is_root (reachable_inv hs) hk
  have hxy : representative (Ty.fn ops) ≠ representative (Ty.fn [Ty.unknown i]) := by
    intro e
    have e2 : Ty.fn ops = Ty.fn [Ty.unknown i] := congrArg Representative.type e
    rw [e2] at hk
    simp [Ty.is_known, Ty.all_known] at hk
  have h1 : fn_hack (Ty.fn ops) (Ty.fn [Ty.unknown i]) = true := by
    simp [fn_hack, Ty.isFn, Ty.num_ops, Ty.ops, Ty.op, Ty.isUnknown, har]
  have h2 : fn_hack (Ty.fn [Ty.unknown i]) (Ty.fn ops) = false := by
    simp [fn_hack, Ty.isFn, Ty.num_ops, Ty.ops]
  have hp1 : (unify_repr s (representative (Ty.fn ops))
      (representative (Ty.fn [Ty.unknown i]))).2.parent (representative (Ty.fn [Ty.unknown i]))
      = representative (Ty.fn ops) := by simp [unify_repr, hxy]
  have hp2 : (unify_repr s (representative (Ty.fn ops))
      (representative (Ty.fn [Ty.unknown i]))).2.parent (representative (Ty.fn ops))
      = representative (Ty.fn ops) := by
    simp [unify_repr, hxy, Function.update_noteq hxy, hF]
  refine ⟨(unify_repr s (representative (Ty.fn ops))
    (representative (Ty.fn [Ty.unknown i]))).2, ?_, ?_, hp1, hp2,
    ⟨_, find_child hp1 hxy hp2 n⟩⟩
  · rw [unify_of_finds (find_repr_root hF n) (find_repr_root hG n)]
    unfold unify_body
    simp only [representative_type, normalize_fn, h1, hk, Bool.and_self, if_true,
      unify_repr_fst]
  · rw [unify_of_finds (find_repr_root hG n) (find_repr_root hF n)]
    unfold unify_body
    simp only [representative_type, normalize_fn, h1, h2, hk, Bool.and_self, Bool.false_and,
      if_true, if_false, Bool.false_eq_true, unify_repr_fst]

/-- C8 (witness): `F = Fn([i32, bool])` and `G = Fn([?0])` in the initial state. -/
theorem unify_fn_hack_witness :
    ∃ s1, unify (0 + 1) init (Ty.fn [Ty.prim PrimKind.i32, Ty.prim PrimKind.bool])
        (Ty.fn [Ty.unknown 0])
        = some (Ty.fn [Ty.prim PrimKind.i32, Ty.prim PrimKind.bool], s1) ∧
      unify (0 + 1) init (Ty.fn [Ty.unknown 0])
        (Ty.fn [Ty.prim PrimKind.i32, Ty.prim PrimKind.bool])
        = some (Ty.fn [Ty.prim PrimKind.i32, Ty.prim PrimKind.bool], s1) ∧
      s1.parent (representative (Ty.fn [Ty.unknown 0]))
        = representative (Ty.fn [Ty.prim PrimKind.i32, Ty.prim PrimKind.bool]) ∧
      s1.parent (representative (Ty.fn [Ty.prim PrimKind.i32, Ty.prim PrimKind.bool]))
        = representative (Ty.fn [Ty.prim PrimKind.i32, Ty.prim PrimKind.bool]) ∧
      ∃ s2, find (0 + 2) s1 (Ty.fn [Ty.unknown 0])
        = some (Ty.fn [Ty.prim PrimKind.i32, Ty.prim PrimKind.bool], s2) :=
  unify_fn_hack init Reachable.init [Ty.prim PrimKind.i32, Ty.prim PrimKind.bool] 0
    (by decide) (by decide) rfl 0

/-- C9 (counterexample): with the owned pointer first, `unify` returns the
owned pointer: `unify(Ptr(Owned, i32), Ptr(Borrowed, i32))` is not a borrowed
pointer. -/
theorem unify_ptr_order_counterexample :
    ¬ (∀ (s : State) (n : Nat) (T1 T2 : Ty) (m1 m2 : Bool) (a : Int) (r : Ty) (s1 : State),
        Reachable s →
        unify n s (Ty.ptr PtrKind.Owned T2 m2 a) (Ty.ptr PtrKind.Borrowed T1 m1 a)
          = some (r, s1) →
        ∃ p, r = Ty.ptr PtrKind.Borrowed p m1 a) := by
  intro h
  obtain ⟨p, hp⟩ := h init 2 (Ty.prim PrimKind.i32) (Ty.prim PrimKind.i32) true true 0
    (Ty.ptr PtrKind.Owned (Ty.prim PrimKind.i32) true 0) init Reachable.init rfl
  simp at hp

theorem ptr_not_mergeable (k : PtrKind) (p : Ty) (m : Bool) (a : Int) :
    mergeable (Ty.ptr k p m a) = false := by
  simp [mergeable, normalize, Ty.isTuple, Ty.isUnknown, Ty.isFn]

theorem normalize_ptr (k : PtrKind) (p : Ty) (m : Bool) (a : Int) :
    normalize (Ty.ptr k p m a) = Ty.ptr k p m a := by
  simp [normalize, Ty.isTuple]

/-- C9 (amended): in every reachable state, with the borrowed pointer as the
first argument and equal address spaces, `unify(Ptr(Borrowed, T1, mut1, as),
Ptr(Owned, T2, _, as))` is `Ptr(Borrowed, unify(T1, T2), mut1, as)`: it returns
exactly when the unification of the pointees returns, in the state that one
leaves. -/
theorem unify_borrowed_owned (s : State) (hs : Reachable s) (T1 T2 : Ty) (m1 m2 : Bool)
    (a : Int) (n : Nat) :
    unify (n + 1) s (Ty.ptr PtrKind.Borrowed T1 m1 a) (Ty.ptr PtrKind.Owned T2 m2 a)
      = (unify n s T1 T2).map (fun p => (Ty.ptr PtrKind.Borrowed p.1 m1 a, p.2)) := by
  have hi := reachable_inv hs
  have h1 := root_of_not_mergeable hi (ptr_not_mergeable PtrKind.Borrowed T1 m1 a)
  have h2 := root_of_not_mergeable hi (ptr_not_mergeable PtrKind.Owned T2 m2 a)
  rw [unify_of_finds (find_repr_root h1 n) (find_repr_root h2 n)]
  unfold unify_body
  cases hu : unify n s T1 T2 with
  | none =>
    simp [representative_type, normalize_ptr, fn_hack, Ty.isFn, Ty.isError, Ty.isUnknown,
      Ty.num_ops, Ty.ops, unify_ops, hu]
  | some res =>
    simp [representative_type, normalize_ptr, fn_hack, Ty.isFn, Ty.isError, Ty.isUnknown,
      Ty.num_ops, Ty.ops, unify_ops, hu, unify_result, Ty.isBorrowedPtr, Ty.isOwnedPtr,
      Ty.addr_space, Ty.is_mut, borrowed_ptr_type]

/-- C9 (witness): `&?0` against `~i32` in the initial state yields `&i32`. -/
theorem unify_borrowed_owned_witness :
    unify (1 + 1) init (Ty.ptr PtrKind.Borrowed (Ty.unknown 0) false 0)
        (Ty.ptr PtrKind.Owned (Ty.prim PrimKind.i32) true 0)
      = (unify 1 init (Ty.unknown 0) (Ty.prim PrimKind.i32)).map
          (fun p => (Ty.ptr PtrKind.Borrowed p.1 false 0, p.2))
    ∧ (unify 1 init (Ty.unknown 0) (Ty.prim PrimKind.i32)).map Prod.fst
      = some (Ty.prim PrimKind.i32) :=
  ⟨unify_borrowed_owned init Reachable.init (Ty.unknown 0) (Ty.prim PrimKind.i32) false true 0 1,
    by decide⟩

theorem array_not_mergeable (e : Ty) : mergeable (Ty.indefinite_array e) = false := by
  simp [mergeable, normalize, Ty.isTuple, Ty.isUnknown, Ty.isFn]

theorem def_array_not_mergeable (e : Ty) (d : Nat) :
    mergeable (Ty.definite_array e d) = false := by
  simp [mergeable, normalize, Ty.isTuple, Ty.isUnknown, Ty.isFn]

/-- C10: in every reachable state, `unify(IndefArray(T1), DefArray(T2, n))` is
`IndefArray(unify(T1, T2))` for all element types and every dimension: it
returns exactly when the unification of the element types returns, in the
state that one leaves. -/
theorem unify_indef_def_array (s : State) (hs : Reachable s) (T1 T2 : Ty) (dim : Nat)
    (n : Nat) :
    unify (n + 1) s (Ty.indefinite_array T1) (Ty.definite_array T2 dim)
      = (unify n s T1 T2).map (fun p => (Ty.indefinite_array p.1, p.2)) := by
  have hi := reachable_inv hs
  have h1 := root_of_not_mergeable hi (array_not_mergeable T1)
  have h2 := root_of_not_mergeable hi (def_array_not_mergeable T2 dim)
  rw [unify_of_finds (find_repr_root h1 n) (find_repr_root h2 n)]
  unfold unify_body
  cases hu : unify n s T1 T2 with
  | none =>
    simp [representative_type, normalize, Ty.isTuple, fn_hack, Ty.isFn, Ty.isError,
      Ty.isUnknown, Ty.num_ops, Ty.ops, unify_ops, hu]
  | some res =>
    simp [representative_type, normalize, Ty.isTuple, fn_hack, Ty.isFn, Ty.isError,
      Ty.isUnknown, Ty.num_ops, Ty.ops, unify_ops, hu, unify_result, Ty.isBorrowedPtr,
      Ty.isIndefiniteArray, Ty.isDefiniteArray, indefinite_array_type]

/-- C10 (witness): `[?0]` against `[u8 * 4]` in the initial state yields `[u8]`. -/
theorem unify_indef_def_array_witness :
    unify (1 + 1) init (Ty.indefinite_array (Ty.unknown 0))
        (Ty.definite_array (Ty.prim PrimKind.u8) 4)
      = (unify 1 init (Ty.unknown 0) (Ty.prim PrimKind.u8)).map
          (fun p => (Ty.indefinite_array p.1, p.2))
    ∧ (unify 1 init (Ty.unknown 0) (Ty.prim PrimKind.u8)).map Prod.fst
      = some (Ty.prim PrimKind.u8) :=
  ⟨unify_indef_def_array init Reachable.init (Ty.unknown 0) (Ty.prim PrimKind.u8) 4 1,
    by decide⟩

/-! ### Unifying known types changes nothing -/

theorem unify_body_known_known {u : State → Ty → Ty → Option (Ty × State)} {s2 : State}
    (dr sr : Representative) (hd : dr.type.is_known = true) (hs : sr.type.is_known = true)
    (hops : ∃ op, unify_ops u s2 (normalize dr.type).ops (normalize sr.type).ops
      = some (op, s2)) :
    ∃ r, unify_body u s2 dr sr = some (r, s2) := by
  have hnd := normalize_known hd
  have hns := normalize_known hs
  have hh1 : fn_hack (normalize dr.type) (normalize sr.type) = false := known_not_hack hns
  have hh2 : fn_hack (normalize sr.type) (normalize dr.type) = false := known_not_hack hnd
  have hud : (normalize dr.type).isUnknown = false := known_not_unknown hnd
  have hus : (normalize sr.type).isUnknown = false := known_not_unknown hns
  obtain ⟨op, ho⟩ := hops
  unfold unify_body
  simp only [hh1, hh2, hud, hus, ho, Bool.false_and, if_false, Bool.false_eq_true]
  split_ifs <;> exact ⟨_, rfl⟩

theorem unify_ops_known_known {k : Nat}
    (ih : ∀ t : Ty, sizeOf t < k → t.is_known = true → ∀ u : Ty, u.is_known = true →
      ∀ s : State, Inv s → ∃ n r, unify n s t u = some (r, s)) :
    ∀ ds : List Ty, (∀ x ∈ ds, sizeOf x < k ∧ x.is_known = true) →
      ∀ ts : List Ty, (∀ x ∈ ts, x.is_known = true) → ∀ s : State, Inv s →
        ∃ n rs, unify_ops (unify n) s ds ts = some (rs, s)
  | [], _, ts, _, s, _ => ⟨0, [], by simp [unify_ops]⟩
  | d :: ds, _, [], _, s, _ => ⟨0, [], by simp [unify_ops]⟩
  | d :: ds, hds, t :: ts, hts, s, hi => by
    obtain ⟨h1, h2⟩ := hds d (List.mem_cons_self _ _)
    obtain ⟨n1, r, hu⟩ := ih d h1 h2 t (hts t (List.mem_cons_self _ _)) s hi
    obtain ⟨n2, rs, hus⟩ := unify_ops_known_known ih ds
      (fun x hx => hds x (List.mem_cons_of_mem _ hx)) ts
      (fun x hx => hts x (List.mem_cons_of_mem _ hx)) s hi
    refine ⟨max n1 n2, r :: rs, ?_⟩
    unfold unify_ops
    rw [unify_mono_le (le_max_left n1 n2) hu]
    simp only [unify_ops_mono_le (le_max_right n1 n2) hus]

theorem unify_ops_known_known_aux : ∀ (k : Nat) (t : Ty), sizeOf t < k → t.is_known = true →
    ∀ u : Ty, u.is_known = true → ∀ s : State, Inv s →
      ∃ n op, unify_ops (unify n) s (normalize t).ops (normalize u).ops = some (op, s)
  | 0, _, h, _, _, _, _, _ => by omega
  | k + 1, t, hsz, hk, u, hu, s, hi => by
    have hel : ∀ x ∈ (normalize t).ops, sizeOf x < k ∧ x.is_known = true := by
      intro x hx
      have h1 := sizeOf_ops_lt hx
      have h2 := normalize_sizeOf_le t
      exact ⟨by omega, known_ops (normalize_known hk) hx⟩
    refine unify_ops_known_known ?_ _ hel _ (fun x hx => known_ops (normalize_known hu) hx) s hi
    intro t2 hsz2 hk2 u2 hu2 s2 hi2
    obtain ⟨n, op, hops⟩ := unify_ops_known_known_aux k t2 hsz2 hk2 u2 hu2 s2 hi2
    obtain ⟨r, hb⟩ := unify_body_known_known (representative t2) (representative u2) hk2 hu2
      ⟨op, hops⟩
    refine ⟨n + 1, r, ?_⟩
    rw [unify_of_finds (find_repr_root (known_is_root hi2 hk2) n)
      (find_repr_root (known_is_root hi2 hu2) n)]
    exact hb

/-- C11: in every reachable state, for known, non-`Error` types `a` and `b` that
are not singleton tuples, have different top-level tags and are neither a
(Borrowed, Owned) pointer pair nor an (IndefArray, DefArray) pair, `unify(a, b)`
returns `a` and leaves the whole state (every parent, every rank, the `todo_`
flag) unchanged. -/
theorem unify_fail_nondestructive (s : State) (hs : Reachable s) (a b : Ty)
    (hka : a.is_known = true) (hkb : b.is_known = true)
    (hea : a.isError = false) (heb : b.isError = false)
    (hna : (a.isTuple && a.num_ops == 1) = false)
    (hnb : (b.isTuple && b.num_ops == 1) = false)
    (htag : a.tag ≠ b.tag)
    (hptr : (a.isBorrowedPtr && b.isOwnedPtr) = false)
    (harr : (a.isIndefiniteArray && b.isDefiniteArray) = false) :
    ∃ n, ∀ m, n ≤ m → unify m s a b = some (a, s) := by
  have hi := reachable_inv hs
  have ea : normalize a = a := by simp [normalize, hna]
  have eb : normalize b = b := by simp [normalize, hnb]
  obtain ⟨n, op, hops⟩ := unify_ops_known_known_aux (sizeOf a + 1) a (Nat.lt_succ_self _) hka
    b hkb s hi
  rw [ea, eb] at hops
  have hne : ¬ (a = b ∧ a.is_known = true) := fun h => htag (by rw [h.1])
  have hua : a.isUnknown = false := known_not_unknown hka
  have hub : b.isUnknown = false := known_not_unknown hkb
  have hh1 : fn_hack a b = false := known_not_hack hkb
  have hh2 : fn_hack b a = false := known_not_hack hka
  refine ⟨n + 1, fun m hm => unify_mono_le hm ?_⟩
  rw [unify_of_finds (find_repr_root (known_is_root hi hka) n)
    (find_repr_root (known_is_root hi hkb) n)]
  unfold unify_body
  simp only [representative_type, ea, eb, hh1, hh2, hne, hea, heb, hua, hub, hops,
    Bool.false_and, if_false, Bool.false_eq_true, unify_result, hptr, harr, htag]
  split_ifs <;> rfl

/-- C11 (witness): `unify((i32, bool), fn(i32))` in the initial state. -/
theorem unify_fail_nondestructive_witness :
    ∃ n, ∀ m, n ≤ m →
      unify m init (Ty.tuple [Ty.prim PrimKind.i32, Ty.prim PrimKind.bool])
        (Ty.fn [Ty.prim PrimKind.i32])
      = some (Ty.tuple [Ty.prim PrimKind.i32, Ty.prim PrimKind.bool], init) :=
  unify_fail_nondestructive init Reachable.init
    (Ty.tuple [Ty.prim PrimKind.i32, Ty.prim PrimKind.bool]) (Ty.fn [Ty.prim PrimKind.i32])
    (by decide) (by decide) (by decide) (by decide) (by decide) (by decide) (by decide)
    (by decide) (by decide)

/-- C12 (failing input): after the reset of `todo_` at the start of a pass,
`unify(?0, ?1)` merges by rank, `?1` gets the parent `?0`, and `todo_` is still
`false`: `unify_by_rank` never sets the flag. -/
theorem unify_by_rank_todo_not_set :
    Reachable { init with todo_ := false } ∧
    ({ init with todo_ := false } : State).parent (representative (Ty.unknown 1))
      = representative (Ty.unknown 1) ∧
    (unify 1 { init with todo_ := false } (Ty.unknown 0) (Ty.unknown 1)).map
        (fun p => (p.1, p.2.parent (representative (Ty.unknown 1)), p.2.todo_))
      = some (Ty.unknown 0, representative (Ty.unknown 0), false) :=
  ⟨Reachable.reset Reachable.init, rfl, by decide⟩

/-! ### Coercion and calls -/

theorem set_type_self {e : Expr} {t : Ty} (h : e.type_ = some t) : e.set_type t = e := by
  cases e <;> simp [Expr.type_] at h <;> simp [Expr.set_type, h]

theorem unify_known_self {s : State} (hi : Inv s) {t : Ty} (hk : t.is_known = true) (n : Nat) :
    unify (n + 1) s t t = some (normalize t, s) := by
  have hr := known_is_root hi hk
  have hn := normalize_known hk
  have hh : fn_hack (normalize t) (normalize t) = false := known_not_hack hn
  rw [unify_of_finds (find_repr_root hr n) (find_repr_root hr n)]
  unfold unify_body
  simp [representative_type, hh, hn]

/-- C13 (counterexample): for the known, non-`Ref` type `T = Tuple([i32])` held
by the slot of `e`, `coerce(T, e)` returns `i32`, not `T`. -/
theorem coerce_same_type_counterexample :
    ¬ (∀ (is_subtype : Ty → Ty → Bool)
        (rvalue : TypeState → Expr → Option (Ty × TypeState × Expr)) (fuel : Nat)
        (σ σ1 : TypeState) (T r : Ty) (e e1 : Expr),
        Reachable σ.uf → T.is_known = true → e.type_ = some T →
        coerce is_subtype rvalue fuel σ T e = some (r, σ1, e1) → r = T) := by
  intro h
  have := h (fun _ _ => false) (fun _ _ => none) 1 ⟨init, 0⟩ ⟨init, 0⟩
    (Ty.tuple [Ty.prim PrimKind.i32]) (Ty.prim PrimKind.i32)
    (Expr.expr (some (Ty.tuple [Ty.prim PrimKind.i32])))
    (Expr.expr (some (Ty.tuple [Ty.prim PrimKind.i32]))) Reachable.init rfl rfl rfl
  simp at this

/-- C13 (amended): in every reachable state, for every expression `e` whose type
slot holds the known type `T` that is not a `Ref`, `coerce(T, e)` returns `T`
with a singleton tuple normalized to its element (`T` itself when `T` is not a
singleton tuple), inserts no `ImplicitCastExpr` around `e`, leaves the slot of
`e` equal to `T` and changes nothing in the state. -/
theorem coerce_same_type (is_subtype : Ty → Ty → Bool)
    (rvalue : TypeState → Expr → Option (Ty × TypeState × Expr))
    (σ : TypeState) (hs : Reachable σ.uf) (T : Ty) (hk : T.is_known = true)
    (hr : ∀ p m a, T ≠ Ty.ref p m a) (e : Expr) (he : e.type_ = some T) (n : Nat) :
    coerce is_subtype rvalue (n + 1) σ T e = some (normalize T, σ, e) ∧
      ((T.isTuple && T.num_ops == 1) = false → normalize T = T) := by
  have hi := reachable_inv hs
  have hroot := known_is_root hi hk
  have hf : find_type (n + 1) σ (some T) = some (T, σ) := by
    simp [find_type, find_repr_root_type hroot]
  have hsub : is_strict_subtype is_subtype T T = false := by simp [is_strict_subtype]
  constructor
  · unfold coerce
    have hd : (match T with
      | Ty.ref pointee _ _ => pointee
      | t => t) = T := by
      cases T <;> first | rfl | exact absurd rfl (hr _ _ _)
    simp only [he, hf, hd, hsub, Bool.and_false, Bool.false_eq_true, if_false,
      set_type_self he, unify_known_self hi hk n]
  · intro h
    simp [normalize, h]

/-- C13 (witness): `T = (i32, bool)` in the initial state. -/
theorem coerce_same_type_witness :
    coerce (fun _ _ => true) (fun _ _ => none) (0 + 1) ⟨init, 0⟩
        (Ty.tuple [Ty.prim PrimKind.i32, Ty.prim PrimKind.bool])
        (Expr.expr (some (Ty.tuple [Ty.prim PrimKind.i32, Ty.prim PrimKind.bool])))
      = some (normalize (Ty.tuple [Ty.prim PrimKind.i32, Ty.prim PrimKind.bool]), ⟨init, 0⟩,
          Expr.expr (some (Ty.tuple [Ty.prim PrimKind.i32, Ty.prim PrimKind.bool]))) ∧
    normalize (Ty.tuple [Ty.prim PrimKind.i32, Ty.prim PrimKind.bool])
      = Ty.tuple [Ty.prim PrimKind.i32, Ty.prim PrimKind.bool] :=
  ⟨(coerce_same_type (fun _ _ => true) (fun _ _ => none) ⟨init, 0⟩ Reachable.init
      (Ty.tuple [Ty.prim PrimKind.i32, Ty.prim PrimKind.bool]) (by decide)
      (by intro p m a h; cases h)
      (Expr.expr (some (Ty.tuple [Ty.prim PrimKind.i32, Ty.prim PrimKind.bool]))) rfl 0).1,
    by decide⟩

theorem rvalue_args_length {rvalue : TypeState → Expr → Option (Ty × TypeState × Expr)} :
    ∀ (args : List Expr) (σ σ1 : TypeState) (args1 : List Expr),
      rvalue_args rvalue σ args = some (σ1, args1) → args1.length = args.length
  | [], σ, σ1, args1, h => by
    simp [rvalue_args] at h
    simp [← h.2]
  | arg :: args, σ, σ1, args1, h => by
    unfold rvalue_args at h
    cases h1 : rvalue σ arg with
    | none => simp [h1] at h
    | some r1 =>
      obtain ⟨t, σ2, arg1⟩ := r1
      simp only [h1] at h
      cases h2 : rvalue_args rvalue σ2 args with
      | none => simp [h2] at h
      | some r2 =>
        obtain ⟨σ3, args2⟩ := r2
        simp only [h2, Option.some.injEq, Prod.mk.injEq] at h
        rw [← h.2]
        simp [rvalue_args_length args σ2 σ3 args2 h2]

/-- C14 (counterexample): in the state after `unify(?0, bool)`, a callee of
type `Fn([i32, Fn([?0])])` called with one argument of type `i32` has the type
`bool`: the call gets the return type of the callee type as unified by
`constrain`, not the single operand `?0` of the last operand of the callee. -/
theorem check_call_counterexample :
    ¬ (∀ (is_subtype : Ty → Ty → Bool)
        (rvalue : TypeState → Expr → Option (Ty × TypeState × Expr)) (fuel : Nat)
        (σ σ1 : TypeState) (lhs lhs1 : Expr) (args args1 : List Expr) (call_type t : Ty)
        (ops ys : List Ty),
        Reachable σ.uf → lhs.type_ = some (Ty.fn ops) → args.length + 1 = ops.length →
        ops.getLastD Ty.error = Ty.fn ys →
        check_call is_subtype rvalue fuel σ lhs args call_type = some (t, σ1, lhs1, args1) →
        t = Legacy.unpack_return_type (ops.getLastD Ty.error)) := by
  intro h
  have hs : Reachable _ :=
    Reachable.unify 1 (Ty.unknown 0) (Ty.prim PrimKind.bool) _ _ Reachable.init rfl
  have := h (fun _ _ => false) (fun σ e => some (Ty.prim PrimKind.i32, σ, e)) 4
    ⟨_, 1⟩ _
    (Expr.expr (some (Ty.fn [Ty.prim PrimKind.i32, Ty.fn [Ty.unknown 0]]))) _
    [Expr.expr (some (Ty.prim PrimKind.i32))] _
    Ty.error (Ty.prim PrimKind.bool) [Ty.prim PrimKind.i32, Ty.fn [Ty.unknown 0]]
    [Ty.unknown 0] hs rfl rfl rfl rfl
  revert this
  decide

/-- C14 (amended): for a callee whose slot holds `Fn(ops)` with `n` operands and
a call with `k` arguments whose inference returns: for `k ≠ n` and `k + 1 ≠ n`
the call has type `Error`; for `k = n`, once the coercions and the constraint
on the callee return, it has type `NoRet`; for `k + 1 = n`, with `result` the
type that `constrain` returns for the slot of the callee and the function type
of the types of the coerced arguments followed by the last operand of the
callee type, it has the return type of `result` when `result` is a `Fn` type
and `call_type` otherwise, where the return type of `Fn(.., l)` is `x` for
`l = Fn([x])`, `Tuple(ys)` for `l = Fn(ys)` of another arity, and `NoRet` when
`l` is not a `Fn` type. -/
theorem check_call_type (is_subtype : Ty → Ty → Bool)
    (rvalue : TypeState → Expr → Option (Ty × TypeState × Expr)) (fuel : Nat)
    (σ σ1 : TypeState) (lhs : Expr) (args args1 : List Expr) (call_type : Ty) (ops : List Ty)
    (hl : lhs.type_ = some (Ty.fn ops))
    (hrv : rvalue_args rvalue σ args = some (σ1, args1)) :
    (args.length ≠ ops.length → args.length + 1 ≠ ops.length →
      check_call is_subtype rvalue fuel σ lhs args call_type
        = some (Ty.error, σ1, lhs, args1)) ∧
    (args.length = ops.length → ∀ types σ2 args2 r uf3,
      coerce_args is_subtype rvalue fuel σ1 ops args1 = some (types, σ2, args2) →
      constrain fuel σ2.uf lhs.type_ (fn_type_of types) = some (r, uf3) →
      check_call is_subtype rvalue fuel σ lhs args call_type
        = some (Ty.noret, { σ2 with uf := uf3 }, lhs.set_type r, args2)) ∧
    (args.length + 1 = ops.length → ∀ types σ2 args2 result uf3,
      coerce_args is_subtype rvalue fuel σ1 ops args1 = some (types, σ2, args2) →
      constrain fuel σ2.uf lhs.type_ (fn_type_of (types ++ [ops.getLastD Ty.error]))
        = some (result, uf3) →
      check_call is_subtype rvalue fuel σ lhs args call_type
        = some (if result.isFn then Legacy.return_type result else call_type,
                { σ2 with uf := uf3 }, lhs.set_type result, args2)) ∧
    (∀ (init_ops : List Ty) (l : Ty),
      (∀ x, l = Ty.fn [x] → Legacy.return_type (Ty.fn (init_ops ++ [l])) = x) ∧
      (∀ ys, l = Ty.fn ys → ys.length ≠ 1 →
        Legacy.return_type (Ty.fn (init_ops ++ [l])) = Ty.tuple ys) ∧
      (l.isFn = false → Legacy.return_type (Ty.fn (init_ops ++ [l])) = Ty.noret)) := by
  have hlen := rvalue_args_length args σ σ1 args1 hrv
  refine ⟨?_, ?_, ?_, ?_⟩
  · intro h1 h2
    unfold check_call
    simp only [hl, hrv, hlen, h1, h2, if_false]
  · intro h1 types σ2 args2 r uf3 hc hcon
    unfold check_call
    rw [hl] at hcon
    simp only [hl, hrv, hlen, h1, if_true, hc, hcon]
  · intro h2 types σ2 args2 result uf3 hc hcon
    have h1 : args.length ≠ ops.length := by omega
    unfold check_call
    rw [hl] at hcon
    simp only [hl, hrv, hlen, h1, h2, if_true, if_false, hc, hcon]
  · intro init_ops l
    refine ⟨?_, ?_, ?_⟩
    · intro x hx
      subst hx
      simp [Legacy.return_type, Legacy.unpack_return_type, Ty.ops, Ty.isFn, Ty.num_ops, Ty.op]
    · intro ys hy hlen2
      subst hy
      simp [Legacy.return_type, Legacy.unpack_return_type, Ty.ops, Ty.isFn, Ty.num_ops, hlen2]
    · intro hf
      simp [Legacy.return_type, Ty.ops, hf]

/-- C14 (witness): the callee `Fn([i32, Fn([bool])])` called with one argument of
type `i32` has type `bool`. -/
theorem check_call_type_witness :
    check_call (fun _ _ => false) (fun σ e => some (Ty.prim PrimKind.i32, σ, e)) 3 ⟨init, 0⟩
        (Expr.expr (some (Ty.fn [Ty.prim PrimKind.i32, Ty.fn [Ty.prim PrimKind.bool]])))
        [Expr.expr (some (Ty.prim PrimKind.i32))] Ty.error
      = some (Ty.prim PrimKind.bool, ⟨init, 0⟩,
          Expr.expr (some (Ty.fn [Ty.prim PrimKind.i32, Ty.fn [Ty.prim PrimKind.bool]])),
          [Expr.expr (some (Ty.prim PrimKind.i32))]) :=
  ((check_call_type (fun _ _ => false) (fun σ e => some (Ty.prim PrimKind.i32, σ, e)) 3
      ⟨init, 0⟩ ⟨init, 0⟩
      (Expr.expr (some (Ty.fn [Ty.prim PrimKind.i32, Ty.fn [Ty.prim PrimKind.bool]])))
      [Expr.expr (some (Ty.prim PrimKind.i32))] [Expr.expr (some (Ty.prim PrimKind.i32))]
      Ty.error [Ty.prim PrimKind.i32, Ty.fn [Ty.prim PrimKind.bool]] rfl rfl).2.2.1 rfl
      [Ty.prim PrimKind.i32] ⟨init, 0⟩ [Expr.expr (some (Ty.prim PrimKind.i32))]
      (Ty.fn [Ty.prim PrimKind.i32, Ty.fn [Ty.prim PrimKind.bool]]) init rfl rfl).trans rfl

end InferSema

namespace Legacy

open InferSema

/-! ### Packing a type into a return continuation -/

/-- C15 (counterexample): `TypeTable::pack_return_type` keeps a singleton
tuple: `pack_return_type(Tuple([i32]))` is `fn([Tuple([i32])])`, not
`fn([i32])`. -/
theorem pack_return_type_counterexample :
    ¬ (∀ ops : List Ty, pack_return_type (Ty.tuple ops) = Ty.fn ops) := by
  intro h
  have := h [Ty.prim PrimKind.i32]
  revert this
  decide

/-- C15 (amended): `InferSema::fn_type` maps every `Tuple(ops)`, of any length,
to `fn(ops)` and every other type `t` to `fn([t])`.
`TypeTable::pack_return_type` does the same except on singleton tuples: it
maps `Tuple(ops)` to `fn(ops)` when the length is not one, and every other
type, a singleton tuple included, to `fn([t])`. -/
theorem fn_from_type (t : Ty) :
    (∀ ops, t = Ty.tuple ops → fn_type t = Ty.fn ops) ∧
    (t.isTuple = false → fn_type t = Ty.fn [t]) ∧
    (∀ ops, t = Ty.tuple ops → ops.length ≠ 1 → pack_return_type t = Ty.fn ops) ∧
    (∀ x, t = Ty.tuple [x] → pack_return_type t = Ty.fn [Ty.tuple [x]]) ∧
    (t.isTuple = false → pack_return_type t = Ty.fn [t]) := by
  refine ⟨?_, ?_, ?_, ?_, ?_⟩
  · intro ops h
    subst h
    simp [fn_type, Ty.isTuple, Ty.ops]
  · intro h
    simp [fn_type, h]
  · intro ops h hl
    subst h
    simp [pack_return_type, Ty.isTuple, Ty.num_ops, Ty.ops, hl]
  · intro x h
    subst h
    simp [pack_return_type, Ty.isTuple, Ty.num_ops, Ty.ops]
  · intro h
    simp [pack_return_type, h]

/-! ### Interning -/

theorem find_some_mem {tt : TypeTable} {node : Node} {e : Nat × Node}
    (h : tt.types_.find? (fun e => e.2 = node) = some e) : e ∈ tt.types_ ∧ e.2 = node := by
  have h1 := List.find?_some h
  exact ⟨List.mem_of_find?_eq_some h, by simpa using h1⟩

theorem find_none_not_mem {tt : TypeTable} {node : Node}
    (h : tt.types_.find? (fun e => e.2 = node) = none) : node ∉ tt.types_.map Prod.snd := by
  intro hm
  obtain ⟨e, he, hn⟩ := List.mem_map.1 hm
  have := List.find?_eq_none.1 h e he
  simp [hn] at this

theorem interned_unify_base {tt : TypeTable} (hi : Interned tt) (addr : Nat) (node : Node) :
    Interned (unify_base tt addr node).2 := by
  unfold unify_base
  cases h : tt.types_.find? (fun e => e.2 = node) with
  | some e => exact hi
  | none =>
    simp only [Interned, List.map_append, List.map_cons, List.map_nil]
    refine List.Nodup.append hi (List.nodup_singleton _) ?_
    intro x hx hx2
    rw [List.mem_singleton] at hx2
    subst hx2
    exact find_none_not_mem h hx

theorem interned_built {tt : TypeTable} (h : Built tt) : Interned tt := by
  induction h with
  | empty => exact List.nodup_nil
  | step addr node _ ih => exact interned_unify_base ih addr node

/-- C16: `unify_base` returns the handle of the interned object whenever a
structurally equal one is in the table, leaving the table unchanged, and
otherwise inserts the new object and returns its handle; constructing the
same structural type a second time yields the identical handle and leaves the
table unchanged; and no table built by `unify_base` holds two structurally
equal objects. -/
theorem unify_base_interns (tt : TypeTable) (hb : Built tt) (a1 a2 : Nat) (node : Node) :
    (node ∈ tt.types_.map Prod.snd →
      ((unify_base tt a1 node).1, node) ∈ tt.types_ ∧ (unify_base tt a1 node).2 = tt) ∧
    (node ∉ tt.types_.map Prod.snd →
      unify_base tt a1 node = (a1, { types_ := tt.types_ ++ [(a1, node)] })) ∧
    (unify_base (unify_base tt a1 node).2 a2 node
      = ((unify_base tt a1 node).1, (unify_base tt a1 node).2)) ∧
    Interned tt ∧ Interned (unify_base tt a1 node).2 := by
  refine ⟨?_, ?_, ?_, interned_built hb, interned_unify_base (interned_built hb) a1 node⟩
  · intro hm
    unfold unify_base
    cases h : tt.types_.find? (fun e => e.2 = node) with
    | some e =>
      obtain ⟨h1, h2⟩ := find_some_mem h
      refine ⟨?_, rfl⟩
      simp only
      rw [← h2]
      exact h1
    | none => exact absurd hm (find_none_not_mem h)
  · intro hm
    unfold unify_base
    cases h : tt.types_.find? (fun e => e.2 = node) with
    | some e =>
      obtain ⟨h1, h2⟩ := find_some_mem h
      exact absurd (List.mem_map.2 ⟨e, h1, h2⟩) hm
    | none => rfl
  · have hi := interned_built hb
    cases h : tt.types_.find? (fun e => e.2 = node) with
    | some e =>
      have e1 : unify_base tt a1 node = (e.1, tt) := by simp [unify_base, h]
      rw [e1]
      simp [unify_base, h]
    | none =>
      have e1 : unify_base tt a1 node = (a1, { types_ := tt.types_ ++ [(a1, node)] }) := by
        simp [unify_base, h]
      rw [e1]
      have h2 : (tt.types_ ++ [(a1, node)]).find? (fun e => e.2 = node) = some (a1, node) := by
        rw [List.find?_append, h]
        simp
      simp [unify_base, h2]

/-- C16 (witness): from the empty table, `i32` is interned at address 100 and
`~i32` at address 101; constructing `~i32` again at address 102 returns the
handle 101 and leaves the table unchanged. -/
theorem unify_base_interns_witness :
    owned_ptr (owned_ptr (unify_base ⟨[]⟩ 100 ⟨Kind.prim PrimKind.i32, []⟩).2 101 100).2 102 100
      = ((owned_ptr (unify_base ⟨[]⟩ 100 ⟨Kind.prim PrimKind.i32, []⟩).2 101 100).1,
         (owned_ptr (unify_base ⟨[]⟩ 100 ⟨Kind.prim PrimKind.i32, []⟩).2 101 100).2) ∧
    owned_ptr (unify_base ⟨[]⟩ 100 ⟨Kind.prim PrimKind.i32, []⟩).2 101 100
      = (101, ⟨[(100, ⟨Kind.prim PrimKind.i32, []⟩), (101, ⟨Kind.owned_ptr, [100]⟩)]⟩) :=
  ⟨(unify_base_interns (unify_base ⟨[]⟩ 100 ⟨Kind.prim PrimKind.i32, []⟩).2
      (Built.step 100 ⟨Kind.prim PrimKind.i32, []⟩ Built.empty) 101 102
      ⟨Kind.owned_ptr, [100]⟩).2.2.1, by decide⟩

end Legacy

namespace NameSema

/-! ### The symbol table -/

/-- C19: `insert(decl)` emits the "already defined" error exactly when the symbol
of `decl` is mapped to a declaration whose depth is the current depth, and then
leaves `symbol2decl_`, `decl_stack_` and `levels_` (and every `shadows_` and
`depth_`) unchanged; otherwise it emits no error, `decl.shadows_` becomes the
previous mapping (or null), `decl.depth_` the current depth, `decl` is pushed
on `decl_stack_` and the symbol maps to `decl`. -/
theorem insert_atomic (s : NameSema) (decl : Decl) :
    ((∃ other, s.symbol2decl_ decl.symbol = some other ∧ s.depth_ other = s.depth) →
      (s.insert decl).errors_ = s.errors_ ++
          [NameError.already_defined decl.symbol, NameError.previous_location] ∧
      (s.insert decl).symbol2decl_ = s.symbol2decl_ ∧
      (s.insert decl).decl_stack_ = s.decl_stack_ ∧
      (s.insert decl).levels_ = s.levels_ ∧
      (s.insert decl).shadows_ = s.shadows_ ∧
      (s.insert decl).depth_ = s.depth_) ∧
    ((¬ ∃ other, s.symbol2decl_ decl.symbol = some other ∧ s.depth_ other = s.depth) →
      (s.insert decl).errors_ = s.errors_ ∧
      (s.insert decl).shadows_ decl = s.symbol2decl_ decl.symbol ∧
      (s.insert decl).depth_ decl = s.depth ∧
      (s.insert decl).symbol2decl_ decl.symbol = some decl ∧
      (s.insert decl).decl_stack_ = s.decl_stack_ ++ [decl] ∧
      (s.insert decl).levels_ = s.levels_ ∧
      (∀ sym, sym ≠ decl.symbol → (s.insert decl).symbol2decl_ sym = s.symbol2decl_ sym)) := by
  constructor
  · rintro ⟨other, h1, h2⟩
    have hc : s.clash decl.symbol = some other := by simp [clash, h1, h2]
    simp [insert, hc]
  · intro h
    have hc : s.clash decl.symbol = none := by
      unfold clash
      cases h1 : s.symbol2decl_ decl.symbol with
      | none => rfl
      | some other =>
        have h2 : s.depth_ other ≠ s.depth := fun h2 => h ⟨other, h1, h2⟩
        simp [h2]
    simp only [insert, hc, Function.update_same, true_and]
    intro sym hs
    rw [Function.update_noteq hs]

/-! ### Closing a scope restores the table -/

theorem restore_eq (shadows : Decl → Option Decl) (m0 : Symbol → Option Decl) :
    ∀ (seg : List Decl) (m : Symbol → Option Decl),
      (∀ d ∈ seg, shadows d = m0 d.symbol) → ∀ sym,
        restore shadows seg m sym = if (∃ d ∈ seg, d.symbol = sym) then m0 sym else m sym
  | [], m, _, sym => by simp [restore]
  | d :: seg, m, h, sym => by
    have ih := restore_eq shadows m0 seg (Function.update m d.symbol (shadows d))
      (fun x hx => h x (List.mem_cons_of_mem _ hx)) sym
    rw [restore, ih]
    by_cases h1 : ∃ x ∈ seg, x.symbol = sym
    · have h2 : ∃ x ∈ d :: seg, x.symbol = sym := by
        obtain ⟨x, hx, hs⟩ := h1
        exact ⟨x, List.mem_cons_of_mem _ hx, hs⟩
      simp only [h1, h2, if_true]
    · by_cases h3 : d.symbol = sym
      · have h2 : ∃ x ∈ d :: seg, x.symbol = sym := ⟨d, List.mem_cons_self _ _, h3⟩
        simp only [h1, h2, if_true, if_false]
        rw [← h3, Function.update_same, h d (List.mem_cons_self _ _)]
      · have h2 : ¬ ∃ x ∈ d :: seg, x.symbol = sym := by
          rintro ⟨x, hx, hs⟩
          rcases List.mem_cons.1 hx with e | e
          · exact h3 (e ▸ hs)
          · exact h1 ⟨x, e, hs⟩
        simp only [h1, h2, if_false]
        rw [Function.update_noteq (Ne.symm h3)]

/-- Closing a scope whose invariant holds gives back the map, the stack and
the levels of the moment it was opened. -/
theorem pop_scope_of_inv {m0 : Symbol → Option Decl} {stk0 : List Decl} {lv0 : List Nat}
    {seg : List Decl} {s : NameSema} (h : ScopeInv m0 stk0 (lv0 ++ [stk0.length]) seg s) :
    ∃ s1, s.pop_scope = some s1 ∧ s1.symbol2decl_ = m0 ∧ s1.decl_stack_ = stk0 ∧
      s1.levels_ = lv0 ∧ s1.shadows_ = s.shadows_ ∧ s1.depth_ = s.depth_ := by
  refine ⟨{ s with
      symbol2decl_ := restore s.shadows_ (s.decl_stack_.drop stk0.length) s.symbol2decl_
      decl_stack_ := s.decl_stack_.take stk0.length
      levels_ := lv0 }, ?_, ?_, ?_, rfl, rfl, rfl⟩
  · unfold pop_scope
    rw [h.levels]
    simp
  · funext sym
    simp only [h.stack, List.drop_left]
    rw [restore_eq s.shadows_ m0 seg s.symbol2decl_ (fun d hd => (h.decls d hd).2.1) sym]
    split_ifs with hc
    · rfl
    · exact h.others sym (fun d hd hs => hc ⟨d, hd, hs⟩)
  · simp [h.stack]

theorem scopeInv_insert {m0 : Symbol → Option Decl} {stk0 : List Decl} {lv : List Nat}
    {seg : List Decl} {s : NameSema} (h : ScopeInv m0 stk0 lv seg s) (d : Decl)
    (hd : d ∉ seg) :
    ∃ seg1, ScopeInv m0 stk0 lv seg1 (s.insert d) ∧ (∀ x ∈ seg1, x ∈ seg ∨ x = d) ∧
      (∀ x, x ≠ d → (s.insert d).shadows_ x = s.shadows_ x ∧
        (s.insert d).depth_ x = s.depth_ x) := by
  unfold insert
  cases hc : s.clash d.symbol with
  | some other =>
    exact ⟨seg, ⟨h.stack, h.levels, h.decls, h.others⟩, fun x hx => Or.inl hx,
      fun x _ => ⟨rfl, rfl⟩⟩
  | none =>
    have hsym : ∀ x ∈ seg, x.symbol ≠ d.symbol := by
      intro x hx e
      obtain ⟨h1, _, h3⟩ := h.decls x hx
      have : s.clash d.symbol = some x := by
        rw [← e]
        simp [clash, h3, h1, depth, h.levels]
      rw [this] at hc
      cases hc
    refine ⟨seg ++ [d], ⟨?_, h.levels, ?_, ?_⟩, ?_, ?_⟩
    · simp [h.stack]
    · intro x hx
      rcases List.mem_append.1 hx with hx | hx
      · have hne : x ≠ d := fun e => hd (e ▸ hx)
        obtain ⟨h1, h2, h3⟩ := h.decls x hx
        simp only [Function.update_noteq hne, Function.update_noteq (hsym x hx)]
        exact ⟨h1, h2, h3⟩
      · rw [List.mem_singleton] at hx
        subst hx
        simp only [Function.update_same, depth, h.levels, true_and, and_true]
        exact h.others x.symbol (fun y hy => hsym y hy)
    · intro sym hs
      have hne : sym ≠ d.symbol := fun e => hs d (by simp) e.symm
      simp only [Function.update_noteq hne]
      exact h.others sym (fun y hy => hs y (List.mem_append_left _ hy))
    · intro x hx
      rcases List.mem_append.1 hx with hx | hx
      · exact Or.inl hx
      · exact Or.inr (List.mem_singleton.1 hx)
    · intro x hx
      simp only [Function.update_noteq hx, and_self]

mutual
theorem run_op_inv : ∀ (op : ScopeOp) (m0 : Symbol → Option Decl) (stk0 : List Decl)
    (lv : List Nat) (seg : List Decl) (s : NameSema), ScopeInv m0 stk0 lv seg s →
    (decls_of op).Nodup → (∀ d ∈ decls_of op, d ∉ seg) →
    ∃ s1 seg1, run_op op s = some s1 ∧ ScopeInv m0 stk0 lv seg1 s1 ∧
      (∀ x ∈ seg1, x ∈ seg ∨ x ∈ decls_of op) ∧
      (∀ x, x ∉ decls_of op → s1.shadows_ x = s.shadows_ x ∧ s1.depth_ x = s.depth_ x)
  | ScopeOp.insert d, m0, stk0, lv, seg, s, h, _, hdis => by
    obtain ⟨seg1, h1, h2, h3⟩ := scopeInv_insert h d (hdis d (by simp [decls_of]))
    refine ⟨s.insert d, seg1, rfl, h1, ?_, ?_⟩
    · intro x hx
      rcases h2 x hx with e | e
      · exact Or.inl e
      · exact Or.inr (by simp [decls_of, e])
    · intro x hx
      exact h3 x (by simpa [decls_of] using hx)
  | ScopeOp.scope body, m0, stk0, lv, seg, s, h, hnd, hdis => by
    have h0 : ScopeInv s.symbol2decl_ s.decl_stack_ (s.levels_ ++ [s.decl_stack_.length]) []
        s.push_scope :=
      ⟨by simp [push_scope], by simp [push_scope], by simp, fun sym _ => rfl⟩
    obtain ⟨s1, seg1, hr, hinv, _, hfr⟩ := run_ops_inv body s.symbol2decl_ s.decl_stack_
      (s.levels_ ++ [s.decl_stack_.length]) [] s.push_scope h0
      (by simpa [decls_of] using hnd) (by simp)
    obtain ⟨s2, hp, hm, hst, hl, hsh, hdp⟩ := pop_scope_of_inv hinv
    refine ⟨s2, seg, by simp [run_op, hr, hp], ⟨?_, ?_, ?_, ?_⟩, fun x hx => Or.inl hx, ?_⟩
    · rw [hst]; exact h.stack
    · rw [hl]; exact h.levels
    · intro d hd
      have hnot : d ∉ decls_of_ops body := fun hin => hdis d (by simpa [decls_of] using hin) hd
      obtain ⟨f1, f2⟩ := hfr d hnot
      rw [hsh, hdp, hm, f1, f2]
      exact h.decls d hd
    · intro sym hs
      rw [hm]
      exact h.others sym hs
    · intro x hx
      have hnot : x ∉ decls_of_ops body := by simpa [decls_of] using hx
      rw [hsh, hdp]
      exact hfr x hnot
theorem run_ops_inv : ∀ (ops : List ScopeOp) (m0 : Symbol → Option Decl) (stk0 : List Decl)
    (lv : List Nat) (seg : List Decl) (s : NameSema), ScopeInv m0 stk0 lv seg s →
    (decls_of_ops ops).Nodup → (∀ d ∈ decls_of_ops ops, d ∉ seg) →
    ∃ s1 seg1, run_ops ops s = some s1 ∧ ScopeInv m0 stk0 lv seg1 s1 ∧
      (∀ x ∈ seg1, x ∈ seg ∨ x ∈ decls_of_ops ops) ∧
      (∀ x, x ∉ decls_of_ops ops → s1.shadows_ x = s.shadows_ x ∧ s1.depth_ x = s.depth_ x)
  | [], m0, stk0, lv, seg, s, h, _, _ =>
    ⟨s, seg, rfl, h, fun x hx => Or.inl hx, fun _ _ => ⟨rfl, rfl⟩⟩
  | op :: ops, m0, stk0, lv, seg, s, h, hnd, hdis => by
    simp only [decls_of_ops] at hnd hdis
    obtain ⟨hn1, hn2, hn3⟩ := List.nodup_append.1 hnd
    obtain ⟨s1, seg1, hr1, hinv1, hsub1, hfr1⟩ := run_op_inv op m0 stk0 lv seg s h hn1
      (fun d hd => hdis d (List.mem_append_left _ hd))
    have hdis2 : ∀ d ∈ decls_of_ops ops, d ∉ seg1 := by
      intro d hd hin
      rcases hsub1 d hin with e | e
      · exact hdis d (List.mem_append_right _ hd) e
      · exact hn3 e hd
    obtain ⟨s2, seg2, hr2, hinv2, hsub2, hfr2⟩ := run_ops_inv ops m0 stk0 lv seg1 s1 hinv1 hn2
      hdis2
    refine ⟨s2, seg2, by simp [run_ops, hr1, hr2], hinv2, ?_, ?_⟩
    · intro x hx
      rcases hsub2 x hx with e | e
      · rcases hsub1 x e with e2 | e2
        · exact Or.inl e2
        · exact Or.inr (by simp [decls_of_ops, e2])
      · exact Or.inr (by simp [decls_of_ops, e])
    · intro x hx
      have hx1 : x ∉ decls_of op := fun hin => hx (by simp [decls_of_ops, hin])
      have hx2 : x ∉ decls_of_ops ops := fun hin => hx (by simp [decls_of_ops, hin])
      obtain ⟨a1, a2⟩ := hfr1 x hx1
      obtain ⟨b1, b2⟩ := hfr2 x hx2
      exact ⟨b1.trans a1, b2.trans a2⟩
end

/-- C17 (counterexample). The claim as stated, for any sequence of inserts and
nested scopes: it fails when the same declaration is inserted in a scope and
again in a scope nested in it. The inner insert makes the declaration shadow
itself, so closing the outer scope maps its symbol to the declaration again
instead of to nothing. -/
theorem scope_restore_counterexample :
    ¬ (∀ (s s1 : NameSema) (body : List ScopeOp),
      run_op (ScopeOp.scope body) s = some s1 →
      s1.symbol2decl_ = s.symbol2decl_ ∧ s1.decl_stack_ = s.decl_stack_ ∧
        s1.levels_ = s.levels_) := by
  intro h
  have hrun : (run_op (ScopeOp.scope [ScopeOp.insert ⟨0, "x", true⟩,
      ScopeOp.scope [ScopeOp.insert ⟨0, "x", true⟩]]) init).map
      (fun s1 => s1.symbol2decl_ "x") = some (some ⟨0, "x", true⟩) := by decide
  cases hr : run_op (ScopeOp.scope [ScopeOp.insert ⟨0, "x", true⟩,
      ScopeOp.scope [ScopeOp.insert ⟨0, "x", true⟩]]) init with
  | none => rw [hr] at hrun; cases hrun
  | some s1 =>
    rw [hr] at hrun
    have h1 := congrFun (h init s1 _ hr).1 "x"
    have hx : s1.symbol2decl_ "x" = some ⟨0, "x", true⟩ := Option.some.inj hrun
    rw [hx] at h1
    cases h1

/-- C17 (amended). For every symbol-table state, after `push_scope`, any
sequence of inserts and balanced nested scopes in which no declaration is
inserted twice, and then `pop_scope`: the run is defined, every symbol is mapped
as immediately before the `push_scope`, and `decl_stack_` and `levels_` have
their contents of before the `push_scope`. -/
theorem scope_restore (s : NameSema) (body : List ScopeOp)
    (hnd : (decls_of_ops body).Nodup) :
    ∃ s1, run_op (ScopeOp.scope body) s = some s1 ∧
      s1.symbol2decl_ = s.symbol2decl_ ∧ s1.decl_stack_ = s.decl_stack_ ∧
      s1.levels_ = s.levels_ := by
  have h0 : ScopeInv s.symbol2decl_ s.decl_stack_ (s.levels_ ++ [s.decl_stack_.length]) []
      s.push_scope :=
    ⟨by simp [push_scope], by simp [push_scope], by simp, fun sym _ => rfl⟩
  obtain ⟨s1, seg1, hr, hinv, _, _⟩ := run_ops_inv body s.symbol2decl_ s.decl_stack_
    (s.levels_ ++ [s.decl_stack_.length]) [] s.push_scope h0 hnd (by simp)
  obtain ⟨s2, hp, hm, hst, hl, _, _⟩ := pop_scope_of_inv hinv
  exact ⟨s2, by simp [run_op, hr, hp], hm, hst, hl⟩

theorem scope_restore_witness :
    (decls_of_ops [ScopeOp.insert ⟨0, "x", true⟩,
        ScopeOp.scope [ScopeOp.insert ⟨1, "x", true⟩], ScopeOp.insert ⟨2, "y", false⟩]).Nodup ∧
      ∃ s1, run_op (ScopeOp.scope [ScopeOp.insert ⟨0, "x", true⟩,
          ScopeOp.scope [ScopeOp.insert ⟨1, "x", true⟩], ScopeOp.insert ⟨2, "y", false⟩])
          (init.insert ⟨3, "x", false⟩) = some s1 ∧
        s1.symbol2decl_ = (init.insert ⟨3, "x", false⟩).symbol2decl_ ∧
        s1.decl_stack_ = (init.insert ⟨3, "x", false⟩).decl_stack_ ∧
        s1.levels_ = (init.insert ⟨3, "x", false⟩).levels_ :=
  ⟨by decide, scope_restore (init.insert ⟨3, "x", false⟩) _ (by decide)⟩

/-! ### Lookup is lexical scoping -/

theorem scopeInv_congr {m0 : Symbol → Option Decl} {stk0 : List Decl} {lv : List Nat}
    {seg : List Decl} {s s1 : NameSema} (h : ScopeInv m0 stk0 lv seg s)
    (hm : s1.symbol2decl_ = s.symbol2decl_) (hst : s1.decl_stack_ = s.decl_stack_)
    (hl : s1.levels_ = s.levels_)
    (hf : ∀ d ∈ seg, s1.shadows_ d = s.shadows_ d ∧ s1.depth_ d = s.depth_ d) :
    ScopeInv m0 stk0 lv seg s1 :=
  ⟨by rw [hst]; exact h.stack, by rw [hl]; exact h.levels,
    fun d hd => by rw [(hf d hd).1, (hf d hd).2, hm]; exact h.decls d hd,
    fun sym hs => by rw [hm]; exact h.others sym hs⟩

theorem sim_congr : ∀ (outer : List (List Decl)) (scope : List Decl) (s s1 : NameSema),
    Sim scope outer s → s1.symbol2decl_ = s.symbol2decl_ → s1.decl_stack_ = s.decl_stack_ →
    s1.levels_ = s.levels_ →
    (∀ d, d ∈ scope ++ live outer → s1.shadows_ d = s.shadows_ d ∧ s1.depth_ d = s.depth_ d) →
    Sim scope outer s1
  | [], scope, s, s1, h, hm, hst, hl, hf => by
    simp only [Sim] at h ⊢
    exact scopeInv_congr h hm hst hl
      (fun d hd => hf d (List.mem_append_left _ (List.mem_reverse.1 hd)))
  | o :: outer, scope, s, s1, h, hm, hst, hl, hf => by
    simp only [Sim] at h ⊢
    obtain ⟨m0, stk0, lv0, h1, h2⟩ := h
    refine ⟨m0, stk0, lv0, scopeInv_congr h1 hm hst hl
      (fun d hd => hf d (List.mem_append_left _ (List.mem_reverse.1 hd))), ?_⟩
    exact sim_congr outer o _ _ h2 rfl rfl rfl
      (fun d hd => hf d (List.mem_append_right _ (by simpa [live] using hd)))

theorem scopeInv_find {m0 : Symbol → Option Decl} {stk0 : List Decl} {lv : List Nat}
    {seg : List Decl} {s : NameSema} (h : ScopeInv m0 stk0 lv seg s) (scope : List Decl)
    (hmem : ∀ d, d ∈ scope → d ∈ seg) (hmem2 : ∀ d, d ∈ seg → d ∈ scope) (sym : Symbol) :
    s.symbol2decl_ sym =
      (scope.find? (fun x => decide (x.symbol = sym))).or (m0 sym) := by
  cases hf : scope.find? (fun x => decide (x.symbol = sym)) with
  | none =>
    rw [List.find?_eq_none] at hf
    show s.symbol2decl_ sym = m0 sym
    exact h.others sym (fun d hd => by simpa using hf d (hmem2 d hd))
  | some d =>
    have hp := List.find?_some hf
    have hin := List.mem_of_find?_eq_some hf
    simp only [decide_eq_true_eq] at hp
    show s.symbol2decl_ sym = some d
    rw [← hp]
    exact (h.decls d (hmem d hin)).2.2

theorem sim_lookup : ∀ (outer : List (List Decl)) (scope : List Decl) (s : NameSema),
    Sim scope outer s → ∀ sym, s.symbol2decl_ sym = lexical_lookup (scope :: outer) sym
  | [], scope, s, h, sym => by
    simp only [Sim] at h
    rw [scopeInv_find h scope (fun d hd => List.mem_reverse.2 hd)
      (fun d hd => List.mem_reverse.1 hd) sym]
    simp [lexical_lookup, live]
  | o :: outer, scope, s, h, sym => by
    simp only [Sim] at h
    obtain ⟨m0, stk0, lv0, h1, h2⟩ := h
    rw [scopeInv_find h1 scope (fun d hd => List.mem_reverse.2 hd)
      (fun d hd => List.mem_reverse.1 hd) sym]
    have ih := sim_lookup outer o _ h2 sym
    simp only [lexical_lookup] at ih ⊢
    rw [show live (scope :: o :: outer) = scope ++ live (o :: outer) from rfl,
      List.find?_append]
    exact congrArg _ ih

theorem sim_depth : ∀ (outer : List (List Decl)) (scope : List Decl) (s : NameSema),
    Sim scope outer s → ∀ d ∈ scope ++ live outer, s.depth_ d ≤ s.levels_.length
  | [], scope, s, h, d, hd => by
    simp only [Sim] at h
    have hd1 : d ∈ scope := by simpa [live] using hd
    rw [(h.decls d (List.mem_reverse.2 hd1)).1, h.levels]
  | o :: outer, scope, s, h, d, hd => by
    simp only [Sim] at h
    obtain ⟨m0, stk0, lv0, h1, h2⟩ := h
    rcases List.mem_append.1 hd with hd1 | hd1
    · rw [(h1.decls d (List.mem_reverse.2 hd1)).1, h1.levels]
    · have := sim_depth outer o _ h2 d (by simpa [live] using hd1)
      rw [h1.levels]
      simp only [List.length_append, List.length_singleton]
      exact Nat.le_succ_of_le this

theorem scopeInv_insert_fresh {m0 : Symbol → Option Decl} {stk0 : List Decl} {lv : List Nat}
    {seg : List Decl} {s : NameSema} (h : ScopeInv m0 stk0 lv seg s) (d : Decl)
    (hd : d ∉ seg) (hc : s.clash d.symbol = none) :
    ScopeInv m0 stk0 lv (seg ++ [d]) (s.insert d) ∧ ∀ x ∈ seg, x.symbol ≠ d.symbol := by
  have hsym : ∀ x ∈ seg, x.symbol ≠ d.symbol := by
    intro x hx e
    obtain ⟨h1, _, h3⟩ := h.decls x hx
    have : s.clash d.symbol = some x := by
      rw [← e]
      simp [clash, h3, h1, depth, h.levels]
    rw [this] at hc
    cases hc
  refine ⟨?_, hsym⟩
  unfold insert
  rw [hc]
  refine ⟨?_, h.levels, ?_, ?_⟩
  · simp [h.stack]
  · intro x hx
    rcases List.mem_append.1 hx with hx | hx
    · have hne : x ≠ d := fun e => hd (e ▸ hx)
      obtain ⟨h1, h2, h3⟩ := h.decls x hx
      simp only [Function.update_noteq hne, Function.update_noteq (hsym x hx)]
      exact ⟨h1, h2, h3⟩
    · rw [List.mem_singleton] at hx
      subst hx
      simp only [Function.update_same, depth, h.levels, true_and, and_true]
      exact h.others x.symbol (fun y hy => hsym y hy)
  · intro sym hs
    have hne : sym ≠ d.symbol := fun e => hs d (by simp) e.symm
    simp only [Function.update_noteq hne]
    exact h.others sym (fun y hy => hs y (List.mem_append_left _ hy))

theorem insert_of_clash {s : NameSema} {d other : Decl} (hc : s.clash d.symbol = some other) :
    (s.insert d).symbol2decl_ = s.symbol2decl_ ∧ (s.insert d).decl_stack_ = s.decl_stack_ ∧
      (s.insert d).levels_ = s.levels_ ∧ (s.insert d).shadows_ = s.shadows_ ∧
      (s.insert d).depth_ = s.depth_ := by
  simp [insert, hc]

/-- In the table that implements `scope :: outer`, a symbol clashes exactly
when the innermost scope declares it. -/
theorem sim_clash : ∀ (outer : List (List Decl)) (scope : List Decl) (s : NameSema),
    Sim scope outer s → ∀ sym, (∀ x ∈ scope, x.symbol ≠ sym) → s.clash sym = none
  | [], scope, s, h, sym, hs => by
    simp only [Sim] at h
    have := h.others sym (fun x hx => hs x (List.mem_reverse.1 hx))
    simp [clash, this]
  | o :: outer, scope, s, h, sym, hs => by
    simp only [Sim] at h
    obtain ⟨m0, stk0, lv0, h1, h2⟩ := h
    have hm := h1.others sym (fun x hx => hs x (List.mem_reverse.1 hx))
    unfold clash
    rw [hm]
    cases hm0 : m0 sym with
    | none => rfl
    | some other =>
      have hl := sim_lookup outer o _ h2 sym
      have hl2 : lexical_lookup (o :: outer) sym = some other := hl.symm.trans hm0
      have hin : other ∈ o ++ live outer := List.mem_of_find?_eq_some hl2
      have hdep := sim_depth outer o _ h2 other hin
      have hdep2 : s.depth_ other ≤ lv0.length := hdep
      have hne : s.depth_ other ≠ s.depth := by
        rw [depth, h1.levels]
        simp only [List.length_append, List.length_singleton]
        omega
      simp [hne]

theorem sim_insert (outer : List (List Decl)) (scope : List Decl) (s : NameSema)
    (h : Sim scope outer s) (d : Decl) (hd : d ∉ scope ++ live outer) :
    Sim (if scope.any (fun x => decide (x.symbol = d.symbol)) then scope else d :: scope)
      outer (s.insert d) := by
  have hd1 : d ∉ scope := fun hin => hd (List.mem_append_left _ hin)
  cases hc : s.clash d.symbol with
  | some other =>
    obtain ⟨e1, e2, e3, e4, e5⟩ := insert_of_clash hc
    have hany : scope.any (fun x => decide (x.symbol = d.symbol)) = true := by
      by_contra hn
      have hall : ∀ x ∈ scope, x.symbol ≠ d.symbol := by
        intro x hx e
        exact hn (List.any_eq_true.2 ⟨x, hx, by simpa using e⟩)
      rw [sim_clash outer scope s h d.symbol hall] at hc
      cases hc
    rw [hany, if_pos rfl]
    exact sim_congr outer scope s _ h e1 e2 e3 (fun x _ => by rw [e4, e5]; exact ⟨rfl, rfl⟩)
  | none =>
    cases outer with
    | nil =>
      simp only [Sim] at h
      obtain ⟨hi, hsym⟩ := scopeInv_insert_fresh h d (fun hin => hd1 (List.mem_reverse.1 hin)) hc
      have hany : scope.any (fun x => decide (x.symbol = d.symbol)) = false := by
        rw [Bool.eq_false_iff]
        intro ht
        obtain ⟨x, hx, hp⟩ := List.any_eq_true.1 ht
        exact hsym x (List.mem_reverse.2 hx) (by simpa using hp)
      rw [hany]
      simp only [Bool.false_eq_true, if_false, Sim, List.reverse_cons]
      exact hi
    | cons o outer =>
      simp only [Sim] at h
      obtain ⟨m0, stk0, lv0, h1, h2⟩ := h
      obtain ⟨hi, hsym⟩ := scopeInv_insert_fresh h1 d (fun hin => hd1 (List.mem_reverse.1 hin))
        hc
      have hany : scope.any (fun x => decide (x.symbol = d.symbol)) = false := by
        rw [Bool.eq_false_iff]
        intro ht
        obtain ⟨x, hx, hp⟩ := List.any_eq_true.1 ht
        exact hsym x (List.mem_reverse.2 hx) (by simpa using hp)
      rw [hany]
      simp only [Bool.false_eq_true, if_false, Sim, List.reverse_cons]
      refine ⟨m0, stk0, lv0, hi, ?_⟩
      refine sim_congr outer o _ _ h2 rfl rfl rfl ?_
      intro x hx
      have hne : x ≠ d := by
        intro e
        exact hd (List.mem_append_right _ (by simpa [live, e] using hx))
      simp only [insert, hc, Function.update_noteq hne, and_self]

theorem sim_step (op : TableOp) (outer : List (List Decl)) (scope : List Decl) (s : NameSema)
    (h : Sim scope outer s) (hd : ∀ d ∈ inserted [op], d ∉ scope ++ live outer) :
    (∀ sc1, lexical_step op (scope :: outer) = some sc1 →
      ∃ scope1 outer1 s1, sc1 = scope1 :: outer1 ∧ run_table_op op s = some s1 ∧
        Sim scope1 outer1 s1 ∧
        ∀ x ∈ scope1 ++ live outer1, x ∈ scope ++ live outer ∨ x ∈ inserted [op]) ∧
    (lexical_step op (scope :: outer) = none → run_table_op op s = none) := by
  cases op with
  | push_scope =>
    refine ⟨?_, by simp [lexical_step]⟩
    intro sc1 hsc
    simp only [lexical_step, Option.some.injEq] at hsc
    subst hsc
    refine ⟨[], scope :: outer, s.push_scope, rfl, rfl, ?_, ?_⟩
    · simp only [Sim]
      refine ⟨s.symbol2decl_, s.decl_stack_, s.levels_,
        ⟨by simp [push_scope], by simp [push_scope], by simp, fun sym _ => rfl⟩, ?_⟩
      exact sim_congr outer scope s _ h rfl rfl rfl (fun _ _ => ⟨rfl, rfl⟩)
    · intro x hx
      exact Or.inl (by simpa [live] using hx)
  | insert d =>
    refine ⟨?_, by simp [lexical_step]⟩
    intro sc1 hsc
    simp only [lexical_step, Option.some.injEq] at hsc
    subst hsc
    refine ⟨_, outer, s.insert d, rfl, rfl,
      sim_insert outer scope s h d (hd d (by simp [inserted])), ?_⟩
    intro x hx
    rcases List.mem_append.1 hx with hx1 | hx1
    · by_cases hany : scope.any (fun x => decide (x.symbol = d.symbol)) = true
      · rw [if_pos hany] at hx1
        exact Or.inl (List.mem_append_left _ hx1)
      · rw [if_neg hany] at hx1
        rcases List.mem_cons.1 hx1 with e | e
        · exact Or.inr (by simp [inserted, e])
        · exact Or.inl (List.mem_append_left _ e)
    · exact Or.inl (List.mem_append_right _ hx1)
  | pop_scope =>
    cases outer with
    | nil =>
      refine ⟨by simp [lexical_step], ?_⟩
      intro _
      simp only [Sim] at h
      simp [run_table_op, pop_scope, h.levels]
    | cons o outer =>
      refine ⟨?_, by simp [lexical_step]⟩
      intro sc1 hsc
      simp only [lexical_step, Option.some.injEq] at hsc
      subst hsc
      simp only [Sim] at h
      obtain ⟨m0, stk0, lv0, h1, h2⟩ := h
      obtain ⟨s1, hp, hm, hst, hl, hsh, hdp⟩ := pop_scope_of_inv h1
      refine ⟨o, outer, s1, rfl, hp, ?_, ?_⟩
      · exact sim_congr outer o _ s1 h2 hm hst hl (fun x _ => by rw [hsh, hdp]; exact ⟨rfl, rfl⟩)
      · intro x hx
        exact Or.inl (List.mem_append_right _ (by simpa [live] using hx))

theorem inserted_cons (op : TableOp) (ops : List TableOp) :
    inserted (op :: ops) = inserted [op] ++ inserted ops := by
  cases op <;> simp [inserted]

theorem sim_run : ∀ (ops : List TableOp) (outer : List (List Decl)) (scope : List Decl)
    (s : NameSema), Sim scope outer s → (inserted ops).Nodup →
    (∀ d ∈ inserted ops, d ∉ scope ++ live outer) →
    (∀ sc1, lexical_run ops (scope :: outer) = some sc1 →
      ∃ scope1 outer1 s1, sc1 = scope1 :: outer1 ∧ run_table ops s = some s1 ∧
        Sim scope1 outer1 s1) ∧
    (lexical_run ops (scope :: outer) = none → run_table ops s = none)
  | [], outer, scope, s, h, _, _ => by
    refine ⟨?_, by simp [lexical_run]⟩
    intro sc1 hsc
    simp only [lexical_run, Option.some.injEq] at hsc
    exact ⟨scope, outer, s, hsc.symm, rfl, h⟩
  | op :: ops, outer, scope, s, h, hnd, hdis => by
    rw [inserted_cons] at hnd hdis
    obtain ⟨_, hn2, hn3⟩ := List.nodup_append.1 hnd
    obtain ⟨st1, st2⟩ := sim_step op outer scope s h
      (fun d hd => hdis d (List.mem_append_left _ hd))
    cases hl : lexical_step op (scope :: outer) with
    | none =>
      have hr := st2 hl
      refine ⟨by simp [lexical_run, hl], fun _ => by simp [run_table, hr]⟩
    | some sc0 =>
      obtain ⟨scope1, outer1, s1, e, hr, hsim, hsub⟩ := st1 sc0 hl
      subst e
      have hdis2 : ∀ d ∈ inserted ops, d ∉ scope1 ++ live outer1 := by
        intro d hd hin
        rcases hsub d hin with e | e
        · exact hdis d (List.mem_append_right _ hd) e
        · exact hn3 e hd
      obtain ⟨r1, r2⟩ := sim_run ops outer1 scope1 s1 hsim hn2 hdis2
      simp only [lexical_run, hl, run_table, hr]
      exact ⟨r1, r2⟩

/-- C20 (counterexample). After `push_scope`, `insert(d)`, `push_scope`,
`insert(d)`, `pop_scope`, `pop_scope`, with both inserts successful, no
declaration is in an open scope, but `lookup` of the symbol of `d` returns `d`. -/
theorem lookup_lexical_counterexample :
    ¬ (∀ (ops : List TableOp) (scopes : List (List Decl)) (s : NameSema) (sym : Symbol),
      lexical_run ops [[]] = some scopes → run_table ops init = some s →
      (s.lookup sym).1 = lexical_lookup scopes sym) := by
  intro h
  have hrun : (run_table [TableOp.push_scope, TableOp.insert ⟨0, "x", true⟩,
      TableOp.push_scope, TableOp.insert ⟨0, "x", true⟩, TableOp.pop_scope,
      TableOp.pop_scope] init).map (fun s1 => (s1.lookup "x").1)
      = some (some ⟨0, "x", true⟩) := by decide
  cases hr : run_table [TableOp.push_scope, TableOp.insert ⟨0, "x", true⟩,
      TableOp.push_scope, TableOp.insert ⟨0, "x", true⟩, TableOp.pop_scope,
      TableOp.pop_scope] init with
  | none => rw [hr] at hrun; cases hrun
  | some s1 =>
    rw [hr] at hrun
    have hx : (s1.lookup "x").1 = some ⟨0, "x", true⟩ := Option.some.inj hrun
    have h1 := h _ [[]] s1 "x" (by decide) hr
    rw [hx] at h1
    revert h1
    decide

/-- C20 (amended). After any sequence of `push_scope`, `insert` and `pop_scope`
operations on the empty table in which no declaration is inserted twice, the
table is defined exactly when lexical scoping is (no `pop_scope` without a
scope to close), and then `lookup(sym)` returns the most recently inserted
declaration with the symbol whose scope has not been popped, without an error
and without a change of the table; when there is no such declaration it
returns null and emits the "not found in current scope" error. -/
theorem lookup_lexical (ops : List TableOp) (hnd : (inserted ops).Nodup) :
    (∀ scopes, lexical_run ops [[]] = some scopes →
      ∃ s, run_table ops init = some s ∧ ∀ sym,
        s.lookup sym =
          match lexical_lookup scopes sym with
          | some decl => (some decl, s)
          | none => (none, { s with errors_ := s.errors_ ++ [NameError.not_found sym] })) ∧
    (lexical_run ops [[]] = none → run_table ops init = none) := by
  have h0 : Sim [] [] init := ⟨rfl, rfl, by simp, fun _ _ => rfl⟩
  obtain ⟨r1, r2⟩ := sim_run ops [] [] init h0 hnd (by simp [live])
  refine ⟨?_, r2⟩
  intro scopes hsc
  obtain ⟨scope1, outer1, s1, e, hr, hsim⟩ := r1 scopes hsc
  subst e
  refine ⟨s1, hr, ?_⟩
  intro sym
  have hl := sim_lookup outer1 scope1 s1 hsim sym
  unfold lookup
  rw [hl]
  cases lexical_lookup (scope1 :: outer1) sym <;> rfl

theorem lookup_lexical_witness :
    (inserted [TableOp.insert ⟨0, "x", true⟩, TableOp.push_scope,
        TableOp.insert ⟨1, "x", true⟩, TableOp.insert ⟨2, "x", false⟩,
        TableOp.pop_scope]).Nodup ∧
    ((∀ scopes, lexical_run [TableOp.insert ⟨0, "x", true⟩, TableOp.push_scope,
        TableOp.insert ⟨1, "x", true⟩, TableOp.insert ⟨2, "x", false⟩,
        TableOp.pop_scope] [[]] = some scopes →
      ∃ s, run_table [TableOp.insert ⟨0, "x", true⟩, TableOp.push_scope,
        TableOp.insert ⟨1, "x", true⟩, TableOp.insert ⟨2, "x", false⟩,
        TableOp.pop_scope] init = some s ∧ ∀ sym,
        s.lookup sym =
          match lexical_lookup scopes sym with
          | some decl => (some decl, s)
          | none => (none, { s with errors_ := s.errors_ ++ [NameError.not_found sym] })) ∧
    (lexical_run [TableOp.insert ⟨0, "x", true⟩, TableOp.push_scope,
        TableOp.insert ⟨1, "x", true⟩, TableOp.insert ⟨2, "x", false⟩,
        TableOp.pop_scope] [[]] = none →
      run_table [TableOp.insert ⟨0, "x", true⟩, TableOp.push_scope,
        TableOp.insert ⟨1, "x", true⟩, TableOp.insert ⟨2, "x", false⟩,
        TableOp.pop_scope] init = none)) :=
  ⟨by decide, lookup_lexical _ (by decide)⟩

end NameSema

namespace AST

/-! ### The traversal of name resolution is balanced -/

theorem good_refl (s : NameSema) : Good (some s) s := ⟨s, [], rfl, rfl, by simp⟩

theorem good_trans {r : Option NameSema} {s s1 : NameSema} (h1 : Good (some s1) s)
    (h2 : Good r s1) : Good r s := by
  obtain ⟨a, seg1, e1, l1, k1⟩ := h1
  obtain ⟨b, seg2, e2, l2, k2⟩ := h2
  cases e1
  exact ⟨b, seg1 ++ seg2, e2, l2.trans l1, by rw [k2, k1, List.append_assoc]⟩

theorem good_bind {r : Option NameSema} {s : NameSema} {g : NameSema → Option NameSema}
    (h : Good r s) (hg : ∀ s1, Good (g s1) s1) : Good (r.bind g) s := by
  obtain ⟨a, seg1, e1, l1, k1⟩ := h
  subst e1
  exact good_trans ⟨a, seg1, rfl, l1, k1⟩ (hg a)

theorem good_insert (s : NameSema) (d : Decl) : Good (some (s.insert d)) s := by
  unfold NameSema.insert
  cases s.clash d.symbol with
  | none => exact ⟨_, [d], rfl, rfl, rfl⟩
  | some other => exact ⟨_, [], rfl, rfl, by simp⟩

theorem good_lookup (s : NameSema) (sym : Symbol) : Good (some (s.lookup sym).2) s := by
  unfold NameSema.lookup
  cases s.symbol2decl_ sym <;> exact ⟨_, [], rfl, rfl, by simp⟩

/-- A scope: what runs between `push_scope` and `pop_scope` returns, and
`pop_scope` gives back the levels and the stack of before the `push_scope`. -/
theorem scope_exact {r : Option NameSema} {s : NameSema} (h : Good r s.push_scope) :
    ∃ s1, r.bind NameSema.pop_scope = some s1 ∧ s1.levels_ = s.levels_ ∧
      s1.decl_stack_ = s.decl_stack_ := by
  obtain ⟨a, seg, e, l, k⟩ := h
  subst e
  have hl : a.levels_ = s.levels_ ++ [s.decl_stack_.length] := l
  have hk : a.decl_stack_ = s.decl_stack_ ++ seg := k
  refine ⟨{ a with
      symbol2decl_ := NameSema.restore a.shadows_ (a.decl_stack_.drop s.decl_stack_.length)
        a.symbol2decl_
      decl_stack_ := a.decl_stack_.take s.decl_stack_.length
      levels_ := a.levels_.dropLast }, ?_, ?_, ?_⟩
  · show a.pop_scope = _
    unfold NameSema.pop_scope
    rw [hl]
    simp
  · simp [hl]
  · simp [hk]

theorem good_scope {r : Option NameSema} {s : NameSema} (h : Good r s.push_scope) :
    Good (r.bind NameSema.pop_scope) s := by
  obtain ⟨s1, e, l, k⟩ := scope_exact h
  exact ⟨s1, [], e, l, by simp [k]⟩

theorem good_insert_type_params : ∀ (tps : List TypeParam) (s : NameSema),
    Good (some (insert_type_params tps s)) s
  | [], s => good_refl s
  | tp :: rest, s => good_trans (good_insert s tp.decl) (good_insert_type_params rest _)

mutual
theorem ast_type_check_good : ∀ (t : ASTType) (s : NameSema), Good (t.check s) s
  | ASTType.error_ast_type, s => by simp only [ASTType.check]; exact good_refl s
  | ASTType.prim_ast_type, s => by simp only [ASTType.check]; exact good_refl s
  | ASTType.ptr_ast_type t, s => by simp only [ASTType.check]; exact ast_type_check_good t s
  | ASTType.indefinite_array_ast_type t, s => by
    simp only [ASTType.check]; exact ast_type_check_good t s
  | ASTType.definite_array_ast_type t, s => by
    simp only [ASTType.check]; exact ast_type_check_good t s
  | ASTType.tuple_ast_type elems, s => by
    simp only [ASTType.check]; exact check_ast_types_good elems s
  | ASTType.ast_type_app symbol elems, s => by
    simp only [ASTType.check]
    exact good_trans (good_lookup s symbol) (check_ast_types_good elems _)
  | ASTType.fn_ast_type tps elems, s => by
    simp only [ASTType.check]
    exact good_scope (good_bind
      (good_trans (good_insert_type_params tps _) (check_bounds_good tps _))
      (check_ast_types_good elems))
theorem check_ast_types_good : ∀ (ts : List ASTType) (s : NameSema),
    Good (check_ast_types ts s) s
  | [], s => by simp only [check_ast_types]; exact good_refl s
  | t :: rest, s => by
    simp only [check_ast_types]
    exact good_bind (ast_type_check_good t s) (check_ast_types_good rest)
theorem check_bounds_good : ∀ (tps : List TypeParam) (s : NameSema),
    Good (check_bounds tps s) s
  | [], s => by simp only [check_bounds]; exact good_refl s
  | TypeParam.mk _ bounds :: rest, s => by
    simp only [check_bounds]
    exact good_bind (check_ast_types_good bounds s) (check_bounds_good rest)
end

theorem check_type_params_good (tps : List TypeParam) (s : NameSema) :
    Good (check_type_params tps s) s :=
  good_trans (good_insert_type_params tps s) (check_bounds_good tps _)

theorem check_opt_ast_type_good : ∀ (t : Option ASTType) (s : NameSema),
    Good (check_opt_ast_type t s) s
  | none, s => good_refl s
  | some t, s => ast_type_check_good t s

theorem value_decl_check_good (d : ValueDecl) (s : NameSema) : Good (d.check s) s :=
  good_bind (check_opt_ast_type_good d.ast_type s) (fun s1 => good_insert s1 d.decl)

theorem field_decl_check_good (d : FieldDecl) (s : NameSema) : Good (d.check s) s :=
  good_bind (ast_type_check_good d.ast_type s) (fun s1 => good_insert s1 d.decl)

theorem check_field_decls_good : ∀ (ds : List FieldDecl) (s : NameSema),
    Good (check_field_decls ds s) s
  | [], s => good_refl s
  | d :: rest, s => good_bind (field_decl_check_good d s) (check_field_decls_good rest)

theorem check_params_good : ∀ (ps : List ValueDecl) (i : Nat) (s : NameSema),
    Good (check_params ps i s) s
  | [], _, s => good_refl s
  | p :: rest, i, s =>
    good_bind (good_trans (good_insert s _) (check_opt_ast_type_good p.ast_type _))
      (check_params_good rest (i + 1))

theorem check_path_good : ∀ (path : List Symbol) (s : NameSema),
    Good (some (check_path path s).2) s
  | [], s => good_refl s
  | [symbol], s => good_lookup s symbol
  | symbol :: s2 :: rest, s => by
    simp only [check_path]
    exact good_trans (good_lookup s symbol) (check_path_good (s2 :: rest) _)

theorem check_path_expr_good (path : List Symbol) (s : NameSema) :
    Good (some (check_path_expr path s)) s := by
  have h := check_path_good path s
  unfold check_path_expr
  rcases hp : check_path path s with ⟨d, s1⟩
  rw [hp] at h
  cases d with
  | none => exact h
  | some decl =>
    by_cases hv : decl.is_value_decl = true
    · simp only [hv, if_true]; exact h
    · simp only [hv]
      exact good_trans h ⟨_, [], rfl, rfl, by simp⟩

theorem foldl_insert_good : ∀ (ds : List Decl) (s : NameSema),
    Good (some (ds.foldl NameSema.insert s)) s
  | [], s => good_refl s
  | d :: rest, s => good_trans (good_insert s d) (foldl_insert_good rest _)

theorem check_head_good (item : Item) (s : NameSema) : Good (some (check_head item s)) s :=
  foldl_insert_good _ s

theorem check_heads_good : ∀ (items : List Item) (s : NameSema),
    Good (some (check_heads items s)) s
  | [], s => good_refl s
  | item :: rest, s => good_trans (check_head_good item s) (check_heads_good rest _)

theorem check_head_stmts_good : ∀ (stmts : List Stmt) (s : NameSema),
    Good (some (check_head_stmts stmts s)) s
  | [], s => good_refl s
  | Stmt.item_stmt item :: rest, s =>
    good_trans (check_head_good item s) (check_head_stmts_good rest _)
  | Stmt.expr_stmt _ :: rest, s => check_head_stmts_good rest s
  | Stmt.let_stmt _ _ :: rest, s => check_head_stmts_good rest s

mutual
theorem fn_check_good : ∀ (fn : Fn) (s : NameSema), Good (fn.fn_check s) s
  | Fn.mk type_params params body, s => by
    simp only [Fn.fn_check]
    exact good_scope (good_bind (good_bind (check_type_params_good type_params _)
      (check_params_good params 0)) (check_opt_expr_good body))
theorem check_opt_expr_good : ∀ (e : Option Expr) (s : NameSema),
    Good (check_opt_expr e s) s
  | none, s => by simp only [check_opt_expr]; exact good_refl s
  | some e, s => by simp only [check_opt_expr]; exact expr_check_good e s
theorem expr_check_good : ∀ (e : Expr) (s : NameSema), Good (e.check s) s
  | Expr.empty_expr, s => by simp only [Expr.check]; exact good_refl s
  | Expr.literal_expr, s => by simp only [Expr.check]; exact good_refl s
  | Expr.block_expr stmts expr, s => by
    simp only [Expr.check]
    exact good_scope (good_bind
      (good_trans (check_head_stmts_good stmts _) (check_stmts_good stmts _))
      (expr_check_good expr))
  | Expr.fn_expr fn, s => by simp only [Expr.check]; exact fn_check_good fn s
  | Expr.path_expr path, s => by simp only [Expr.check]; exact check_path_expr_good path s
  | Expr.prefix_expr rhs, s => by simp only [Expr.check]; exact expr_check_good rhs s
  | Expr.infix_expr lhs rhs, s => by
    simp only [Expr.check]
    exact good_bind (expr_check_good lhs s) (expr_check_good rhs)
  | Expr.postfix_expr lhs, s => by simp only [Expr.check]; exact expr_check_good lhs s
  | Expr.field_expr lhs, s => by simp only [Expr.check]; exact expr_check_good lhs s
  | Expr.cast_expr lhs ast_type, s => by
    simp only [Expr.check]
    exact good_bind (expr_check_good lhs s) (ast_type_check_good ast_type)
  | Expr.definite_array_expr args, s => by
    simp only [Expr.check]; exact check_exprs_good args s
  | Expr.repeated_definite_array_expr value count, s => by
    simp only [Expr.check]
    exact good_bind (expr_check_good value s) (expr_check_good count)
  | Expr.indefinite_array_expr dim elem_type, s => by
    simp only [Expr.check]
    exact good_bind (expr_check_good dim s) (ast_type_check_good elem_type)
  | Expr.tuple_expr args, s => by simp only [Expr.check]; exact check_exprs_good args s
  | Expr.struct_expr path elems, s => by
    simp only [Expr.check]
    exact good_trans (check_path_good path s) (check_exprs_good elems _)
  | Expr.map_expr lhs type_args args, s => by
    simp only [Expr.check]
    exact good_bind (good_bind (expr_check_good lhs s) (check_ast_types_good type_args))
      (check_exprs_good args)
  | Expr.if_expr cond then_expr else_expr, s => by
    simp only [Expr.check]
    exact good_bind (good_bind (expr_check_good cond s) (expr_check_good then_expr))
      (expr_check_good else_expr)
  | Expr.for_expr expr break_decl fn_expr, s => by
    simp only [Expr.check]
    exact good_bind (expr_check_good expr s) (fun s1 =>
      good_scope (good_bind (value_decl_check_good break_decl _) (fn_check_good fn_expr)))
theorem check_exprs_good : ∀ (es : List Expr) (s : NameSema), Good (check_exprs es s) s
  | [], s => by simp only [check_exprs]; exact good_refl s
  | e :: rest, s => by
    simp only [check_exprs]
    exact good_bind (expr_check_good e s) (check_exprs_good rest)
theorem stmt_check_good : ∀ (stmt : Stmt) (s : NameSema), Good (stmt.check s) s
  | Stmt.expr_stmt expr, s => by simp only [Stmt.check]; exact expr_check_good expr s
  | Stmt.item_stmt item, s => by simp only [Stmt.check]; exact item_check_good item s
  | Stmt.let_stmt init local_decl, s => by
    simp only [Stmt.check]
    exact good_bind (check_opt_expr_good init s) (value_decl_check_good local_decl)
theorem check_stmts_good : ∀ (stmts : List Stmt) (s : NameSema),
    Good (check_stmts stmts s) s
  | [], s => by simp only [check_stmts]; exact good_refl s
  | stmt :: rest, s => by
    simp only [check_stmts]
    exact good_bind (stmt_check_good stmt s) (check_stmts_good rest)
theorem item_check_good : ∀ (item : Item) (s : NameSema), Good (item.check_item s) s
  | Item.mod_decl _ mod_contents, s => by
    simp only [Item.check_item]
    exact good_scope (check_opt_mod_contents_good mod_contents _)
  | Item.typedef _, s => by simp only [Item.check_item]; exact good_refl s
  | Item.enum_decl _, s => by simp only [Item.check_item]; exact good_refl s
  | Item.static_item _, s => by simp only [Item.check_item]; exact good_refl s
  | Item.struct_decl _ type_params field_decls, s => by
    simp only [Item.check_item]
    exact good_bind (check_type_params_good type_params s) (fun s1 =>
      good_scope (check_field_decls_good field_decls _))
  | Item.fn_decl fn_decl, s => by
    simp only [Item.check_item]; exact fn_decl_check_good fn_decl s
  | Item.extern_block fns, s => by
    simp only [Item.check_item]; exact check_fn_decls_good fns s
  | Item.trait_decl _ self_param type_params super_traits methods, s => by
    simp only [Item.check_item]
    exact good_scope (good_bind (good_bind
      (good_trans (good_insert _ self_param) (check_type_params_good type_params _))
      (check_ast_types_good super_traits)) (check_fn_decls_good methods))
  | Item.impl_item type_params trait type methods, s => by
    simp only [Item.check_item]
    exact good_scope (good_bind (good_bind (good_bind
      (check_type_params_good type_params _) (check_opt_ast_type_good trait))
      (ast_type_check_good type)) (check_fn_decls_good methods))
theorem fn_decl_check_good : ∀ (fn_decl : FnDecl) (s : NameSema), Good (fn_decl.check s) s
  | FnDecl.mk _ fn, s => by simp only [FnDecl.check]; exact fn_check_good fn s
theorem check_fn_decls_good : ∀ (fns : List FnDecl) (s : NameSema),
    Good (check_fn_decls fns s) s
  | [], s => by simp only [check_fn_decls]; exact good_refl s
  | fn_decl :: rest, s => by
    simp only [check_fn_decls]
    exact good_bind (fn_decl_check_good fn_decl s) (check_fn_decls_good rest)
theorem check_opt_mod_contents_good : ∀ (m : Option ModContents) (s : NameSema),
    Good (check_opt_mod_contents m s) s
  | none, s => by simp only [check_opt_mod_contents]; exact good_refl s
  | some m, s => by simp only [check_opt_mod_contents]; exact mod_contents_check_good m s
theorem mod_contents_check_good : ∀ (m : ModContents) (s : NameSema), Good (m.check s) s
  | ModContents.mk items, s => by
    simp only [ModContents.check]
    exact good_trans (check_heads_good items s) (check_items_good items _)
theorem check_items_good : ∀ (items : List Item) (s : NameSema),
    Good (check_items items s) s
  | [], s => by simp only [check_items]; exact good_refl s
  | item :: rest, s => by
    simp only [check_items]
    exact good_bind (item_check_good item s) (check_items_good rest)
end

/-! ### What `name_analysis` leaves behind -/

theorem good_stack_ne {s s1 : NameSema} (h : Good (some s1) s) (hne : s.decl_stack_ ≠ []) :
    s1.decl_stack_ ≠ [] := by
  obtain ⟨a, seg, e, _, k⟩ := h
  cases e
  rw [k]
  simp [hne]

theorem insert_stack_ne (s : NameSema) (d : Decl)
    (h : s.decl_stack_ ≠ [] ∨ ∀ sym, s.symbol2decl_ sym = none) :
    (s.insert d).decl_stack_ ≠ [] := by
  rcases h with h | h
  · exact good_stack_ne (good_insert s d) h
  · have hc : s.clash d.symbol = none := by simp [NameSema.clash, h]
    simp [NameSema.insert, hc]

theorem check_heads_stack_ne : ∀ (items : List Item) (s : NameSema),
    (s.decl_stack_ ≠ [] ∨ ∀ sym, s.symbol2decl_ sym = none) →
    (∃ item ∈ items, heads_of item ≠ []) → (check_heads items s).decl_stack_ ≠ []
  | [], _, _, hex => by
    obtain ⟨_, hit, _⟩ := hex
    cases hit
  | item :: rest, s, hs, hex => by
    simp only [check_heads]
    cases hh : heads_of item with
    | nil =>
      have h1 : check_head item s = s := by simp [check_head, hh]
      rw [h1]
      apply check_heads_stack_ne rest s hs
      obtain ⟨it, hit, hne⟩ := hex
      rcases List.mem_cons.1 hit with e | e
      · subst e
        exact absurd hh hne
      · exact ⟨it, e, hne⟩
    | cons d ds =>
      have h1 : (check_head item s).decl_stack_ ≠ [] := by
        simp only [check_head, hh, List.foldl_cons]
        exact good_stack_ne (foldl_insert_good ds _) (insert_stack_ne s d hs)
      exact good_stack_ne (check_heads_good rest _) h1

theorem check_heads_headless : ∀ (items : List Item) (s : NameSema),
    (∀ item ∈ items, heads_of item = []) → check_heads items s = s
  | [], _, _ => rfl
  | item :: rest, s, h => by
    have h1 : check_head item s = s := by
      simp [check_head, h item (List.mem_cons_self _ _)]
    simp only [check_heads, h1]
    exact check_heads_headless rest s (fun it hit => h it (List.mem_cons_of_mem _ hit))

/-- An item that `check_head` inserts nothing for is an impl or an extern block
without functions; its `check_item` leaves the levels and the stack as they
were. -/
theorem item_check_exact (item : Item) (s : NameSema) (h : heads_of item = []) :
    ∃ s1, item.check_item s = some s1 ∧ s1.levels_ = s.levels_ ∧
      s1.decl_stack_ = s.decl_stack_ := by
  cases item with
  | mod_decl decl m => simp [heads_of] at h
  | typedef decl => simp [heads_of] at h
  | enum_decl decl => simp [heads_of] at h
  | static_item decl => simp [heads_of] at h
  | struct_decl decl tps fs => simp [heads_of] at h
  | fn_decl fd => simp [heads_of] at h
  | trait_decl decl sp tps sts ms => simp [heads_of] at h
  | extern_block fns =>
    have hf : fns = [] := by simpa [heads_of] using h
    subst hf
    exact ⟨s, by simp [Item.check_item, check_fn_decls], rfl, rfl⟩
  | impl_item type_params trait type methods =>
    simp only [Item.check_item]
    exact scope_exact (good_bind (good_bind (good_bind
      (check_type_params_good type_params _) (check_opt_ast_type_good trait))
      (ast_type_check_good type)) (check_fn_decls_good methods))

theorem check_items_exact : ∀ (items : List Item) (s : NameSema),
    (∀ item ∈ items, heads_of item = []) →
    ∃ s1, check_items items s = some s1 ∧ s1.levels_ = s.levels_ ∧
      s1.decl_stack_ = s.decl_stack_
  | [], s, _ => ⟨s, by simp [check_items], rfl, rfl⟩
  | item :: rest, s, h => by
    obtain ⟨s1, e1, l1, k1⟩ := item_check_exact item s (h item (List.mem_cons_self _ _))
    obtain ⟨s2, e2, l2, k2⟩ := check_items_exact rest s1
      (fun it hit => h it (List.mem_cons_of_mem _ hit))
    exact ⟨s2, by simp [check_items, e1, e2], l2.trans l1, k2.trans k1⟩

/-- C18 (counterexample). For the root module with the single item `static x`,
`name_analysis` leaves the declaration of `x` on `decl_stack_`: the root module
is checked without a `push_scope`/`pop_scope` pair around it, so what
`check_head` inserts is never popped. -/
theorem name_analysis_counterexample :
    ¬ (∀ (mod : ModContents) (r : Bool) (s : NameSema),
      name_analysis mod = some (r, s) → s.decl_stack_ = [] ∧ s.levels_ = []) := by
  intro h
  have hrun : (name_analysis (ModContents.mk [Item.static_item ⟨0, "x", true⟩])).map
      (fun p => p.2.decl_stack_) = some [⟨0, "x", true⟩] := by decide
  cases hr : name_analysis (ModContents.mk [Item.static_item ⟨0, "x", true⟩]) with
  | none => rw [hr] at hrun; cases hrun
  | some p =>
    rw [hr] at hrun
    have hx : p.2.decl_stack_ = [⟨0, "x", true⟩] := Option.some.inj hrun
    have h1 := (h _ p.1 p.2 hr).1
    rw [hx] at h1
    cases h1

/-- C18 (amended). For every root module `name_analysis` returns, and after it
`levels_` is empty; `decl_stack_` is not restored: it is empty exactly when the
root module has no item that `check_head` inserts a declaration for (no item
that is a declaration and no function in an extern block). -/
theorem name_analysis_balance (mod : ModContents) :
    ∃ r s, name_analysis mod = some (r, s) ∧ s.levels_ = [] ∧
      (s.decl_stack_ = [] ↔ ∀ item ∈ mod.items, heads_of item = []) := by
  cases mod with
  | mk items =>
    obtain ⟨s1, seg, e, l, k⟩ := mod_contents_check_good (ModContents.mk items) NameSema.init
    refine ⟨decide (s1.errors_ = []), s1, by simp [name_analysis, e], l, ?_⟩
    simp only [ModContents.check] at e
    simp only [ModContents.items]
    constructor
    · intro hempty
      by_contra hne
      have hex : ∃ item ∈ items, heads_of item ≠ [] := by
        by_contra hn
        exact hne (fun it hit => by
          by_contra hc
          exact hn ⟨it, hit, hc⟩)
      have h1 := check_heads_stack_ne items NameSema.init (Or.inr (fun _ => rfl)) hex
      have h2 : Good (some s1) (check_heads items NameSema.init) := by
        rw [← e]
        exact check_items_good items _
      exact good_stack_ne h2 h1 hempty
    · intro hall
      rw [check_heads_headless items _ hall] at e
      obtain ⟨s2, e2, _, k2⟩ := check_items_exact items NameSema.init hall
      rw [e2] at e
      cases e
      exact k2

end AST

namespace TypeSema

/-! ### Diagnostics of the helpers -/

theorem emitted_append (s s1 : TypeSema) (own : List Diag) (h : s1.diags_ = s.diags_ ++ own) :
    emitted s s1 = own := by
  simp [emitted, h]

theorem error_diags (loc : Nat) (msg : TypeMsg) (s : TypeSema) :
    (error loc msg s).diags_ = s.diags_ ++ [⟨Severity.error, loc, msg⟩] := rfl

theorem warning_diags (loc : Nat) (msg : TypeMsg) (s : TypeSema) :
    (warning loc msg s).diags_ = s.diags_ ++ [⟨Severity.warning, loc, msg⟩] := rfl

theorem expect_diags (c : OperandClass) (e : Expr) (s : TypeSema) :
    (expect c e s).diags_ = s.diags_ ++
      (expect_own c e) := by
  unfold expect expect_own
  split_ifs <;> simp [error]

theorem expect_lvalue_diags (F : ExprFns) (e : Expr) (s : TypeSema) :
    (expect_lvalue F e s).diags_ = s.diags_ ++
      lvalue_own F e := by
  unfold expect_lvalue lvalue_own
  cases F.is_lvalue e <;> simp [error]

theorem agree_check_diags (id : Nat) (lhs rhs : Expr) (s : TypeSema) :
    (agree_check id lhs rhs s).diags_ = s.diags_ ++
      (agree_own id lhs rhs) := by
  unfold agree_check agree_own
  split_ifs <;> simp [error]

theorem operand_kind_errors_append (a b : List Diag) :
    operand_kind_errors (a ++ b) = operand_kind_errors a ++ operand_kind_errors b := by
  simp [operand_kind_errors, List.filterMap_append]

theorem lvalue_errors_append (a b : List Diag) :
    lvalue_errors (a ++ b) = lvalue_errors a ++ lvalue_errors b := by
  simp [lvalue_errors, List.filterMap_append]

/-- The diagnostics of `expect_T`, seen as operand-kind errors. -/
theorem operand_kind_errors_expect (c : OperandClass) (e : Expr) :
    operand_kind_errors
      (expect_own c e)
      = claimed_operand_error (some c.pred) e := by
  simp only [claimed_operand_error, expect_own]
  generalize (!(scalar_type e).isError && !(c.pred (scalar_type e))) = b
  cases b <;> simp [operand_kind_errors]

theorem operand_kind_errors_lvalue (F : ExprFns) (e : Expr) :
    operand_kind_errors
      (lvalue_own F e) = [] := by
  unfold lvalue_own
  cases F.is_lvalue e <;> simp [operand_kind_errors]

theorem operand_kind_errors_agree (id : Nat) (lhs rhs : Expr) :
    operand_kind_errors (agree_own id lhs rhs) = [] := by
  unfold agree_own
  split_ifs <;> simp [operand_kind_errors]

theorem lvalue_errors_expect (c : OperandClass) (e : Expr) :
    lvalue_errors (expect_own c e) = [] := by
  unfold expect_own
  split_ifs <;> simp [lvalue_errors]

theorem lvalue_errors_lvalue (F : ExprFns) (e : Expr) :
    lvalue_errors (lvalue_own F e) = if F.is_lvalue e then [] else [e.id] := by
  unfold lvalue_own
  cases F.is_lvalue e <;> simp [lvalue_errors]

theorem lvalue_errors_agree (id : Nat) (lhs rhs : Expr) :
    lvalue_errors (agree_own id lhs rhs) = [] := by
  unfold agree_own
  split_ifs <;> simp [lvalue_errors]

/-- What the `switch` of `PrefixExpr::check` emits. -/
theorem prefix_expr_check_diags (F : ExprFns) (kind : PrefixKind) (rhs : Expr) (s : TypeSema) :
    ∃ own, (prefix_expr_check F kind rhs s).diags_ = s.diags_ ++ own ∧
      operand_kind_errors own = claimed_operand_error (claimed_prefix_operand kind) rhs ∧
      lvalue_errors own =
        if kind = PrefixKind.AND ∨ kind = PrefixKind.INC ∨ kind = PrefixKind.DEC then
          (if F.is_lvalue rhs then [] else [rhs.id])
        else [] := by
  cases kind
  case AND =>
    refine ⟨_, (expect_lvalue_diags F rhs s :
      (prefix_expr_check F PrefixKind.AND rhs s).diags_ = _), ?_, ?_⟩
    · rw [operand_kind_errors_lvalue]; rfl
    · rw [lvalue_errors_lvalue]; simp
  case MUL =>
    refine ⟨_, expect_diags OperandClass.ptr rhs s, ?_, ?_⟩
    · rw [operand_kind_errors_expect]; rfl
    · rw [lvalue_errors_expect]; simp
  case INC =>
    have h : (prefix_expr_check F PrefixKind.INC rhs s).diags_ = s.diags_ ++
        (expect_own OperandClass.num rhs ++ lvalue_own F rhs) := by
      show (expect_lvalue F rhs (expect OperandClass.num rhs s)).diags_ = _
      rw [expect_lvalue_diags, expect_diags, List.append_assoc]
    refine ⟨_, h, ?_, ?_⟩
    · rw [operand_kind_errors_append, operand_kind_errors_expect, operand_kind_errors_lvalue]
      simp [claimed_prefix_operand, claimed_operand_error, OperandClass.pred]
    · rw [lvalue_errors_append, lvalue_errors_expect, lvalue_errors_lvalue]; simp
  case DEC =>
    have h : (prefix_expr_check F PrefixKind.DEC rhs s).diags_ = s.diags_ ++
        (expect_own OperandClass.num rhs ++ lvalue_own F rhs) := by
      show (expect_lvalue F rhs (expect OperandClass.num rhs s)).diags_ = _
      rw [expect_lvalue_diags, expect_diags, List.append_assoc]
    refine ⟨_, h, ?_, ?_⟩
    · rw [operand_kind_errors_append, operand_kind_errors_expect, operand_kind_errors_lvalue]
      simp [claimed_prefix_operand, claimed_operand_error, OperandClass.pred]
    · rw [lvalue_errors_append, lvalue_errors_expect, lvalue_errors_lvalue]; simp
  case ADD =>
    refine ⟨_, expect_diags OperandClass.num rhs s, ?_, ?_⟩
    · rw [operand_kind_errors_expect]; rfl
    · rw [lvalue_errors_expect]; simp
  case SUB =>
    refine ⟨_, expect_diags OperandClass.num rhs s, ?_, ?_⟩
    · rw [operand_kind_errors_expect]; rfl
    · rw [lvalue_errors_expect]; simp
  case NOT =>
    refine ⟨_, expect_diags OperandClass.int_or_bool rhs s, ?_, ?_⟩
    · rw [operand_kind_errors_expect]; rfl
    · rw [lvalue_errors_expect]; simp
  all_goals exact ⟨[], by simp [prefix_expr_check], rfl, by simp [lvalue_errors]⟩

theorem expect_both_diags (c : OperandClass) (lhs rhs : Expr) (s : TypeSema) :
    ∃ own, (expect_both c lhs rhs s).diags_ = s.diags_ ++ own ∧
      operand_kind_errors own =
        claimed_operand_error (some c.pred) lhs ++ claimed_operand_error (some c.pred) rhs ∧
      lvalue_errors own = [] := by
  have h : (expect_both c lhs rhs s).diags_ =
      s.diags_ ++ (expect_own c lhs ++ expect_own c rhs) := by
    show (expect c rhs (expect c lhs s)).diags_ = _
    rw [expect_diags, expect_diags, List.append_assoc]
  refine ⟨_, h, ?_, ?_⟩
  · rw [operand_kind_errors_append, operand_kind_errors_expect, operand_kind_errors_expect]
  · rw [lvalue_errors_append, lvalue_errors_expect, lvalue_errors_expect]; rfl

theorem expect_both_lvalue_diags (F : ExprFns) (c : OperandClass) (lhs rhs : Expr)
    (s : TypeSema) :
    ∃ own, (expect_lvalue F lhs (expect_both c lhs rhs s)).diags_ = s.diags_ ++ own ∧
      operand_kind_errors own =
        claimed_operand_error (some c.pred) lhs ++ claimed_operand_error (some c.pred) rhs ∧
      lvalue_errors own = if F.is_lvalue lhs then [] else [lhs.id] := by
  obtain ⟨own, h1, h2, h3⟩ := expect_both_diags c lhs rhs s
  have h : (expect_lvalue F lhs (expect_both c lhs rhs s)).diags_ =
      s.diags_ ++ (own ++ lvalue_own F lhs) := by
    rw [expect_lvalue_diags, h1, List.append_assoc]
  refine ⟨_, h, ?_, ?_⟩
  · rw [operand_kind_errors_append, h2, operand_kind_errors_lvalue, List.append_nil]
  · rw [lvalue_errors_append, h3, lvalue_errors_lvalue, List.nil_append]

/-- What the `switch` of `InfixExpr::check` emits. -/
theorem infix_switch_diags (F : ExprFns) (kind : InfixKind) (lhs rhs : Expr) (s : TypeSema) :
    ∃ own, (infix_switch F kind lhs rhs s).diags_ = s.diags_ ++ own ∧
      operand_kind_errors own =
        claimed_operand_error (claimed_infix_operand kind) lhs ++
          claimed_operand_error (claimed_infix_operand kind) rhs ∧
      lvalue_errors own =
        if kind.is_assignment then (if F.is_lvalue lhs then [] else [lhs.id]) else [] := by
  cases kind
  case ASGN =>
    refine ⟨_, expect_lvalue_diags F lhs s, ?_, ?_⟩
    · rw [operand_kind_errors_lvalue]; rfl
    · rw [lvalue_errors_lvalue]; rfl
  case ADD_ASGN => exact expect_both_lvalue_diags F OperandClass.num lhs rhs s
  case SUB_ASGN => exact expect_both_lvalue_diags F OperandClass.num lhs rhs s
  case MUL_ASGN => exact expect_both_lvalue_diags F OperandClass.num lhs rhs s
  case DIV_ASGN => exact expect_both_lvalue_diags F OperandClass.num lhs rhs s
  case REM_ASGN => exact expect_both_lvalue_diags F OperandClass.num lhs rhs s
  case AND_ASGN => exact expect_both_lvalue_diags F OperandClass.int_or_bool lhs rhs s
  case OR_ASGN => exact expect_both_lvalue_diags F OperandClass.int_or_bool lhs rhs s
  case XOR_ASGN => exact expect_both_lvalue_diags F OperandClass.int_or_bool lhs rhs s
  case SHL_ASGN => exact expect_both_lvalue_diags F OperandClass.int lhs rhs s
  case SHR_ASGN => exact expect_both_lvalue_diags F OperandClass.int lhs rhs s
  case EQ => exact expect_both_diags OperandClass.num_or_bool lhs rhs s
  case NE => exact expect_both_diags OperandClass.num_or_bool lhs rhs s
  case LT => exact expect_both_diags OperandClass.num_or_bool lhs rhs s
  case GT => exact expect_both_diags OperandClass.num_or_bool lhs rhs s
  case LE => exact expect_both_diags OperandClass.num_or_bool lhs rhs s
  case GE => exact expect_both_diags OperandClass.num_or_bool lhs rhs s
  case ADD => exact expect_both_diags OperandClass.num lhs rhs s
  case SUB => exact expect_both_diags OperandClass.num lhs rhs s
  case MUL => exact expect_both_diags OperandClass.num lhs rhs s
  case DIV => exact expect_both_diags OperandClass.num lhs rhs s
  case REM => exact expect_both_diags OperandClass.num lhs rhs s
  case OROR => exact expect_both_diags OperandClass.bool lhs rhs s
  case ANDAND => exact expect_both_diags OperandClass.bool lhs rhs s
  case SHL => exact expect_both_diags OperandClass.int lhs rhs s
  case SHR => exact expect_both_diags OperandClass.int lhs rhs s
  case OR => exact expect_both_diags OperandClass.int_or_bool lhs rhs s
  case AND => exact expect_both_diags OperandClass.int_or_bool lhs rhs s
  case XOR => exact expect_both_diags OperandClass.int_or_bool lhs rhs s

theorem infix_expr_check_diags (F : ExprFns) (id : Nat) (kind : InfixKind) (lhs rhs : Expr)
    (s : TypeSema) :
    ∃ own, (infix_expr_check F id kind lhs rhs s).diags_ = s.diags_ ++ own ∧
      operand_kind_errors own =
        claimed_operand_error (claimed_infix_operand kind) lhs ++
          claimed_operand_error (claimed_infix_operand kind) rhs ∧
      lvalue_errors own =
        if kind.is_assignment then (if F.is_lvalue lhs then [] else [lhs.id]) else [] := by
  obtain ⟨own, h1, h2, h3⟩ := infix_switch_diags F kind lhs rhs (agree_check id lhs rhs s)
  have h : (infix_expr_check F id kind lhs rhs s).diags_ =
      s.diags_ ++ (agree_own id lhs rhs ++ own) := by
    show (infix_switch F kind lhs rhs (agree_check id lhs rhs s)).diags_ = _
    rw [h1, agree_check_diags, List.append_assoc]
  refine ⟨_, h, ?_, ?_⟩
  · rw [operand_kind_errors_append, operand_kind_errors_agree, h2, List.nil_append]
  · rw [lvalue_errors_append, lvalue_errors_agree, h3, List.nil_append]

end TypeSema

namespace TypeSema

/-! ### Casts -/

theorem valid_cast_eq (a b : Ty) : valid_cast a b = cast_permitted a b := by
  simp only [valid_cast, cast_permitted, symmetric]
  generalize a.isPtr = p1
  generalize b.isPtr = p2
  generalize a.is_int = i1
  generalize b.is_int = i2
  generalize a.is_float = f1
  generalize b.is_float = f2
  generalize a.is_bool = b1
  generalize b.is_bool = b2
  cases p1 <;> cases p2 <;> cases i1 <;> cases i2 <;> cases f1 <;> cases f2 <;>
    cases b1 <;> cases b2 <;> rfl

/-- C21: `CastExpr::check` checks the operand and the AST type and then emits
the invalid-cast error exactly when the pair of the source and the destination
type is none of `Ptr/Ptr`, `int/int`, `float/float`, `int/Ptr`, `int/float`,
`int/bool`, `float/bool` (the last four in either direction); a cast from
`bool` to `bool` and a cast with a tuple, array, function or `Error` type on
either side are rejected. -/
theorem cast_legality (F : ExprFns) (id : Nat) (t : Ty) (lhs : Expr) (ast_type : ASTType)
    (s : TypeSema) :
    (Expr.mk id t (ExprNode.cast_expr lhs ast_type)).check F s =
      (if cast_permitted lhs.type ast_type.type then
        ast_type.check F (lhs.check F s)
      else
        error id (TypeMsg.invalid_cast lhs.type ast_type.type)
          (ast_type.check F (lhs.check F s))) ∧
    cast_permitted (Ty.prim PrimKind.bool) (Ty.prim PrimKind.bool) = false ∧
    (∀ a b : Ty, (a.isTuple || a.isArray || a.isFn || a.isError ||
        b.isTuple || b.isArray || b.isFn || b.isError) = true →
      cast_permitted a b = false) := by
  refine ⟨?_, by decide, ?_⟩
  · simp only [Expr.check, cast_expr_check, valid_cast_eq]
    cases cast_permitted lhs.type ast_type.type <;> simp
  · intro a b h
    cases a <;> cases b <;> simp_all [cast_permitted, Ty.isTuple, Ty.isArray, Ty.isFn,
      Ty.isError, Ty.isPtr, Ty.is_int, Ty.is_float, Ty.is_bool]

/-! ### Operand kinds and lvalues -/

/-- C23 (counterexample): `*e` for an operand that is not an lvalue emits no
"lvalue required" error. -/
theorem lvalue_required_counterexample :
    ¬ (∀ (F : ExprFns) (id : Nat) (t : Ty) (s : TypeSema) (kind : PrefixKind) (rhs : Expr),
      kind = PrefixKind.AND ∨ kind = PrefixKind.MUL ∨ kind = PrefixKind.INC ∨
        kind = PrefixKind.DEC →
      F.is_lvalue rhs = false →
      rhs.id ∈ lvalue_errors (emitted (rhs.check F s)
        ((Expr.mk id t (ExprNode.prefix_expr kind rhs)).check F s))) := by
  intro h
  have h1 := h ⟨fun _ => false, fun _ => true, fun _ a => a⟩ 0 (Ty.prim PrimKind.i32)
    (init false) PrefixKind.MUL
    (Expr.mk 1 (Ty.ptr PtrKind.Borrowed (Ty.prim PrimKind.i32) false 0) ExprNode.literal_expr)
    (Or.inr (Or.inl rfl)) rfl
  revert h1
  decide

/-- C23 (amended): after the operands were checked, `&e`, `++e` and `--e` emit
one "lvalue required" error at `e` exactly when `is_lvalue(e)` is false, and so
do `e = r` and every compound assignment `e op= r`; `*e` and the other
operators emit none. -/
theorem lvalue_required (F : ExprFns) (id : Nat) (t : Ty) (s : TypeSema) :
    (∀ (kind : PrefixKind) (rhs : Expr),
      lvalue_errors (emitted (rhs.check F s)
          ((Expr.mk id t (ExprNode.prefix_expr kind rhs)).check F s))
        = if kind = PrefixKind.AND ∨ kind = PrefixKind.INC ∨ kind = PrefixKind.DEC then
            (if F.is_lvalue rhs then [] else [rhs.id])
          else []) ∧
    (∀ (kind : InfixKind) (lhs rhs : Expr),
      lvalue_errors (emitted (rhs.check F (lhs.check F s))
          ((Expr.mk id t (ExprNode.infix_expr kind lhs rhs)).check F s))
        = if kind.is_assignment then (if F.is_lvalue lhs then [] else [lhs.id]) else []) := by
  constructor
  · intro kind rhs
    obtain ⟨own, h1, _, h3⟩ := prefix_expr_check_diags F kind rhs (rhs.check F s)
    simp only [Expr.check]
    rw [emitted_append _ _ own h1, h3]
  · intro kind lhs rhs
    obtain ⟨own, h1, _, h3⟩ := infix_expr_check_diags F id kind lhs rhs
      (rhs.check F (lhs.check F s))
    simp only [Expr.check]
    rw [emitted_append _ _ own h1, h3]

/-! ### Struct literals -/

/-- C25 (failing input): `StructExpr::check(TypeSema&)` leaves the state as it
is for every struct literal, so the literal `S { }` for a struct with the field
`a` (a missing field), `S { a: 1, a: 2 }` (a duplicate) and `S { b: 1 }` (an
unknown field) are checked without a diagnostic. -/
theorem struct_expr_check_emits_nothing (F : ExprFns) (id : Nat) (t : Ty)
    (field_table : List Symbol) (elems : List Elem) (s : TypeSema) :
    (Expr.mk id t (ExprNode.struct_expr field_table elems)).check F s = s := by
  simp only [Expr.check]

/-! ### Function bodies -/

/-- C26 (failing input): for `fn g() -> bool { 1 }`, with the parameter of the
return continuation typed `fn(bool)` and any types in the slots of the body
(`i32` after inference), `type_analysis` emits no diagnostic. -/
theorem fn_body_mismatch_not_reported (F : ExprFns) (nossa : Bool) (body_type lit_type : Ty) :
    (type_analysis F (ModContents.mk [Item.fn_decl (FnDecl.mk []
        [LocalDecl.mk 3 "return" false false
          (some (ASTType.mk 4 (Ty.fn [Ty.prim PrimKind.bool])
            (ASTTypeNode.fn_ast_type []
              [ASTType.mk 5 (Ty.prim PrimKind.bool) ASTTypeNode.prim_ast_type])))
          (Ty.fn [Ty.prim PrimKind.bool])]
        (some (Expr.mk 1 body_type (ExprNode.block_expr []
          (Expr.mk 2 lit_type ExprNode.literal_expr)))))]) nossa).diags_ = [] := by
  simp [type_analysis, ModContents.check, check_items, Item.check, FnDecl.check,
    check_ast_type_params, check_local_decls, LocalDecl.check, check_opt_ast_type,
    ASTType.check, check_ast_types, Expr.check, check_stmts, param_warnings, local_warnings,
    expect_known, init, LocalDecl.is_mut, Ty.is_known, Ty.all_known]

/-! ### Statements -/

/-- C27 (counterexample): the statement `k(1);` for a continuation `k`, whose
call has type `NoRet`, emits a diagnostic of error severity. -/
theorem noret_stmt_counterexample :
    ¬ (∀ (F : ExprFns) (expr : Expr) (s : TypeSema), expr.type = Ty.noret →
      ∀ d ∈ emitted (expr.check F s) ((Stmt.expr_stmt expr).check F s),
        d.severity = Severity.warning) := by
  intro h
  have h1 := h ⟨fun _ => false, fun _ => true, fun _ a => a⟩
    (Expr.mk 1 Ty.noret (ExprNode.map_expr
      (Expr.mk 2 (Ty.fn [Ty.prim PrimKind.i32]) (ExprNode.path_expr none))
      [Expr.mk 3 (Ty.prim PrimKind.i32) ExprNode.literal_expr]))
    (init false) rfl ⟨Severity.error, 1, TypeMsg.does_not_return⟩ (by decide)
  revert h1
  decide

/-- C27 (amended): an expression statement whose expression has type `NoRet`
emits, after the expression was checked, the diagnostic "expression does not
return; subsequent statements are unreachable" with error severity (followed
by the warning "statement with no effect" when the expression has no side
effect), so the run is not successful once the statement was checked. -/
theorem noret_stmt_is_error (F : ExprFns) (expr : Expr) (s : TypeSema)
    (h : expr.type = Ty.noret) :
    emitted (expr.check F s) ((Stmt.expr_stmt expr).check F s)
      = ⟨Severity.error, expr.id, TypeMsg.does_not_return⟩ ::
        (if F.has_side_effect expr then []
          else [⟨Severity.warning, expr.id, TypeMsg.statement_with_no_effect⟩]) ∧
    ((Stmt.expr_stmt expr).check F s).result = false := by
  have hd : ((Stmt.expr_stmt expr).check F s).diags_ = (expr.check F s).diags_ ++
      (⟨Severity.error, expr.id, TypeMsg.does_not_return⟩ ::
        (if F.has_side_effect expr then []
          else [⟨Severity.warning, expr.id, TypeMsg.statement_with_no_effect⟩])) := by
    simp only [Stmt.check, expr_stmt_check, h, Ty.isNoRet, if_true]
    cases F.has_side_effect expr <;> simp [error, warning]
  refine ⟨emitted_append _ _ _ hd, ?_⟩
  unfold result
  rw [hd]
  simp

/-- C27 (witness): the statement `k(1);` in the initial state. -/
theorem noret_stmt_is_error_witness :
    emitted ((Expr.mk 1 Ty.noret (ExprNode.map_expr
          (Expr.mk 2 (Ty.fn [Ty.prim PrimKind.i32]) (ExprNode.path_expr none))
          [Expr.mk 3 (Ty.prim PrimKind.i32) ExprNode.literal_expr])).check
        ⟨fun _ => false, fun _ => true, fun _ a => a⟩ (init false))
      ((Stmt.expr_stmt (Expr.mk 1 Ty.noret (ExprNode.map_expr
          (Expr.mk 2 (Ty.fn [Ty.prim PrimKind.i32]) (ExprNode.path_expr none))
          [Expr.mk 3 (Ty.prim PrimKind.i32) ExprNode.literal_expr]))).check
        ⟨fun _ => false, fun _ => true, fun _ a => a⟩ (init false))
      = [⟨Severity.error, 1, TypeMsg.does_not_return⟩] ∧
    ((Stmt.expr_stmt (Expr.mk 1 Ty.noret (ExprNode.map_expr
          (Expr.mk 2 (Ty.fn [Ty.prim PrimKind.i32]) (ExprNode.path_expr none))
          [Expr.mk 3 (Ty.prim PrimKind.i32) ExprNode.literal_expr]))).check
        ⟨fun _ => false, fun _ => true, fun _ a => a⟩ (init false)).result = false :=
  noret_stmt_is_error ⟨fun _ => false, fun _ => true, fun _ a => a⟩ _ (init false) rfl

/-! ### Paths and `nossa` -/

/-- C28: checking a path expression that refers to a local declaration calls
`take_address` on it exactly when the local is mutable and `nossa` is set or
the function of the local differs from `cur_fn_`; then the local is marked and
nothing else changes.  For an immutable local, for a value declaration that is
not local and for an unresolved path the state is unchanged. -/
theorem path_expr_marks (F : ExprFns) (id : Nat) (t : Ty) (s : TypeSema) :
    (∀ (l : Nat) (is_mut : Bool) (fn : Option Nat),
      ((is_mut = true ∧ (s.nossa_ = true ∨ fn ≠ s.cur_fn_)) →
        (Expr.mk id t (ExprNode.path_expr (some (ValueDeclRef.local_decl l is_mut fn)))).check
            F s
          = { s with address_taken_ := Function.update s.address_taken_ l true }) ∧
      (¬ (is_mut = true ∧ (s.nossa_ = true ∨ fn ≠ s.cur_fn_)) →
        (Expr.mk id t (ExprNode.path_expr (some (ValueDeclRef.local_decl l is_mut fn)))).check
            F s = s)) ∧
    (∀ (l : Nat) (fn : Option Nat),
      (Expr.mk id t (ExprNode.path_expr (some (ValueDeclRef.local_decl l false fn)))).check F s
        = s) ∧
    (∀ d : Nat,
      (Expr.mk id t (ExprNode.path_expr (some (ValueDeclRef.other_decl d)))).check F s = s) ∧
    (Expr.mk id t (ExprNode.path_expr none)).check F s = s := by
  refine ⟨?_, ?_, ?_, ?_⟩
  · intro l is_mut fn
    constructor
    · rintro ⟨h1, h2⟩
      have hc : (is_mut && (s.nossa_ || decide (fn ≠ s.cur_fn_))) = true := by
        rcases h2 with h2 | h2 <;> simp [h1, h2]
      simp only [Expr.check, path_expr_check, hc, if_true, take_address]
    · intro h
      have hc : (is_mut && (s.nossa_ || decide (fn ≠ s.cur_fn_))) = false := by
        rw [Bool.eq_false_iff]
        intro hc
        apply h
        simpa using hc
      simp only [Expr.check, path_expr_check, hc]
      rfl
  · intro l fn
    simp [Expr.check, path_expr_check]
  · intro d
    simp [Expr.check, path_expr_check]
  · simp [Expr.check, path_expr_check]

/-! ### Extern blocks -/

/-- C29 (counterexample): an extern block with the empty ABI string is checked
without the error "unknown extern specification". -/
theorem extern_abi_counterexample :
    ¬ (∀ (F : ExprFns) (id : Nat) (abi : String) (fns : List FnDecl) (s : TypeSema),
      (abi ≠ "\"C\"" ∧ abi ≠ "\"device\"" ∧ abi ≠ "\"thorin\"") →
      (Item.extern_block id abi fns).check F s
        = check_fn_decls F fns (error id TypeMsg.unknown_extern_specification s)) := by
  intro h
  have h1 := h ⟨fun _ => false, fun _ => true, fun _ a => a⟩ 0 "" [] (init false)
    (by decide)
  have h2 := congrArg (fun s => s.diags_.length) h1
  revert h2
  decide

/-- C29 (amended): `ExternBlock::check` emits the error "unknown extern
specification" and then checks the functions, for every ABI string that is not
empty and is none of `"C"`, `"device"`, `"thorin"` (written with their quotes);
for these three and for the empty ABI string it only checks the functions. -/
theorem extern_abi (F : ExprFns) (id : Nat) (abi : String) (fns : List FnDecl) (s : TypeSema) :
    ((abi ≠ "" ∧ abi ≠ "\"C\"" ∧ abi ≠ "\"device\"" ∧ abi ≠ "\"thorin\"") →
      (Item.extern_block id abi fns).check F s
        = check_fn_decls F fns (error id TypeMsg.unknown_extern_specification s)) ∧
    ((abi = "" ∨ abi = "\"C\"" ∨ abi = "\"device\"" ∨ abi = "\"thorin\"") →
      (Item.extern_block id abi fns).check F s = check_fn_decls F fns s) := by
  constructor
  · rintro ⟨h0, h1, h2, h3⟩
    simp [Item.check, abi_check, h0, h1, h2, h3]
  · intro h
    simp only [Item.check, abi_check]
    by_cases h0 : abi = ""
    · simp [h0]
    · rcases h with h | h | h | h
      · exact absurd h h0
      · simp [h]
      · simp [h]
      · simp [h]

/-! ### String literals -/

/-- C30 (failing input): for the string literal `"ab"`, whose text has two
characters, the inference pass sees the `values_` of a literal that was not
type-checked yet, which are empty, and computes `DefArray(u8, 0)`;
`StrExpr::check(TypeSema&)` then fills `values_` with the two characters and
the terminator, for which `StrExpr::check(InferSema&)` would give
`DefArray(u8, 3)`. -/
theorem str_expr_inferred_before_decoded :
    InferSema.str_expr_check ((init false).values_ 1)
      = Ty.definite_array (Ty.prim PrimKind.u8) 0 ∧
    ((Expr.mk 1 (Ty.definite_array (Ty.prim PrimKind.u8) 0)
        (ExprNode.str_expr [[Char.ofNat 34, 'a', 'b', Char.ofNat 34]])).check
        ⟨fun _ => false, fun _ => true, fun _ a => a⟩ (init false)).values_ 1 = [97, 98, 0] ∧
    InferSema.str_expr_check [97, 98, 0] = Ty.definite_array (Ty.prim PrimKind.u8) 3 := by
  refine ⟨rfl, ?_, rfl⟩
  decide

end TypeSema

namespace Legacy

/-- C24 (counterexample): in `ast.h` the dereference `*p` of a mutable `p` is
not an lvalue, although the rule of the specification makes it one. -/
theorem is_lvalue_counterexample :
    ¬ (∀ e : Expr, e.is_lvalue = claimed_lvalue e) := by
  intro h
  have h1 := h (Expr.prefix_expr TypeSema.PrefixKind.MUL (Expr.id "p" true))
  revert h1
  decide

/-- C24 (amended): `is_lvalue(e)` is true exactly when `e` is a path (`Id`)
whose `is_lvalue` is true, that is one to a mutable declaration, an index
expression, whatever its base, or an assignment expression (`=` or a compound
assignment); a prefix dereference expression is not an lvalue, and an index
expression whose base is not an lvalue is one. -/
theorem is_lvalue_rule (e : Expr) :
    (e.is_lvalue = true ↔
      (∃ symbol, e = Expr.id symbol true) ∨ (∃ lhs index, e = Expr.index_expr lhs index) ∨
      (∃ kind lhs rhs, e = Expr.infix_expr kind lhs rhs ∧ kind.is_assignment = true)) ∧
    (∀ rhs, (Expr.prefix_expr TypeSema.PrefixKind.MUL rhs).is_lvalue = false) ∧
    (∀ lhs index, lhs.is_lvalue = false → (Expr.index_expr lhs index).is_lvalue = true) := by
  refine ⟨?_, fun _ => rfl, fun _ _ _ => rfl⟩
  cases e <;> simp [Expr.is_lvalue, is_assign]

end Legacy

namespace InferSema

/-! ### The fixpoint driver on a self-application -/

theorem selfLoop_find_unknown {s : State} (h : SelfLoop s) (n : Nat) :
    find_repr (n + 2) s ⟨Ty.unknown 0⟩ =
      some (⟨self_fn⟩, { s with todo_ := true
                                parent := Function.update s.parent ⟨Ty.unknown 0⟩ ⟨self_fn⟩ }) := by
  have hne : s.parent ⟨Ty.unknown 0⟩ ≠ ⟨Ty.unknown 0⟩ := by
    rw [h.1]; decide
  have hroot : ({ s with todo_ := true } : State).parent ⟨self_fn⟩ = ⟨self_fn⟩ := h.2
  have hd : ¬ (⟨self_fn⟩ : Representative) = ⟨Ty.unknown 0⟩ := by decide
  rw [find_repr]
  simp only [hne, ne_eq, not_false_eq_true, if_true, h.1, find_repr_root hroot n, hd]

theorem selfLoop_update {s : State} (h : SelfLoop s) (b : Bool) :
    SelfLoop { s with todo_ := b
                      parent := Function.update s.parent ⟨Ty.unknown 0⟩ ⟨self_fn⟩ } := by
  refine ⟨by simp, ?_⟩
  show Function.update s.parent ⟨Ty.unknown 0⟩ ⟨self_fn⟩ ⟨self_fn⟩ = ⟨self_fn⟩
  rw [Function.update_noteq (by decide)]
  exact h.2

theorem unify_body_self_fn (u : State → Ty → Ty → Option (Ty × State)) (s : State)
    (hu : u s (Ty.unknown 0) (Ty.unknown 0) = none) :
    unify_body u s ⟨self_fn⟩ ⟨self_fn⟩ = none := by
  have : unify_body u s ⟨self_fn⟩ ⟨self_fn⟩ =
      match unify_ops u s [Ty.unknown 0, Ty.unknown 1] [Ty.unknown 0, Ty.unknown 1] with
      | none => none
      | some (op, s3) => some (unify_result self_fn self_fn op, s3) := rfl
  rw [this]
  simp [unify_ops, hu]

/-- Without an occurs check `unify(?0, ?0)` recurses forever once `?0` is
below `fn(?0, ?1)`. -/
theorem unify_self_loop : ∀ (fuel : Nat) (s : State), SelfLoop s →
    unify fuel s (Ty.unknown 0) (Ty.unknown 0) = none
  | 0, _, _ => rfl
  | 1, s, h => by
    have hne : s.parent ⟨Ty.unknown 0⟩ ≠ ⟨Ty.unknown 0⟩ := by
      rw [h.1]; decide
    rw [unify_succ]
    simp [find_repr, representative, hne]
  | fuel + 2, s, h => by
    rw [unify_succ]
    simp only [representative, selfLoop_find_unknown h fuel,
      selfLoop_find_unknown (selfLoop_update h true) fuel]
    exact unify_body_self_fn _ _ (unify_self_loop (fuel + 1) _
      (selfLoop_update (selfLoop_update h true) true))

end InferSema

namespace InferSema

theorem unify_unknown_self_fn : ∀ (fuel : Nat) (s : State), SelfLoop s →
    unify fuel s (Ty.unknown 0) self_fn = none
  | 0, _, _ => rfl
  | 1, s, h => by
    have hne : s.parent ⟨Ty.unknown 0⟩ ≠ ⟨Ty.unknown 0⟩ := by
      rw [h.1]; decide
    rw [unify_succ]
    simp [find_repr, representative, hne]
  | fuel + 2, s, h => by
    rw [unify_succ]
    simp only [representative, selfLoop_find_unknown h fuel,
      find_repr_root (selfLoop_update h true).2 (fuel + 1)]
    exact unify_body_self_fn _ _ (unify_self_loop (fuel + 1) _ (selfLoop_update h true))

theorem unify_self_fn_call (fuel : Nat) (s : State) (h : SelfLoop s)
    (hg : s.parent ⟨Ty.fn [self_fn, Ty.unknown 1]⟩ = ⟨Ty.fn [self_fn, Ty.unknown 1]⟩) :
    unify fuel s self_fn (Ty.fn [self_fn, Ty.unknown 1]) = none := by
  cases fuel with
  | zero => rfl
  | succ k =>
    rw [unify_succ]
    simp only [representative, find_repr_root h.2 k, find_repr_root hg k]
    have : unify_body (unify k) s ⟨self_fn⟩ ⟨Ty.fn [self_fn, Ty.unknown 1]⟩ =
        match unify_ops (unify k) s [Ty.unknown 0, Ty.unknown 1] [self_fn, Ty.unknown 1] with
        | none => none
        | some (op, s3) =>
          some (unify_result self_fn (Ty.fn [self_fn, Ty.unknown 1]) op, s3) := rfl
    rw [this]
    simp [unify_ops, unify_unknown_self_fn k s h]

theorem coerce_self_fn (is_subtype : Ty → Ty → Bool) (k : Nat) (s : State) (n : Nat)
    (h0 : s.parent ⟨Ty.unknown 0⟩ = ⟨Ty.unknown 0⟩) (hf : s.parent ⟨self_fn⟩ = ⟨self_fn⟩) :
    coerce is_subtype rvalue_slot (k + 1) ⟨s, n⟩ (Ty.unknown 0) (Expr.expr (some self_fn)) =
      some (self_fn, ⟨(unify_repr s ⟨self_fn⟩ ⟨Ty.unknown 0⟩).2, n⟩,
        Expr.expr (some self_fn)) := by
  have hu : unify (k + 1) s (Ty.unknown 0) self_fn =
      some (self_fn, (unify_repr s ⟨self_fn⟩ ⟨Ty.unknown 0⟩).2) := by
    rw [unify_succ]
    simp only [representative, find_repr_root h0 k, find_repr_root hf k]
    rfl
  simp only [coerce, find_type, find, Expr.type_, representative, find_repr_root hf k]
  have hk : (Ty.unknown 0).is_known = false := rfl
  simp only [hk, Bool.false_and, Bool.false_eq_true, if_false, Expr.set_type, hu]

/-- The visit of `f(f)` does not return, whatever the recursion depth
available. -/
theorem visit_self_application_diverges (is_subtype : Ty → Ty → Bool) (fuel : Nat) (n : Nat)
    (b : Bool) :
    visit_self_application is_subtype fuel ⟨{ init with todo_ := b }, n⟩ = none := by
  cases fuel with
  | zero => rfl
  | succ k =>
    have hc := coerce_self_fn is_subtype k { init with todo_ := b } n rfl rfl
    have hl : SelfLoop (unify_repr { init with todo_ := b } ⟨self_fn⟩ ⟨Ty.unknown 0⟩).2 :=
      ⟨by cases b <;> decide, by cases b <;> decide⟩
    have hg : (unify_repr { init with todo_ := b } ⟨self_fn⟩ ⟨Ty.unknown 0⟩).2.parent
        ⟨Ty.fn [self_fn, Ty.unknown 1]⟩ = ⟨Ty.fn [self_fn, Ty.unknown 1]⟩ := by
      cases b <;> decide
    have hu := unify_self_fn_call (k + 1) _ hl hg
    simp only [visit_self_application, check_call, Expr.type_, self_fn, rvalue_args, rvalue_slot,
      Option.getD, List.length_cons, List.length_nil] at hc hu ⊢
    simp [coerce_args, hc, constrain, fn_type_of, fn_type, tuple_type, Ty.isTuple, Ty.ops, hu]

/-- C31 (defect of the code): the fixpoint driver does not terminate for every
module.  When a pass visits the call `f(f)` of a function `f` whose slot holds
`fn(?0, ?1)`, `coerce` puts `?0` below `fn(?0, ?1)` and the following
`constrain` of the callee recurses through `unify(?0, ?0)` without end: with
every bound on the recursion depth and on the number of iterations the loop
of `type_inference` yields no result. -/
theorem type_inference_diverges (is_subtype : Ty → Ty → Bool) (fuel n i : Nat) :
    type_inference (visit_self_application is_subtype fuel) n i ⟨init, 4⟩ = none := by
  cases n with
  | zero => rfl
  | succ k =>
    have h := visit_self_application_diverges is_subtype fuel 4 false
    have ht : init.todo_ = true := rfl
    simp only [type_inference, ht, if_true]
    rw [h]

end InferSema

namespace InferSema

/-! ### Struct literals -/

/-- C32 (defect of the code): `StructExpr::check(InferSema&)` coerces by
position, not by name.  For `struct S { a: i32, b: bool }` and the literal
`S { b: x, a: y }` with `x : ?0` and `y : ?1`, the element naming `b` (declared
at index 1) is coerced into `op(0) = i32` and the element naming `a` into
`op(1) = bool`: afterwards `?0` is below `i32` and `?1` below `bool`, and the
slots of the elements hold these types. -/
theorem struct_expr_coerces_by_position (is_subtype : Ty → Ty → Bool) :
    field_index ["a", "b"] "b" = some 1 ∧ field_index ["a", "b"] "a" = some 0 ∧
    (struct_expr_check is_subtype rvalue_slot 2 ⟨init, 2⟩
      (Ty.struct_type 0 [Ty.prim PrimKind.i32, Ty.prim PrimKind.bool])
      [⟨"b", Expr.expr (some (Ty.unknown 0))⟩, ⟨"a", Expr.expr (some (Ty.unknown 1))⟩]).map
      (fun r => (r.2.1.uf.parent ⟨Ty.unknown 0⟩, r.2.1.uf.parent ⟨Ty.unknown 1⟩,
        r.2.2.map (fun e => (e.symbol, e.expr.type_)))) =
      some (⟨Ty.prim PrimKind.i32⟩, ⟨Ty.prim PrimKind.bool⟩,
        [("b", some (Ty.unknown 0)), ("a", some (Ty.unknown 1))]) := by
  refine ⟨by decide, by decide, ?_⟩
  rfl

end InferSema

namespace InferSema

/-! ### Union by rank -/

theorem rank_lt_root {s : State} (hi : RankInv s) {x root : Representative}
    (h : RootOf s.parent x root) : x ≠ root → s.rank x < s.rank root := by
  induction h with
  | root r _ => intro hne; exact absurd rfl hne
  | step r root hne _ ih =>
    intro _
    have h1 := hi r hne
    by_cases e : s.parent r = root
    · rw [e] at h1; exact h1
    · exact lt_trans h1 (ih e)

theorem unknown_root {s : State} (hi : UnknownLinks s) {x root : Representative}
    (h : RootOf s.parent x root) : x ≠ root → root.type.isUnknown = true := by
  induction h with
  | root r _ => intro hne; exact absurd rfl hne
  | step r root hne _ ih =>
    intro _
    by_cases e : s.parent r = root
    · rw [← e]; exact hi r hne
    · exact ih e

theorem rankInv_find_repr {n : Nat} {s s1 : State} {r root : Representative} (hi : RankInv s)
    (h : find_repr n s r = some (root, s1)) : RankInv s1 := by
  obtain ⟨_, hc, hrk, _, _⟩ := find_repr_sound n s r root s1 h
  intro z hz
  rw [hrk]
  rcases hc z with e | ⟨hne, hroot⟩
  · rw [e] at hz ⊢
    exact hi z hz
  · exact rank_lt_root hi hroot (Ne.symm hz)

theorem unknownLinks_find_repr {n : Nat} {s s1 : State} {r root : Representative}
    (hi : UnknownLinks s) (h : find_repr n s r = some (root, s1)) : UnknownLinks s1 := by
  obtain ⟨_, hc, _, _, _⟩ := find_repr_sound n s r root s1 h
  intro z hz
  rcases hc z with e | ⟨hne, hroot⟩
  · rw [e] at hz ⊢
    exact hi z hz
  · exact unknown_root hi hroot (Ne.symm hz)

theorem rankInv_link_lt {s : State} {x y : Representative} (hi : RankInv s)
    (hlt : s.rank x < s.rank y) :
    RankInv { s with parent := Function.update s.parent x y } := by
  intro z hz
  show s.rank z < s.rank (Function.update s.parent x y z)
  by_cases e : z = x
  · subst e; simpa using hlt
  · have hz2 : s.parent z ≠ z := by simpa [Function.update_noteq e] using hz
    rw [Function.update_noteq e]
    exact hi z hz2

theorem rankInv_link_eq {s : State} {x y : Representative} (hi : RankInv s)
    (hx : s.parent x = x) (hxy : x ≠ y) (hle : s.rank y ≤ s.rank x) :
    RankInv { s with parent := Function.update s.parent y x
                     rank := Function.update s.rank x (s.rank x + 1) } := by
  intro z hz
  show Function.update s.rank x (s.rank x + 1) z <
    Function.update s.rank x (s.rank x + 1) (Function.update s.parent y x z)
  by_cases e : z = y
  · subst e
    rw [Function.update_same, Function.update_same, Function.update_noteq (Ne.symm hxy)]
    omega
  · have hz2 : s.parent z ≠ z := by
      have : Function.update s.parent y x z ≠ z := hz
      simpa [Function.update_noteq e] using this
    have hzx : z ≠ x := fun e2 => hz2 (e2 ▸ hx)
    rw [Function.update_noteq e, Function.update_noteq hzx]
    have h1 := hi z hz2
    by_cases e3 : s.parent z = x
    · rw [e3, Function.update_same]; rw [e3] at h1; omega
    · rw [Function.update_noteq e3]; exact h1

theorem rankInv_unify_by_rank {s : State} {x y : Representative} (hi : RankInv s)
    (hx : s.parent x = x) : RankInv (unify_by_rank s x y).2 := by
  unfold unify_by_rank
  by_cases hxy : x = y
  · simpa [hxy] using hi
  · simp only [hxy, if_false]
    split_ifs with h1 h2
    · exact rankInv_link_lt hi h1
    · exact rankInv_link_lt hi h2
    · exact rankInv_link_eq hi hx hxy (by omega)

theorem unknownLinks_link {s : State} {x y : Representative} (hi : UnknownLinks s)
    (hy : y.type.isUnknown = true) (rk : Representative → Nat) (td : Bool) :
    UnknownLinks { parent := Function.update s.parent x y, rank := rk, todo_ := td } := by
  intro z hz
  show (Function.update s.parent x y z).type.isUnknown = true
  by_cases e : z = x
  · subst e; simpa using hy
  · have hz2 : s.parent z ≠ z := by
      have : Function.update s.parent x y z ≠ z := hz
      simpa [Function.update_noteq e] using this
    rw [Function.update_noteq e]
    exact hi z hz2

theorem unknownLinks_unify_by_rank {s : State} {x y : Representative} (hi : UnknownLinks s)
    (hx : x.type.isUnknown = true) (hy : y.type.isUnknown = true) :
    UnknownLinks (unify_by_rank s x y).2 := by
  unfold unify_by_rank
  by_cases hxy : x = y
  · simpa [hxy] using hi
  · simp only [hxy, if_false]
    split_ifs
    · exact unknownLinks_link hi hy _ _
    · exact unknownLinks_link hi hx _ _
    · exact unknownLinks_link hi hx _ _

/-- On two roots of `Unknown` type the body of `unify` is `unify_by_rank`. -/
theorem unify_body_unknowns (u : State → Ty → Ty → Option (Ty × State)) (s : State)
    {dr sr : Representative} (hd : dr.type.isUnknown = true) (hs : sr.type.isUnknown = true) :
    unify_body u s dr sr =
      some ((unify_by_rank s dr sr).1.type, (unify_by_rank s dr sr).2) := by
  obtain ⟨dt⟩ := dr
  obtain ⟨st⟩ := sr
  cases dt <;> simp [Ty.isUnknown] at hd
  cases st <;> simp [Ty.isUnknown] at hs
  simp [unify_body, normalize, fn_hack, Ty.isTuple, Ty.isFn, Ty.is_known, Ty.isError,
    Ty.isUnknown]

theorem root_of_unknown {s : State} (hi : UnknownLinks s) {i : Nat} {root : Representative}
    (h : RootOf s.parent ⟨Ty.unknown i⟩ root) : root.type.isUnknown = true := by
  by_cases e : (⟨Ty.unknown i⟩ : Representative) = root
  · rw [← e]; rfl
  · exact unknown_root hi h e

theorem unknownReachable_inv {s : State} (h : UnknownReachable s) :
    RankInv s ∧ UnknownLinks s := by
  induction h with
  | init => exact ⟨fun r hr => absurd rfl hr, fun r hr => absurd rfl hr⟩
  | unify fuel i j r s1 _ hu ih =>
    obtain ⟨k, dr, sa, sr, sb, _, hf1, hf2, hb⟩ := unify_eq_some hu
    obtain ⟨hr1, hc1, _, _, _⟩ := find_repr_sound _ _ _ _ _ hf1
    obtain ⟨hr2, _, _, _, _⟩ := find_repr_sound _ _ _ _ _ hf2
    have hl1 : UnknownLinks sa := unknownLinks_find_repr ih.2 hf1
    have hl2 : UnknownLinks sb := unknownLinks_find_repr hl1 hf2
    have hk2 : RankInv sb := rankInv_find_repr (rankInv_find_repr ih.1 hf1) hf2
    have hd : dr.type.isUnknown = true := root_of_unknown ih.2 hr1
    have hs : sr.type.isUnknown = true := root_of_unknown hl1 hr2
    obtain ⟨hdr, _⟩ := roots_after_finds hf1 hf2
    rw [unify_body_unknowns _ _ hd hs] at hb
    have e := (Prod.mk.inj (Option.some.inj hb)).2
    rw [← e]
    exact ⟨rankInv_unify_by_rank hk2 hdr, unknownLinks_unify_by_rank hl2 hd hs⟩

/-- C33 (counterexample): after `unify(?0, ?1)` and `unify(i32, ?0)` the
representative of `?0` has rank 1 and its parent, the one of `i32`, has rank 1
as well: `unify(Representative*, Representative*)` puts `y` below `x` whatever
the ranks are. -/
theorem rank_invariant_counterexample : ¬ (∀ s : State, UnifyReachable s → RankInv s) := by
  intro h
  have h1 : UnifyReachable _ :=
    UnifyReachable.unify 1 (Ty.unknown 0) (Ty.unknown 1) _ _ UnifyReachable.init rfl
  have h2 : UnifyReachable _ :=
    UnifyReachable.unify 1 (Ty.prim PrimKind.i32) (Ty.unknown 0) _ _ h1 rfl
  have h3 := h _ h2 ⟨Ty.unknown 0⟩ (by decide)
  revert h3
  decide

/-- C33 (amended): in every state reachable by `unify` calls on two `Unknown`s,
where every merge is done by `unify_by_rank`, every representative that is not
its own parent has a parent whose rank is strictly greater than its own. -/
theorem rank_invariant_unknowns (s : State) (h : UnknownReachable s) : RankInv s :=
  (unknownReachable_inv h).1

theorem rank_invariant_unknowns_witness :
    ∃ s : State, UnknownReachable s ∧ s.parent ⟨Ty.unknown 1⟩ = ⟨Ty.unknown 0⟩ ∧ RankInv s :=
  have h : UnknownReachable _ :=
    UnknownReachable.unify 1 0 1 _ _ UnknownReachable.init rfl
  ⟨_, h, rfl, rank_invariant_unknowns _ h⟩

end InferSema

namespace InferSema

/-! ### Known types and the forest -/

/-- C34: in every state reachable by calls of `find` and `unify` (`constrain`
is one or the other), every known type is its own representative: `find(t)`
returns `t` and leaves the state unchanged; a representative that is not its
own parent belongs to a type that is not known. -/
theorem known_types_are_roots (s : State) (hs : Reachable s) :
    (∀ t : Ty, t.is_known = true → ∀ n, find (n + 1) s t = some (t, s)) ∧
    (∀ r : Representative, s.parent r ≠ r → r.type.is_known = false) := by
  have hi := reachable_inv hs
  refine ⟨?_, ?_⟩
  · intro t hk n
    have hr := known_is_root hi hk
    unfold find
    rw [find_repr_root hr n]
    rfl
  · intro r hr
    by_contra hk
    have hk2 : r.type.is_known = true := by simpa using hk
    have := known_is_root hi hk2
    exact hr this

theorem known_types_are_roots_witness :
    ∃ s : State, Reachable s ∧ s.parent ⟨Ty.unknown 0⟩ = ⟨Ty.prim PrimKind.i32⟩ ∧
      ((∀ t : Ty, t.is_known = true → ∀ n, find (n + 1) s t = some (t, s)) ∧
        (∀ r : Representative, s.parent r ≠ r → r.type.is_known = false)) :=
  have h : Reachable _ :=
    Reachable.unify 1 (Ty.unknown 0) (Ty.prim PrimKind.i32) _ _ Reachable.init rfl
  ⟨_, h, rfl, known_types_are_roots _ h⟩

/-- C35: in every reachable state the parent links form a forest and
`find(Representative*)` returns for every representative, with a self-parented
root, once the recursion depth suffices; path compression and the two merges,
applied to roots, leave a forest; and in every state whatever the two `find`s at
the start of `unify(Type, Type)` return are self-parented roots of the state in
which the body, and with it the merge, runs. -/
theorem parents_form_forest (s : State) (hs : Reachable s) :
    Forest s ∧
    (∀ r, ∃ n root s1, s.parent root = root ∧ s1.parent root = root ∧
      ∀ m, n ≤ m → find_repr m s r = some (root, s1)) ∧
    (∀ n r root s1, find_repr n s r = some (root, s1) → Forest s1) ∧
    (∀ x y, s.parent x = x → s.parent y = y →
      Forest (unify_repr s x y).2 ∧ Forest (unify_by_rank s x y).2) ∧
    (∀ (s0 : State) (k : Nat) (a b : Ty) (dr sr : Representative) (s1 s2 : State),
      find_repr (k + 1) s0 (representative a) = some (dr, s1) →
      find_repr (k + 1) s1 (representative b) = some (sr, s2) →
      unify (k + 1) s0 a b = unify_body (unify k) s2 dr sr ∧
        s2.parent dr = dr ∧ s2.parent sr = sr) := by
  have hi := reachable_inv hs
  refine ⟨hi.1, ?_, ?_, ?_, ?_⟩
  · intro r
    obtain ⟨root, hroot⟩ := hi.1 r
    obtain ⟨n, s1, h1⟩ := find_repr_complete hroot s rfl
    obtain ⟨_, hc, _, _, _⟩ := find_repr_sound n s r root s1 h1
    exact ⟨n, root, s1, rootOf_is_root hroot, compressed_root hc (rootOf_is_root hroot),
      fun m hm => find_repr_mono_le hm h1⟩
  · intro n r root s1 h
    exact (inv_find_repr hi h).1
  · intro x y hx hy
    constructor
    · unfold unify_repr
      by_cases hxy : x = y
      · simpa [hxy] using hi.1
      · simp only [hxy, if_false]
        exact forest_merge hi.1 hx hy hxy _ _
    · unfold unify_by_rank
      by_cases hxy : x = y
      · simpa [hxy] using hi.1
      · simp only [hxy, if_false]
        split_ifs
        · exact forest_merge hi.1 hy hx (Ne.symm hxy) _ _
        · exact forest_merge hi.1 hx hy hxy _ _
        · exact forest_merge hi.1 hx hy hxy _ _
  · intro s0 k a b dr sr s1 s2 hf1 hf2
    exact ⟨unify_of_finds hf1 hf2, roots_after_finds hf1 hf2⟩

theorem parents_form_forest_witness :
    ∃ s : State, Reachable s ∧ s.parent ⟨Ty.unknown 0⟩ = ⟨Ty.prim PrimKind.i32⟩ ∧
      (Forest s ∧
      (∀ r, ∃ n root s1, s.parent root = root ∧ s1.parent root = root ∧
        ∀ m, n ≤ m → find_repr m s r = some (root, s1)) ∧
      (∀ n r root s1, find_repr n s r = some (root, s1) → Forest s1) ∧
      (∀ x y, s.parent x = x → s.parent y = y →
        Forest (unify_repr s x y).2 ∧ Forest (unify_by_rank s x y).2) ∧
      (∀ (s0 : State) (k : Nat) (a b : Ty) (dr sr : Representative) (s1 s2 : State),
        find_repr (k + 1) s0 (representative a) = some (dr, s1) →
        find_repr (k + 1) s1 (representative b) = some (sr, s2) →
        unify (k + 1) s0 a b = unify_body (unify k) s2 dr sr ∧
          s2.parent dr = dr ∧ s2.parent sr = sr)) :=
  have h : Reachable _ :=
    Reachable.unify 1 (Ty.unknown 0) (Ty.prim PrimKind.i32) _ _ Reachable.init rfl
  ⟨_, h, rfl, parents_form_forest _ h⟩

end InferSema

namespace TypeSema

/-! ### Symmetry of casts -/

/-- C36: the value `valid_cast` of `CastExpr::check` is symmetric in the source
and the destination type, and so is the acceptance of a cast: the invalid-cast
error is emitted for the cast from `a` to `b` exactly when it is emitted for
the cast from `b` to `a`. -/
theorem cast_validity_symmetric (a b : Ty) :
    valid_cast a b = valid_cast b a ∧
    ∀ (ida idb : Nat) (s : TypeSema),
      (emitted s (cast_expr_check ida a b s) = []) ↔
        (emitted s (cast_expr_check idb b a s) = []) := by
  have h : valid_cast a b = valid_cast b a := by
    simp only [valid_cast, symmetric]
    generalize a.isPtr = p1
    generalize b.isPtr = p2
    generalize a.is_float = f1
    generalize b.is_float = f2
    generalize a.is_int = i1
    generalize b.is_int = i2
    generalize a.is_bool = b1
    generalize b.is_bool = b2
    cases p1 <;> cases p2 <;> cases f1 <;> cases f2 <;> cases i1 <;> cases i2 <;>
      cases b1 <;> cases b2 <;> rfl
  refine ⟨h, ?_⟩
  intro ida idb s
  simp only [cast_expr_check, h]
  cases valid_cast b a <;> simp [emitted, error]

end TypeSema

namespace Legacy

/-! ### Return types -/

/-- C37: for every type `t`, `pack_return_type(t)->unpack_return_type()` is
`t`, and a function type whose last element is `pack_return_type(t)` has the
return type `t`. -/
theorem return_type_round_trip (t : Ty) :
    unpack_return_type (pack_return_type t) = t ∧
    ∀ elems : List Ty, return_type (Ty.fn (elems ++ [pack_return_type t])) = t := by
  have h1 : unpack_return_type (pack_return_type t) = t := by
    unfold pack_return_type
    by_cases h : (t.isTuple && t.num_ops != 1) = true
    · rw [if_pos h]
      simp only [Bool.and_eq_true, bne_iff_ne, ne_eq] at h
      obtain ⟨ht, hn⟩ := h
      cases t <;> simp [Ty.isTuple] at ht
      simp only [Ty.num_ops, Ty.ops] at hn
      simp [unpack_return_type, Ty.num_ops, Ty.ops, hn]
    · rw [if_neg h]
      simp [unpack_return_type, Ty.num_ops, Ty.ops, Ty.op]
  have h2 : (pack_return_type t).isFn = true := by
    unfold pack_return_type
    split_ifs <;> rfl
  refine ⟨h1, ?_⟩
  intro elems
  have hl : (elems ++ [pack_return_type t]).getLastD Ty.error = pack_return_type t := by
    simp [List.getLastD_eq_getLast?]
  have hne : elems ++ [pack_return_type t] ≠ [] := by simp
  simp only [return_type, Ty.ops, hl, h2, h1, if_true, ne_eq, hne, not_false_eq_true]

end Legacy

namespace Legacy

/-! ### The legacy symbol table and `NameSema` -/

theorem slots_depth_le : ∀ (scopes : List (List Decl)) (sym : Symbol),
    ∀ slot ∈ slots_of scopes sym, slot.depth ≤ scopes.length
  | [], sym, slot, h => by simp [slots_of] at h
  | scope :: outer, sym, slot, h => by
    simp only [slots_of, List.mem_append, List.mem_map] at h
    rcases h with ⟨d, _, e⟩ | h
    · rw [← e]; simp
    · have := slots_depth_le outer sym slot h
      simp only [List.length_cons]
      omega

theorem head_filter_eq_find {α : Type} (p : α → Bool) : ∀ l : List α,
    (l.filter p).head? = l.find? p
  | [] => rfl
  | a :: l => by
    by_cases h : p a = true
    · simp [List.filter, List.find?, h]
    · have h2 : p a = false := by simpa using h
      simp [List.filter, List.find?, h2, head_filter_eq_find p l]

theorem slots_head : ∀ (scopes : List (List Decl)) (sym : Symbol),
    (slots_of scopes sym).head?.map Slot.decl = NameSema.lexical_lookup scopes sym
  | [], sym => by simp [slots_of, NameSema.lexical_lookup, NameSema.live]
  | scope :: outer, sym => by
    have ih := slots_head outer sym
    simp only [NameSema.lexical_lookup] at ih ⊢
    simp only [slots_of, NameSema.live, List.find?_append]
    cases hf : scope.filter (fun x => decide (x.symbol = sym)) with
    | nil =>
      have h1 : scope.find? (fun x => decide (x.symbol = sym)) = none := by
        rw [← head_filter_eq_find, hf]; rfl
      simp [h1, ih]
    | cons d rest =>
      have h1 : scope.find? (fun x => decide (x.symbol = sym)) = some d := by
        rw [← head_filter_eq_find, hf]; rfl
      simp [h1]

theorem slots_ne_nil {scopes : List (List Decl)} {sym : Symbol} {x : Decl}
    (hx : x ∈ NameSema.live scopes) (hs : x.symbol = sym) : slots_of scopes sym ≠ [] := by
  intro h
  have h1 := slots_head scopes sym
  rw [h] at h1
  simp only [List.head?_nil, Option.map_none', NameSema.lexical_lookup] at h1
  have h2 := List.find?_eq_none.1 h1.symm x hx
  simp [hs] at h2

theorem find_map (h : Symbol → List Slot → List Slot) :
    ∀ (l : List (Symbol × List Slot)) (k : Symbol),
    Sema.find (l.map (fun e => (e.1, h e.1 e.2))) k = (Sema.find l k).map (h k)
  | [], k => rfl
  | (key, stack) :: rest, k => by
    simp only [List.map_cons, Sema.find]
    by_cases e : key = k
    · subst e; simp
    · simp [e, find_map h rest k]

theorem find_none_iff : ∀ (l : List (Symbol × List Slot)) (k : Symbol),
    Sema.find l k = none ↔ k ∉ l.map Prod.fst
  | [], k => by simp [Sema.find]
  | (key, stack) :: rest, k => by
    simp only [Sema.find, List.map_cons, List.mem_cons, not_or]
    by_cases e : key = k
    · subst e; simp
    · have e2 : ¬ k = key := fun e3 => e e3.symm
      simp [e, e2, find_none_iff rest k]

theorem find_of_mem : ∀ (l : List (Symbol × List Slot)), (l.map Prod.fst).Nodup →
    ∀ e ∈ l, Sema.find l e.1 = some e.2
  | [], _, e, he => by simp at he
  | (key, stack) :: rest, hnd, e, he => by
    simp only [List.map_cons, List.nodup_cons] at hnd
    rcases List.mem_cons.1 he with h | h
    · subst h; simp [Sema.find]
    · have hne : key ≠ e.1 := by
        intro e2
        apply hnd.1
        rw [e2]
        exact List.mem_map_of_mem Prod.fst h
      simp only [Sema.find, hne, if_false]
      exact find_of_mem rest hnd.2 e h

theorem stack_of_mem {scopes : List (List Decl)} {l : Sema} (h : LSim scopes l)
    {e : Symbol × List Slot} (he : e ∈ l.scope_) : e.2 = slots_of scopes e.1 := by
  have h1 := find_of_mem l.scope_ h.2.2.2 e he
  have h2 := h.2.1 e.1
  simp only [Sema.stack_of, h1, Option.getD_some] at h2
  exact h2

theorem lsim_lookup {scopes : List (List Decl)} {l : Sema} (h : LSim scopes l) (sym : Symbol) :
    l.lookup sym = NameSema.lexical_lookup scopes sym := by
  rw [← slots_head scopes sym, ← h.2.1 sym]
  unfold Sema.lookup Sema.stack_of
  cases hf : Sema.find l.scope_ sym with
  | none => rfl
  | some st => cases st <;> rfl

theorem lsim_init : LSim [[]] Sema.init :=
  ⟨rfl, fun _ => rfl, fun e he => by simp [Sema.init] at he, by simp [Sema.init]⟩

theorem lsim_push {scopes : List (List Decl)} {l : Sema} (h : LSim scopes l) :
    LSim ([] :: scopes) l.pushScope := by
  refine ⟨by simp [Sema.pushScope, h.1], ?_, h.2.2.1, h.2.2.2⟩
  intro sym
  have := h.2.1 sym
  simpa [Sema.pushScope, Sema.stack_of, slots_of] using this

theorem lsim_insert {scope : List Decl} {outer : List (List Decl)} {l : Sema}
    (h : LSim (scope :: outer) l) (d : Decl)
    (hc : scope.any (fun x => decide (x.symbol = d.symbol)) = false) :
    ∃ l1, l.insert d.symbol d = some l1 ∧ LSim ((d :: scope) :: outer) l1 := by
  have hf : scope.filter (fun x => decide (x.symbol = d.symbol)) = [] := by
    rw [List.filter_eq_nil_iff]
    intro x hx
    have := List.any_eq_false.1 hc x hx
    simpa using this
  have hd := h.1
  simp only [List.length_cons] at hd
  have hs : l.stack_of d.symbol = slots_of outer d.symbol := by
    rw [h.2.1 d.symbol]
    simp [slots_of, hf]
  have hcl : l.clash d.symbol = none := by
    unfold Sema.clash
    cases hfd : Sema.find l.scope_ d.symbol with
    | none => rfl
    | some st =>
      cases st with
      | nil => rfl
      | cons slot rest =>
        have hst : slots_of outer d.symbol = slot :: rest := by
          rw [← hs]; simp [Sema.stack_of, hfd]
        have hle := slots_depth_le outer d.symbol slot (by rw [hst]; exact List.mem_cons_self _ _)
        have hne : slot.depth ≠ l.depth_ := by omega
        simp [hne]
  have hins : l.insert d.symbol d = some { l with
      scope_ :=
        match Sema.find l.scope_ d.symbol with
        | none => (d.symbol, [⟨d, l.depth_⟩]) :: l.scope_
        | some _ =>
          l.scope_.map (fun e =>
            (e.1, if e.1 = d.symbol then ⟨d, l.depth_⟩ :: e.2 else e.2)) } := by
    simp only [Sema.insert, hcl]
  refine ⟨_, hins, ?_⟩
  have hnew : ∀ sym, slots_of ((d :: scope) :: outer) sym =
      if d.symbol = sym then ⟨d, l.depth_⟩ :: slots_of (scope :: outer) sym
      else slots_of (scope :: outer) sym := by
    intro sym
    by_cases e : d.symbol = sym
    · simp [slots_of, List.filter, e, hd]
    · simp [slots_of, List.filter, e]
  cases hfd : Sema.find l.scope_ d.symbol with
  | none =>
    have hnk := (find_none_iff l.scope_ d.symbol).1 hfd
    refine ⟨h.1, ?_, ?_, ?_⟩
    · intro sym
      rw [hnew sym]
      have hold := h.2.1 sym
      simp only [Sema.stack_of] at hold ⊢
      by_cases e : d.symbol = sym
      · subst e
        rw [hfd] at hold
        simp only [Option.getD_none] at hold
        simp [Sema.find, ← hold]
      · simp [Sema.find, e, hold]
    · intro e he
      rcases List.mem_cons.1 he with h1 | h1
      · subst h1; simp
      · exact h.2.2.1 e h1
    · simp only [List.map_cons, List.nodup_cons]
      exact ⟨hnk, h.2.2.2⟩
  | some st =>
    refine ⟨h.1, ?_, ?_, ?_⟩
    · intro sym
      rw [hnew sym]
      have hold := h.2.1 sym
      simp only [Sema.stack_of] at hold ⊢
      have hm := find_map (fun k stk => if k = d.symbol then (⟨d, l.depth_⟩ : Slot) :: stk else stk)
        l.scope_ sym
      simp only at hm
      rw [hm]
      by_cases e : d.symbol = sym
      · subst e
        rw [hfd] at hold ⊢
        simp only [Option.getD_some] at hold
        simp [hold]
      · have e2 : ¬ sym = d.symbol := fun e3 => e e3.symm
        simp only [e, e2, if_false]
        cases hfs : Sema.find l.scope_ sym with
        | none => rw [hfs] at hold; simpa using hold
        | some st2 => rw [hfs] at hold; simpa using hold
    · intro e he
      obtain ⟨e0, _, he2⟩ := List.mem_map.1 he
      rw [← he2]
      by_cases e3 : e0.1 = d.symbol
      · simp [e3]
      · simp only [e3, if_false]
        exact h.2.2.1 e0 ‹_›
    · have : (l.scope_.map (fun e =>
          (e.1, if e.1 = d.symbol then (⟨d, l.depth_⟩ : Slot) :: e.2 else e.2))).map Prod.fst =
          l.scope_.map Prod.fst := by
        simp [List.map_map, Function.comp]
      show (List.map Prod.fst (l.scope_.map _)).Nodup
      rw [this]
      exact h.2.2.2

/-- What the loop of `popScope` does to the stack of a symbol when the
innermost scope is closed and every declaration of it shadows an outer one:
the slot of the scope is popped, and no stack is emptied. -/
theorem pop_slots {scope o : List Decl} {outer : List (List Decl)}
    (hu : UniqueSymbols (scope :: o :: outer))
    (hq : scope.all (fun d => (NameSema.live (o :: outer)).any
      (fun x => decide (x.symbol = d.symbol))) = true)
    (sym : Symbol) (depth : Nat) (hd : depth = outer.length + 1 + 1) :
    Sema.pop_top depth (slots_of (scope :: o :: outer) sym) = slots_of (o :: outer) sym ∧
    (slots_of (scope :: o :: outer) sym ≠ [] → slots_of (o :: outer) sym ≠ [] ∧
      ∀ slot, slots_of (scope :: o :: outer) sym = [slot] → depth ≠ slot.depth) := by
  have hso : slots_of (scope :: o :: outer) sym =
      (scope.filter (fun x => decide (x.symbol = sym))).map
        (fun d => ⟨d, (o :: outer).length + 1⟩) ++ slots_of (o :: outer) sym := rfl
  have hlen := hu scope (List.mem_cons_self _ _) sym
  rw [hso]
  cases hf : scope.filter (fun x => decide (x.symbol = sym)) with
  | nil =>
    simp only [List.map_nil, List.nil_append]
    cases hs2 : slots_of (o :: outer) sym with
    | nil => exact ⟨rfl, fun hne => absurd rfl hne⟩
    | cons slot rest =>
      have hle := slots_depth_le (o :: outer) sym slot
        (by rw [hs2]; exact List.mem_cons_self _ _)
      simp only [List.length_cons] at hle
      have hne : ¬ depth = slot.depth := by omega
      refine ⟨by simp [Sema.pop_top, hne], fun _ => ⟨by simp, ?_⟩⟩
      intro slot2 h2
      simp only [List.cons.injEq] at h2
      rw [← h2.1]
      exact hne
  | cons d rest =>
    rw [hf] at hlen
    have hr : rest = [] := by
      cases rest with
      | nil => rfl
      | cons _ _ => simp at hlen
    subst hr
    have hdm : d ∈ scope.filter (fun x => decide (x.symbol = sym)) := by
      rw [hf]; exact List.mem_cons_self _ _
    obtain ⟨hd1, hd2⟩ := List.mem_filter.1 hdm
    have hd3 : d.symbol = sym := by simpa using hd2
    have hany := List.all_eq_true.1 hq d hd1
    obtain ⟨x, hx1, hx2⟩ := List.any_eq_true.1 hany
    have hx3 : x.symbol = sym := by
      have : x.symbol = d.symbol := by simpa using hx2
      rw [this, hd3]
    have hne := slots_ne_nil hx1 hx3
    refine ⟨by simp [Sema.pop_top, hd], fun _ => ⟨hne, ?_⟩⟩
    intro slot2 h2
    exfalso
    simp only [List.map_cons, List.map_nil, List.cons_append, List.nil_append,
      List.cons.injEq] at h2
    exact hne h2.2

theorem lsim_pop {scope o : List Decl} {outer : List (List Decl)} {l : Sema}
    (h : LSim (scope :: o :: outer) l) (hu : UniqueSymbols (scope :: o :: outer))
    (hq : scope.all (fun d => (NameSema.live (o :: outer)).any
      (fun x => decide (x.symbol = d.symbol))) = true) :
    ∃ l1, l.popScope = some l1 ∧ LSim (o :: outer) l1 := by
  have hd := h.1
  simp only [List.length_cons] at hd
  have hpos : 0 < l.depth_ := by omega
  have hany : l.scope_.any (fun e =>
      match e.2 with
      | [] => true
      | [slot] => decide (l.depth_ = slot.depth)
      | _ => false) = false := by
    rw [List.any_eq_false]
    intro e he
    have he2 := stack_of_mem h he
    have hne := h.2.2.1 e he
    have hp := (pop_slots hu hq e.1 l.depth_ hd).2 (by rw [← he2]; exact hne)
    rw [← he2] at hp
    cases hst : e.2 with
    | nil => exact absurd hst hne
    | cons slot rest =>
      cases rest with
      | nil =>
        have := hp.2 slot hst
        simp [this]
      | cons _ _ => simp
  have hpop : l.popScope = some
      { scope_ := l.scope_.map (fun e => (e.1, Sema.pop_top l.depth_ e.2))
        depth_ := l.depth_ - 1 } := by
    simp only [Sema.popScope, hpos, if_true, hany, Bool.false_eq_true, if_false]
  refine ⟨_, hpop, ?_, ?_, ?_, ?_⟩
  · show l.depth_ - 1 = (o :: outer).length
    simp only [List.length_cons]; omega
  · intro sym
    have hold := h.2.1 sym
    have hm := find_map (fun _ stk => Sema.pop_top l.depth_ stk) l.scope_ sym
    simp only [Sema.stack_of] at hold ⊢
    show (Sema.find (l.scope_.map (fun e => (e.1, Sema.pop_top l.depth_ e.2))) sym).getD [] = _
    rw [hm, ← (pop_slots hu hq sym l.depth_ hd).1, ← hold]
    cases Sema.find l.scope_ sym <;> rfl
  · intro e he
    obtain ⟨e0, he0, he2⟩ := List.mem_map.1 he
    rw [← he2]
    have hst := stack_of_mem h he0
    have hne := h.2.2.1 e0 he0
    have hp := pop_slots hu hq e0.1 l.depth_ hd
    show Sema.pop_top l.depth_ e0.2 ≠ []
    rw [hst, hp.1]
    exact (hp.2 (by rw [← hst]; exact hne)).1
  · have : (l.scope_.map (fun e => (e.1, Sema.pop_top l.depth_ e.2))).map Prod.fst =
        l.scope_.map Prod.fst := by
      simp [List.map_map, Function.comp]
    show (List.map Prod.fst (l.scope_.map _)).Nodup
    rw [this]
    exact h.2.2.2

theorem unique_step {op : NameSema.TableOp} {scopes scopes1 : List (List Decl)}
    (hu : UniqueSymbols scopes) (h : NameSema.lexical_step op scopes = some scopes1) :
    UniqueSymbols scopes1 := by
  cases op with
  | push_scope =>
    simp only [NameSema.lexical_step, Option.some.injEq] at h
    subst h
    intro sc hsc sym
    rcases List.mem_cons.1 hsc with e | e
    · subst e; simp
    · exact hu sc e sym
  | insert d =>
    cases scopes with
    | nil => simp [NameSema.lexical_step] at h
    | cons scope outer =>
      simp only [NameSema.lexical_step, Option.some.injEq] at h
      subst h
      intro sc hsc sym
      rcases List.mem_cons.1 hsc with e | e
      · subst e
        by_cases hc : scope.any (fun x => decide (x.symbol = d.symbol)) = true
        · rw [if_pos hc]; exact hu scope (List.mem_cons_self _ _) sym
        · rw [if_neg hc]
          have hc2 : scope.any (fun x => decide (x.symbol = d.symbol)) = false := by
            simpa using hc
          by_cases e2 : d.symbol = sym
          · have hf : scope.filter (fun x => decide (x.symbol = sym)) = [] := by
              rw [List.filter_eq_nil_iff]
              intro x hx
              have := List.any_eq_false.1 hc2 x hx
              rw [← e2]
              simpa using this
            simp [List.filter, e2, hf]
          · have := hu scope (List.mem_cons_self _ _) sym
            simpa [List.filter, e2] using this
      · exact hu sc (List.mem_cons_of_mem _ e) sym
  | pop_scope =>
    cases scopes with
    | nil => simp [NameSema.lexical_step] at h
    | cons scope outer =>
      cases outer with
      | nil => simp [NameSema.lexical_step] at h
      | cons o outer =>
        simp only [NameSema.lexical_step, Option.some.injEq] at h
        subst h
        intro sc hsc sym
        exact hu sc (List.mem_cons_of_mem _ hsc) sym

/-- The legacy table follows lexical scoping along every sequence that is
well scoped, clash free and closes only scopes whose declarations shadow outer
ones. -/
theorem lsim_run : ∀ (ops : List NameSema.TableOp) (scopes scopes1 : List (List Decl))
    (l : Sema), LSim scopes l → UniqueSymbols scopes → clash_free ops scopes = true →
    shadowing_closes ops scopes = true →
    NameSema.lexical_run ops scopes = some scopes1 →
    ∃ l1, run_sema ops l = some l1 ∧ LSim scopes1 l1
  | [], scopes, scopes1, l, h, _, _, _, hr => by
    simp only [NameSema.lexical_run, Option.some.injEq] at hr
    subst hr
    exact ⟨l, rfl, h⟩
  | op :: ops, scopes, scopes1, l, h, hu, hc, hsh, hr => by
    simp only [NameSema.lexical_run] at hr
    cases hst : NameSema.lexical_step op scopes with
    | none => simp [hst] at hr
    | some sc =>
      simp only [hst] at hr
      simp only [clash_free, hst, Bool.and_eq_true] at hc
      simp only [shadowing_closes, hst, Bool.and_eq_true] at hsh
      have hu1 := unique_step hu hst
      have key : ∃ l0, run_sema_op op l = some l0 ∧ LSim sc l0 := by
        cases op with
        | push_scope =>
          simp only [NameSema.lexical_step, Option.some.injEq] at hst
          subst hst
          exact ⟨_, rfl, lsim_push h⟩
        | insert d =>
          cases scopes with
          | nil => simp [NameSema.lexical_step] at hst
          | cons scope outer =>
            have hc1 : scope.any (fun x => decide (x.symbol = d.symbol)) = false := by
              simpa using hc.1
            simp only [NameSema.lexical_step, hc1, Bool.false_eq_true, if_false,
              Option.some.injEq] at hst
            subst hst
            exact lsim_insert h d hc1
        | pop_scope =>
          cases scopes with
          | nil => simp [NameSema.lexical_step] at hst
          | cons scope outer =>
            cases outer with
            | nil => simp [NameSema.lexical_step] at hst
            | cons o outer =>
              simp only [NameSema.lexical_step, Option.some.injEq] at hst
              subst hst
              exact lsim_pop h hu hsh.1
      obtain ⟨l0, hl0, hs0⟩ := key
      obtain ⟨l1, hl1, hs1⟩ := lsim_run ops sc scopes1 l0 hs0 hu1 hc.2 hsh.2 hr
      exact ⟨l1, by simp only [run_sema, hl0, hl1], hs1⟩

theorem lexical_run_take : ∀ (ops : List NameSema.TableOp) (scopes r : List (List Decl)),
    NameSema.lexical_run ops scopes = some r →
    ∀ k, ∃ r1, NameSema.lexical_run (ops.take k) scopes = some r1
  | [], scopes, _, _, k => ⟨scopes, by simp [NameSema.lexical_run]⟩
  | op :: ops, scopes, r, h, 0 => ⟨scopes, by simp [NameSema.lexical_run]⟩
  | op :: ops, scopes, r, h, k + 1 => by
    simp only [NameSema.lexical_run] at h
    cases hst : NameSema.lexical_step op scopes with
    | none => simp [hst] at h
    | some sc =>
      simp only [hst] at h
      obtain ⟨r1, h1⟩ := lexical_run_take ops sc r h k
      exact ⟨r1, by simp only [List.take_succ_cons, NameSema.lexical_run, hst, h1]⟩

theorem clash_free_take : ∀ (ops : List NameSema.TableOp) (scopes : List (List Decl)),
    clash_free ops scopes = true → ∀ k, clash_free (ops.take k) scopes = true
  | [], _, _, k => by simp [clash_free]
  | op :: ops, _, _, 0 => by simp [clash_free]
  | op :: ops, scopes, h, k + 1 => by
    simp only [clash_free, Bool.and_eq_true] at h
    simp only [List.take_succ_cons, clash_free, Bool.and_eq_true]
    refine ⟨h.1, ?_⟩
    cases hst : NameSema.lexical_step op scopes with
    | none => rfl
    | some sc =>
      have h2 := h.2
      simp only [hst] at h2
      exact clash_free_take ops sc h2 k

theorem shadowing_closes_take : ∀ (ops : List NameSema.TableOp) (scopes : List (List Decl)),
    shadowing_closes ops scopes = true → ∀ k, shadowing_closes (ops.take k) scopes = true
  | [], _, _, k => by simp [shadowing_closes]
  | op :: ops, _, _, 0 => by simp [shadowing_closes]
  | op :: ops, scopes, h, k + 1 => by
    simp only [shadowing_closes, Bool.and_eq_true] at h
    simp only [List.take_succ_cons, shadowing_closes, Bool.and_eq_true]
    refine ⟨h.1, ?_⟩
    cases hst : NameSema.lexical_step op scopes with
    | none => rfl
    | some sc =>
      have h2 := h.2
      simp only [hst] at h2
      exact shadowing_closes_take ops sc h2 k

theorem inserted_take_sublist : ∀ (ops : List NameSema.TableOp) (k : Nat),
    (NameSema.inserted (ops.take k)).Sublist (NameSema.inserted ops)
  | [], k => by simp [NameSema.inserted]
  | op :: ops, 0 => by simp [NameSema.inserted]
  | op :: ops, k + 1 => by
    rw [List.take_succ_cons, NameSema.inserted_cons op ops,
      NameSema.inserted_cons op (ops.take k)]
    exact List.Sublist.append_left (inserted_take_sublist ops k) _

theorem nameSema_lookup_fst (s : NameSema) (sym : Symbol) :
    (s.lookup sym).1 = s.symbol2decl_ sym := by
  unfold NameSema.lookup
  cases s.symbol2decl_ sym <;> rfl

/-- C38 (counterexample): two sequences that are balanced and free of clashes.
After insert `a`, open, insert `d`, open, insert `d`, close, close, with `a` and
`d` of the same symbol, no stack of the legacy table was emptied and the legacy
table returns `a`, but `NameSema` returns `d`.  After open, insert `d`, close
the legacy table has no defined state: `popScope` empties the stack of the
symbol and erases its entry inside the loop over the map. -/
theorem tables_agree_counterexample :
    ¬ (∀ ops : List NameSema.TableOp, balanced ops = true → clash_free ops [[]] = true →
      ∀ (k : Nat) (s : NameSema) (l : Sema),
        NameSema.run_table (ops.take k) NameSema.init = some s →
        run_sema (ops.take k) Sema.init = some l →
        ∀ sym, (s.lookup sym).1 = l.lookup sym) ∧
    ¬ (∀ ops : List NameSema.TableOp, balanced ops = true → clash_free ops [[]] = true →
      (NameSema.inserted ops).Nodup →
      ∀ k : Nat, ∃ l : Sema, run_sema (ops.take k) Sema.init = some l) := by
  constructor
  · intro h
    have hn : (NameSema.run_table [NameSema.TableOp.insert ⟨1, "x", true⟩,
        NameSema.TableOp.push_scope,
        NameSema.TableOp.insert ⟨0, "x", true⟩, NameSema.TableOp.push_scope,
        NameSema.TableOp.insert ⟨0, "x", true⟩, NameSema.TableOp.pop_scope,
        NameSema.TableOp.pop_scope] NameSema.init).map (fun s1 => (s1.lookup "x").1)
        = some (some ⟨0, "x", true⟩) := by decide
    have hl : (run_sema [NameSema.TableOp.insert ⟨1, "x", true⟩,
        NameSema.TableOp.push_scope,
        NameSema.TableOp.insert ⟨0, "x", true⟩, NameSema.TableOp.push_scope,
        NameSema.TableOp.insert ⟨0, "x", true⟩, NameSema.TableOp.pop_scope,
        NameSema.TableOp.pop_scope] Sema.init).map (fun l1 => l1.lookup "x")
        = some (some ⟨1, "x", true⟩) := by decide
    cases hr : NameSema.run_table [NameSema.TableOp.insert ⟨1, "x", true⟩,
        NameSema.TableOp.push_scope,
        NameSema.TableOp.insert ⟨0, "x", true⟩, NameSema.TableOp.push_scope,
        NameSema.TableOp.insert ⟨0, "x", true⟩, NameSema.TableOp.pop_scope,
        NameSema.TableOp.pop_scope] NameSema.init with
    | none => rw [hr] at hn; cases hn
    | some s1 =>
      cases hq : run_sema [NameSema.TableOp.insert ⟨1, "x", true⟩,
          NameSema.TableOp.push_scope,
          NameSema.TableOp.insert ⟨0, "x", true⟩, NameSema.TableOp.push_scope,
          NameSema.TableOp.insert ⟨0, "x", true⟩, NameSema.TableOp.pop_scope,
          NameSema.TableOp.pop_scope] Sema.init with
      | none => rw [hq] at hl; cases hl
      | some l1 =>
        rw [hr] at hn
        rw [hq] at hl
        have hx : (s1.lookup "x").1 = some ⟨0, "x", true⟩ := Option.some.inj hn
        have hy : l1.lookup "x" = some ⟨1, "x", true⟩ := Option.some.inj hl
        have h1 := h [NameSema.TableOp.insert ⟨1, "x", true⟩,
          NameSema.TableOp.push_scope,
          NameSema.TableOp.insert ⟨0, "x", true⟩, NameSema.TableOp.push_scope,
          NameSema.TableOp.insert ⟨0, "x", true⟩, NameSema.TableOp.pop_scope,
          NameSema.TableOp.pop_scope] (by decide) (by decide) 7 s1 l1 hr hq "x"
        rw [hx, hy] at h1
        revert h1
        decide
  · intro h
    obtain ⟨l, hl⟩ := h [NameSema.TableOp.push_scope, NameSema.TableOp.insert ⟨0, "x", true⟩,
      NameSema.TableOp.pop_scope] (by decide) (by decide) (by decide) 3
    have hnone : run_sema (List.take 3 [NameSema.TableOp.push_scope,
        NameSema.TableOp.insert ⟨0, "x", true⟩, NameSema.TableOp.pop_scope]) Sema.init
        = none := by decide
    rw [hnone] at hl
    cases hl

/-- C38 (amended): for every sequence of open-scope, insert and close-scope
operations in which no insert clashes, the scopes are balanced, no declaration
is inserted twice and every declaration of a scope that is closed shadows a
declaration of an enclosing scope, after every step both tables are defined
and the legacy `Sema` table and `NameSema` return the same declaration, or both
none, from `lookup` for every symbol. -/
theorem tables_agree (ops : List NameSema.TableOp) (hb : balanced ops = true)
    (hc : clash_free ops [[]] = true) (hsh : shadowing_closes ops [[]] = true)
    (hnd : (NameSema.inserted ops).Nodup) :
    ∀ k, ∃ (s : NameSema) (l : Sema),
      NameSema.run_table (ops.take k) NameSema.init = some s ∧
      run_sema (ops.take k) Sema.init = some l ∧
      ∀ sym, (s.lookup sym).1 = l.lookup sym := by
  intro k
  have hrun : ∃ r, NameSema.lexical_run ops [[]] = some r := by
    unfold balanced at hb
    cases hr : NameSema.lexical_run ops [[]] with
    | none => simp [hr] at hb
    | some r => exact ⟨r, rfl⟩
  obtain ⟨r, hr⟩ := hrun
  obtain ⟨r1, hr1⟩ := lexical_run_take ops [[]] r hr k
  have h0 : NameSema.Sim [] [] NameSema.init := ⟨rfl, rfl, by simp, fun _ _ => rfl⟩
  obtain ⟨q1, _⟩ := NameSema.sim_run (ops.take k) [] [] NameSema.init h0
    ((inserted_take_sublist ops k).nodup hnd) (by simp [NameSema.live])
  obtain ⟨scope1, outer1, s1, e, hs1, hsim⟩ := q1 r1 hr1
  have hu0 : UniqueSymbols [[]] := by
    intro sc hsc sym
    simp only [List.mem_singleton] at hsc
    subst hsc
    simp
  obtain ⟨l1, hl1, hlsim⟩ := lsim_run (ops.take k) [[]] r1 Sema.init lsim_init hu0
    (clash_free_take ops [[]] hc k) (shadowing_closes_take ops [[]] hsh k) hr1
  refine ⟨s1, l1, hs1, hl1, ?_⟩
  intro sym
  rw [nameSema_lookup_fst, NameSema.sim_lookup outer1 scope1 s1 hsim sym, lsim_lookup hlsim sym, e]

theorem tables_agree_witness :
    balanced [NameSema.TableOp.insert ⟨0, "x", true⟩, NameSema.TableOp.push_scope,
      NameSema.TableOp.insert ⟨1, "x", true⟩, NameSema.TableOp.pop_scope] = true ∧
    clash_free [NameSema.TableOp.insert ⟨0, "x", true⟩, NameSema.TableOp.push_scope,
      NameSema.TableOp.insert ⟨1, "x", true⟩, NameSema.TableOp.pop_scope] [[]] = true ∧
    shadowing_closes [NameSema.TableOp.insert ⟨0, "x", true⟩, NameSema.TableOp.push_scope,
      NameSema.TableOp.insert ⟨1, "x", true⟩, NameSema.TableOp.pop_scope] [[]] = true ∧
    (NameSema.inserted [NameSema.TableOp.insert ⟨0, "x", true⟩, NameSema.TableOp.push_scope,
      NameSema.TableOp.insert ⟨1, "x", true⟩, NameSema.TableOp.pop_scope]).Nodup ∧
    ∀ k, ∃ (s : NameSema) (l : Sema),
      NameSema.run_table (List.take k [NameSema.TableOp.insert ⟨0, "x", true⟩,
        NameSema.TableOp.push_scope, NameSema.TableOp.insert ⟨1, "x", true⟩,
        NameSema.TableOp.pop_scope]) NameSema.init = some s ∧
      run_sema (List.take k [NameSema.TableOp.insert ⟨0, "x", true⟩,
        NameSema.TableOp.push_scope, NameSema.TableOp.insert ⟨1, "x", true⟩,
        NameSema.TableOp.pop_scope]) Sema.init = some l ∧
      ∀ sym, (s.lookup sym).1 = l.lookup sym :=
  ⟨by decide, by decide, by decide, by decide,
    tables_agree _ (by decide) (by decide) (by decide) (by decide)⟩

end Legacy

namespace Legacy

/-! ### The legacy check of infix expressions -/

/-- C39 (defect of the code): the condition of the legacy `InfixExpr::check`
is inverted.  It reports "type error" exactly when `equal` holds for the types
of the operands, and nothing when they differ; with structural equality,
`i32 + i32` is reported (and ends the run where assertions are enabled), and
`i32 + bool` gets the type `i32` without a diagnostic. -/
theorem infix_check_reports_equal_types (equal : Ty → Ty → Bool) (ndebug : Bool)
    (kind : TypeSema.InfixKind) (ltype rtype : Ty) :
    ((infix_expr_check equal ndebug kind ltype rtype).errors = ["type error"] ↔
      equal ltype rtype = true) ∧
    ((infix_expr_check equal ndebug kind ltype rtype).errors = [] ↔
      equal ltype rtype = false) ∧
    infix_expr_check (fun a b => decide (a = b)) false TypeSema.InfixKind.ADD
      (Ty.prim PrimKind.i32) (Ty.prim PrimKind.i32) = ⟨["type error"], true, none⟩ ∧
    infix_expr_check (fun a b => decide (a = b)) ndebug TypeSema.InfixKind.ADD
      (Ty.prim PrimKind.i32) (Ty.prim PrimKind.bool) =
        ⟨[], false, some (Ty.prim PrimKind.i32)⟩ := by
  refine ⟨?_, ?_, by decide, by cases ndebug <;> decide⟩
  · unfold infix_expr_check
    cases equal ltype rtype <;> cases ndebug <;> cases is_rel kind <;> simp
  · unfold infix_expr_check
    cases equal ltype rtype <;> cases ndebug <;> cases is_rel kind <;> simp

end Legacy

namespace InferSema

/-! ### Type arguments in `reduce` -/

/-- C40 (defect of the code): `reduce` reads `type_args[i]` for every explicit
type argument before it extends the vector.  For every `Lambda`, one explicit
type argument and the empty vector that `ASTTypeApp::check` passes on its first
call, the first access is `type_args[0]` in a vector of size 0. -/
theorem reduce_out_of_bounds (app : Ty → Option Ty → Ty) (fuel : Nat) (σ : TypeState)
    (body : Ty) (name : String) (t : Ty) :
    reduce app fuel σ (Ty.lambda body name) [t] [] = Except.error (Fault.out_of_bounds 0 0) := by
  simp [reduce, num_lambdas, constrain_type_args]

end InferSema

end Impala
